import Mathlib

/-!
OpenPGP-SDK: packets, armour and signatures.

A shallow embedding of the packet layer declared in
`include/openpgpsdk/packet.h` and of the hash objects of `src/hash.h`, together
with the parts of the library that these headers and the examples only declare
or call: the packet parser and writer, the armour codec, the signature engine
and the validation of signed messages.  Octets are natural numbers below 256.
-/

set_option maxRecDepth 8192

namespace OpenPGP

/-! ## Packet tags (packet.h, RFC2440bis-12 4.2) -/

/-- Packet Tag, bit 7 mask (this bit is always set). -/
def OPS_PTAG_ALWAYS_SET : Nat := 0x80

/-- Packet Tag, new format flag (bit 6). -/
def OPS_PTAG_NEW_FORMAT : Nat := 0x40

/-- Old packet format: mask for the content tag. -/
def OPS_PTAG_OF_CONTENT_TAG_MASK : Nat := 0x3c

/-- Old packet format: offset of the content tag. -/
def OPS_PTAG_OF_CONTENT_TAG_SHIFT : Nat := 2

/-- Old packet format: mask for the length type. -/
def OPS_PTAG_OF_LENGTH_TYPE_MASK : Nat := 0x03

/-- New packet format: mask for the content tag. -/
def OPS_PTAG_NF_CONTENT_TAG_MASK : Nat := 0x3f

/-- New packet format: offset of the content tag. -/
def OPS_PTAG_NF_CONTENT_TAG_SHIFT : Nat := 0

/-- Old packet format lengths: the meaning of the two length-type bits. -/
inductive ops_ptag_of_lt_t where
  | OPS_PTAG_OF_LT_ONE_BYTE
  | OPS_PTAG_OF_LT_TWO_BYTE
  | OPS_PTAG_OF_LT_FOUR_BYTE
  | OPS_PTAG_OF_LT_INDETERMINATE
  deriving DecidableEq, Repr, Fintype

/-- Enumerator values of `ops_ptag_of_lt_t`. -/
def ops_ptag_of_lt_t.val : ops_ptag_of_lt_t → Nat
  | .OPS_PTAG_OF_LT_ONE_BYTE => 0x00
  | .OPS_PTAG_OF_LT_TWO_BYTE => 0x01
  | .OPS_PTAG_OF_LT_FOUR_BYTE => 0x02
  | .OPS_PTAG_OF_LT_INDETERMINATE => 0x03

/-- The enumerator of `ops_ptag_of_lt_t` with a given value, if any. -/
def ops_ptag_of_lt_t.ofVal : Nat → Option ops_ptag_of_lt_t
  | 0 => some .OPS_PTAG_OF_LT_ONE_BYTE
  | 1 => some .OPS_PTAG_OF_LT_TWO_BYTE
  | 2 => some .OPS_PTAG_OF_LT_FOUR_BYTE
  | 3 => some .OPS_PTAG_OF_LT_INDETERMINATE
  | _ => none

/-- Header length in bytes that the documentation of each `ops_ptag_of_lt_t`
enumerator states ("Packet has a 1 byte length - header is 2 bytes long"); the
indeterminate type has no stated header length. -/
def ops_ptag_of_lt_t.header_length : ops_ptag_of_lt_t → Option Nat
  | .OPS_PTAG_OF_LT_ONE_BYTE => some 2
  | .OPS_PTAG_OF_LT_TWO_BYTE => some 3
  | .OPS_PTAG_OF_LT_FOUR_BYTE => some 5
  | .OPS_PTAG_OF_LT_INDETERMINATE => none

/-- Bit 7 test of a packet-tag octet: `b & OPS_PTAG_ALWAYS_SET`. -/
def ptag_always_set (b : Nat) : Bool := (b &&& OPS_PTAG_ALWAYS_SET) != 0

/-- Format indicator of a packet-tag octet: `b & OPS_PTAG_NEW_FORMAT`. -/
def ptag_new_format (b : Nat) : Bool := (b &&& OPS_PTAG_NEW_FORMAT) != 0

/-- New-format content tag: mask with `OPS_PTAG_NF_CONTENT_TAG_MASK`, then shift
by `OPS_PTAG_NF_CONTENT_TAG_SHIFT`. -/
def ptag_nf_content_tag (b : Nat) : Nat :=
  (b &&& OPS_PTAG_NF_CONTENT_TAG_MASK) >>> OPS_PTAG_NF_CONTENT_TAG_SHIFT

/-- Old-format content tag: mask with `OPS_PTAG_OF_CONTENT_TAG_MASK`, then shift
by `OPS_PTAG_OF_CONTENT_TAG_SHIFT`. -/
def ptag_of_content_tag (b : Nat) : Nat :=
  (b &&& OPS_PTAG_OF_CONTENT_TAG_MASK) >>> OPS_PTAG_OF_CONTENT_TAG_SHIFT

/-- Old-format length type: `b & OPS_PTAG_OF_LENGTH_TYPE_MASK`. -/
def ptag_of_length_type (b : Nat) : Nat := b &&& OPS_PTAG_OF_LENGTH_TYPE_MASK

/-! ## New-format body lengths (packet parser, step 2) -/

/-- Modelled from the spec: the four new-format length encodings of section 4.2
step 2 (the parser source, packet-parse.c, is not part of this tree). -/
inductive nf_length_form where
  | one_octet
  | two_octet
  | partial_body
  | five_octet
  deriving DecidableEq, Repr

/-- Modelled from the spec: which new-format length encoding the first length
octet selects: one-octet (0..191), two-octet (192..223), partial (224..254),
five-octet (255). -/
def nf_length_form_of (b0 : Nat) : nf_length_form :=
  if b0 ≤ 191 then .one_octet
  else if b0 ≤ 223 then .two_octet
  else if b0 ≤ 254 then .partial_body
  else .five_octet

/-- Big-endian value of a list of octets. -/
def read_scalar (bs : List Nat) : Nat :=
  bs.foldl (fun acc b => (acc <<< 8) ||| b) 0

/-- A decoded new-format length: the number of body bytes announced and whether
it announces a partial chunk (more chunks follow). -/
structure nf_length where
  length : Nat
  is_partial : Bool
  deriving DecidableEq, Repr

/-- Modelled from the spec: new-format body-length decoding of section 4.2 step
2: one-octet (0..191), two-octet (192..223, `((b0-192)<<8)+b1+192`), partial
(224..254, `1<<(b0&0x1f)` bytes and more chunks follow), five-octet (255, then
four octets big-endian).  Returns the decoded length and the unread input, or
`none` when the input ends inside the length. -/
def read_new_length : List Nat → Option (nf_length × List Nat)
  | [] => none
  | b0 :: rest =>
    match nf_length_form_of b0 with
    | .one_octet => some (⟨b0, false⟩, rest)
    | .two_octet =>
      match rest with
      | b1 :: rest1 => some (⟨((b0 - 192) <<< 8) + b1 + 192, false⟩, rest1)
      | [] => none
    | .partial_body => some (⟨1 <<< (b0 &&& 0x1f), true⟩, rest)
    | .five_octet =>
      match rest with
      | b1 :: b2 :: b3 :: b4 :: rest4 => some (⟨read_scalar [b1, b2, b3, b4], false⟩, rest4)
      | _ => none

/-! ## Content tags and parser events (packet.h) -/

/-- Content tag of a signature packet (`OPS_PTAG_CT_SIGNATURE`). -/
def OPS_PTAG_CT_SIGNATURE : Nat := 2
/-- Content tag of a one-pass signature packet (`OPS_PTAG_CT_ONE_PASS_SIGNATURE`). -/
def OPS_PTAG_CT_ONE_PASS_SIGNATURE : Nat := 4
/-- Content tag of a compressed data packet (`OPS_PTAG_CT_COMPRESSED`). -/
def OPS_PTAG_CT_COMPRESSED : Nat := 8
/-- Content tag of a symmetrically encrypted data packet (`OPS_PTAG_CT_SK_DATA`). -/
def OPS_PTAG_CT_SK_DATA : Nat := 9
/-- Content tag of a literal data packet (`OPS_PTAG_CT_LITERAL_DATA`). -/
def OPS_PTAG_CT_LITERAL_DATA : Nat := 11
/-- Content tag of an integrity protected data packet (`OPS_PTAG_CT_SK_IP_DATA`). -/
def OPS_PTAG_CT_SK_IP_DATA : Nat := 18
/-- Internal use: parser error. -/
def OPS_PARSER_ERROR : Nat := 0x100
/-- Internal use: the packet is the "Packet Tag" itself. -/
def OPS_PARSER_PTAG : Nat := 0x101
/-- Internal use: content is raw sig subtag. -/
def OPS_PTAG_RAW_SS : Nat := 0x102
/-- Internal use: end of a packet. -/
def OPS_PARSER_PACKET_END : Nat := 0x104
/-- Internal use: parser error with errcode returned. -/
def OPS_PARSER_ERRCODE : Nat := 0x105
/-- Base for signature subpacket types. -/
def OPS_PTAG_SIGNATURE_SUBPACKET_BASE : Nat := 0x200
/-- Pseudo content type: literal data header. -/
def OPS_PTAG_CT_LITERAL_DATA_HEADER : Nat := 0x300
/-- Pseudo content type: literal data body. -/
def OPS_PTAG_CT_LITERAL_DATA_BODY : Nat := 0x300 + 1
/-- Pseudo content type: signature header. -/
def OPS_PTAG_CT_SIGNATURE_HEADER : Nat := 0x300 + 2
/-- Pseudo content type: signature footer. -/
def OPS_PTAG_CT_SIGNATURE_FOOTER : Nat := 0x300 + 3

/-- Signature subpacket types that `ops_content_tag_t` lists as `OPS_PTAG_SS_*`
("only those we can parse are listed here"), without the base 0x200. -/
def ss_known_types : List Nat :=
  [2, 3, 5, 6, 7, 9, 10, 11, 12, 16, 20, 21, 22, 23, 24, 25, 26, 27, 28, 29, 30,
   100, 101, 102, 103, 104, 105, 106, 107, 108, 109, 110]

/-- Whether a subpacket type (critical bit removed) is one the parser knows. -/
def ss_known (t : Nat) : Bool := ss_known_types.contains t

/-- Modelled from the spec: the closed error taxonomy of section 7 (errors.h,
which declares `ops_errcode_t`, is not part of this tree). -/
inductive ops_errcode_t where
  | io
  | format
  | unsupported
  | crypto
  | armour
  | key
  | cancelled
  deriving DecidableEq, Repr

/-- Structure to hold one packet tag. -/
structure ops_ptag_t where
  new_format : Nat
  content_tag : Nat
  length_type : ops_ptag_of_lt_t
  length : Nat
  position : Nat
  deriving DecidableEq, Repr

/-- Union to hold signature parameters of any algorithm. -/
inductive ops_signature_union_t where
  | rsa (sig : Nat)
  | dsa (r s : Nat)
  | elgamal (r s : Nat)
  | unknown (data : List Nat)
  deriving DecidableEq, Repr

/-- Struct to hold a signature packet. -/
structure ops_signature_t where
  version : Nat
  type : Nat
  creation_time : Nat
  signer_id : List Nat
  key_algorithm : Nat
  hash_algorithm : Nat
  hash2 : List Nat
  signature : ops_signature_union_t
  v4_hashed_data_start : Nat
  v4_hashed_data_length : Nat
  deriving DecidableEq, Repr

/-- The raw bytes of a signature subpacket. -/
structure ops_ss_raw_t where
  tag : Nat
  length : Nat
  raw : List Nat
  deriving DecidableEq, Repr

/-- A one-pass signature packet (`ops_one_pass_signature_t`). -/
structure ops_one_pass_signature_t where
  version : Nat
  sig_type : Nat
  hash_algorithm : Nat
  key_algorithm : Nat
  keyid : List Nat
  nested : Nat
  deriving DecidableEq, Repr

/-- The header of a literal data packet (`ops_literal_data_header_t`). -/
structure ops_literal_data_header_t where
  format : Nat
  filename : List Nat
  modification_time : Nat
  deriving DecidableEq, Repr

/-- One chunk of the body of a literal data packet (`ops_literal_data_body_t`,
whose `data` array holds 8192 octets). -/
structure ops_literal_data_body_t where
  length : Nat
  data : List Nat
  deriving DecidableEq, Repr

/-- A whole packet body (`ops_packet_t`). -/
structure ops_packet_t where
  length : Nat
  raw : List Nat
  deriving DecidableEq, Repr

/-- One armour header, a `Key: Value` pair (`ops_armoured_header_value_t`). -/
structure ops_armoured_header_value_t where
  key : List Char
  value : List Char
  deriving DecidableEq, Repr

/-- The header of a cleartext-signed message (`ops_signed_cleartext_header_t`):
its armour headers. -/
structure ops_signed_cleartext_header_t where
  headers : List ops_armoured_header_value_t
  deriving DecidableEq, Repr

/-- One chunk of the body of a cleartext-signed message
(`ops_signed_cleartext_body_t`, whose `data` array holds 8192 octets). -/
structure ops_signed_cleartext_body_t where
  length : Nat
  data : List Nat
  deriving DecidableEq, Repr

/-- The trailer of a cleartext-signed message (`ops_signed_cleartext_trailer_t`):
the hash, not finalised, that has seen all the cleartext data in canonical
form; the state of the hash is the octets it has seen. -/
structure ops_signed_cleartext_trailer_t where
  hash : List Nat
  deriving DecidableEq, Repr

/-- The members of `ops_parser_content_union_t` that the events below carry.
Parsed signature subpackets keep their body as octets (`ss_data`). -/
inductive ops_parser_content_union_t where
  | error (error : String)
  | errcode (errcode : ops_errcode_t)
  | ptag (ptag : ops_ptag_t)
  | signature (signature : ops_signature_t)
  | ss_raw (ss_raw : ops_ss_raw_t)
  | ss_data (data : List Nat)
  | packet (packet : ops_packet_t)
  | one_pass_signature (one_pass_signature : ops_one_pass_signature_t)
  | literal_data_header (literal_data_header : ops_literal_data_header_t)
  | literal_data_body (literal_data_body : ops_literal_data_body_t)
  | signed_cleartext_header (signed_cleartext_header : ops_signed_cleartext_header_t)
  | signed_cleartext_body (signed_cleartext_body : ops_signed_cleartext_body_t)
  | signed_cleartext_trailer (signed_cleartext_trailer : ops_signed_cleartext_trailer_t)
  deriving DecidableEq, Repr

/-- One event delivered to the parser callback (`struct ops_parser_content_t`). -/
structure ops_parser_content_t where
  tag : Nat
  critical : Nat
  content : ops_parser_content_union_t
  deriving DecidableEq, Repr

/-- The code-bearing parse-error event. -/
def errcode_event (e : ops_errcode_t) : ops_parser_content_t :=
  ⟨OPS_PARSER_ERRCODE, 0, .errcode e⟩

/-- The packet-tag event. -/
def ptag_event (p : ops_ptag_t) : ops_parser_content_t :=
  ⟨OPS_PARSER_PTAG, 0, .ptag p⟩

/-- The end-of-packet event, with the packet body the parser retained. -/
def packet_end_event (body : List Nat) : ops_parser_content_t :=
  ⟨OPS_PARSER_PACKET_END, 0, .packet ⟨body.length, body⟩⟩

/-- Whether an event is a parse error (message-only or code-bearing). -/
def is_parse_error (ev : ops_parser_content_t) : Bool :=
  ev.tag == OPS_PARSER_ERROR || ev.tag == OPS_PARSER_ERRCODE

/-! ## Packet parser (spec section 4.2)

The parser source (packet-parse.c) is not part of this tree; the functions of
this section follow the parser loop of section 4.2 of the specification.  A
callback that always answers "ok" is assumed, and the parse stops at the first
error event. -/

/-- Read exactly `n` octets from the input, or fail when fewer are left. -/
def limited_read (n : Nat) (input : List Nat) : Option (List Nat × List Nat) :=
  if n ≤ input.length then some (input.take n, input.drop n) else none

/-- Modelled from the spec: MPI parsing of section 4.2 (packet-parse.c is
missing): a 2-byte bit-length header followed by `ceil(bits/8)` bytes,
big-endian; an MPI whose bit-length is inconsistent with its leading byte is
rejected. -/
def read_mpi : List Nat → Option (Nat × List Nat)
  | h1 :: h0 :: r =>
    let bits := read_scalar [h1, h0]
    match limited_read ((bits + 7) / 8) r with
    | none => none
    | some (bs, rest) =>
      match bs with
      | [] => some (0, rest)
      | b :: _ =>
        let nonzero := if bits % 8 = 0 then 8 else bits % 8
        if b >>> nonzero == 0 && b.testBit (nonzero - 1) then some (read_scalar bs, rest)
        else none
  | _ => none

/-- Modelled from the spec: the length of one signature subpacket (section 4.2,
"its own one- or five-octet length"; packet-parse.c is missing).  The two-octet
form of RFC 4880, which section 6 makes the wire format, is decoded as well. -/
def read_ss_length : List Nat → Option (Nat × List Nat)
  | [] => none
  | b0 :: rest =>
    if b0 < 192 then some (b0, rest)
    else if b0 < 255 then
      match rest with
      | b1 :: rest1 => some (((b0 - 192) <<< 8) + b1 + 192, rest1)
      | [] => none
    else
      match rest with
      | b1 :: b2 :: b3 :: b4 :: rest4 => some (read_scalar [b1, b2, b3, b4], rest4)
      | _ => none

/-- Modelled from the spec: parsing of one signature subpacket (sections 4.2
and 7; packet-parse.c is missing): its own length, a type byte whose bit 7 is
the critical bit, and a type-specific body.  A known type is delivered under
the tag `OPS_PTAG_SIGNATURE_SUBPACKET_BASE + type`; an unknown non-critical one
is delivered as `ss_raw`; an unknown critical one emits a `format` error.
Returns the events and the unread part of the region, `none` after an error. -/
def parse_one_signature_subpacket (region : List Nat) :
    List ops_parser_content_t × Option (List Nat) :=
  match read_ss_length region with
  | none => ([errcode_event .format], none)
  | some (len, r) =>
    match limited_read len r with
    | none => ([errcode_event .format], none)
    | some ([], _) => ([errcode_event .format], none)
    | some (c :: body, rest) =>
      let t := c &&& 0x7f
      let critical := c >>> 7
      if ss_known t then
        ([⟨OPS_PTAG_SIGNATURE_SUBPACKET_BASE + t, critical, .ss_data body⟩], some rest)
      else if critical != 0 then ([errcode_event .format], none)
      else
        ([⟨OPS_PTAG_RAW_SS, critical,
            .ss_raw ⟨OPS_PTAG_SIGNATURE_SUBPACKET_BASE + t, body.length, body⟩⟩], some rest)

/-- Modelled from the spec: "iteratively read subpackets until the region is
consumed" (section 4.2; packet-parse.c is missing).  The first argument bounds
the number of subpackets; the region length is always enough.  The boolean
tells whether the whole region was parsed without error. -/
def parse_signature_subpackets : Nat → List Nat → List ops_parser_content_t × Bool
  | _, [] => ([], true)
  | 0, _ :: _ => ([errcode_event .format], false)
  | fuel + 1, b :: region =>
    match parse_one_signature_subpacket (b :: region) with
    | (evs, none) => (evs, false)
    | (evs, some rest) =>
      ((evs ++ (parse_signature_subpackets fuel rest).1),
        (parse_signature_subpackets fuel rest).2)

/-- Modelled from the spec: the signature parameters of section 3 (packet-parse.c
is missing): `{s}` for RSA, `{r,s}` for DSA and ElGamal, opaque bytes for an
unknown algorithm; the MPIs must fill the rest of the packet body. -/
def parse_signature_params (key_algorithm : Nat) (input : List Nat) :
    Option ops_signature_union_t :=
  if key_algorithm = 1 ∨ key_algorithm = 2 ∨ key_algorithm = 3 then
    match read_mpi input with
    | some (s, []) => some (.rsa s)
    | _ => none
  else if key_algorithm = 17 ∨ key_algorithm = 16 ∨ key_algorithm = 20 then
    match read_mpi input with
    | some (r, rest) =>
      match read_mpi rest with
      | some (s, []) =>
        some (if key_algorithm = 17 then .dsa r s else .elgamal r s)
      | _ => none
    | none => none
  else some (.unknown input)

/-- Modelled from the spec: end of a v4 signature body (packet-parse.c is
missing): the two octets of `hash_prefix`, then the signature parameters, then
the signature footer event. -/
def parse_v4_signature_footer (sig : ops_signature_t) (input : List Nat) :
    List ops_parser_content_t × Bool :=
  match input with
  | h1 :: h0 :: r =>
    match parse_signature_params sig.key_algorithm r with
    | some u =>
      ([⟨OPS_PTAG_CT_SIGNATURE_FOOTER, 0,
          .signature { sig with hash2 := [h1, h0], signature := u }⟩], true)
    | none => ([errcode_event .format], false)
  | _ => ([errcode_event .format], false)

/-- Modelled from the spec: the rest of the unhashed-subpacket region of a v4
signature, then what follows the region (packet-parse.c is missing). -/
def parse_v4_unhashed (sig : ops_signature_t) (region after : List Nat) :
    List ops_parser_content_t × Bool :=
  match parse_signature_subpackets region.length region with
  | (evs, false) => (evs, false)
  | (evs, true) =>
    (evs ++ (parse_v4_signature_footer sig after).1, (parse_v4_signature_footer sig after).2)

/-- Modelled from the spec: "Repeat for the unhashed-subpacket region" (section
4.2; packet-parse.c is missing): a 2-byte big-endian length, then the region. -/
def parse_v4_after_hashed (sig : ops_signature_t) (input : List Nat) :
    List ops_parser_content_t × Bool :=
  match input with
  | u1 :: u0 :: r =>
    match limited_read (read_scalar [u1, u0]) r with
    | none => ([errcode_event .format], false)
    | some (region, after) => parse_v4_unhashed sig region after
  | _ => ([errcode_event .format], false)

/-- Modelled from the spec: the rest of the hashed-subpacket region of a v4
signature, then what follows the region (packet-parse.c is missing). -/
def parse_v4_hashed (sig : ops_signature_t) (region after : List Nat) :
    List ops_parser_content_t × Bool :=
  match parse_signature_subpackets region.length region with
  | (evs, false) => (evs, false)
  | (evs, true) =>
    (evs ++ (parse_v4_after_hashed sig after).1, (parse_v4_after_hashed sig after).2)

/-- The signature record known once the fixed fields and the hashed length of a
v4 signature are read; the hashed data is `0x04 || type || key_alg || hash_alg
|| be16(len) || hashed_subpkts`, counted from the start of the packet body. -/
def v4_signature_header (ty ka ha hashed_len : Nat) : ops_signature_t :=
  { version := 4, type := ty, creation_time := 0, signer_id := [],
    key_algorithm := ka, hash_algorithm := ha, hash2 := [],
    signature := .unknown [], v4_hashed_data_start := 0,
    v4_hashed_data_length := 6 + hashed_len }

/-- Modelled from the spec: a v4 signature body after its version octet
(sections 4.2 and 4.4; packet-parse.c is missing): type, key algorithm, hash
algorithm, the 2-byte big-endian hashed-subpacket length, the hashed region,
the unhashed region, hash prefix and parameters.  The signature header event is
emitted before the subpackets, the footer event after the parameters. -/
def parse_v4_signature (input : List Nat) : List ops_parser_content_t × Bool :=
  match input with
  | ty :: ka :: ha :: h1 :: h0 :: r =>
    match limited_read (read_scalar [h1, h0]) r with
    | none => ([errcode_event .format], false)
    | some (region, after) =>
      let sig := v4_signature_header ty ka ha region.length
      (⟨OPS_PTAG_CT_SIGNATURE_HEADER, 0, .signature sig⟩ :: (parse_v4_hashed sig region after).1,
        (parse_v4_hashed sig region after).2)
  | _ => ([errcode_event .format], false)

/-- Modelled from the spec: a v3 signature body after its version octet
(packet-parse.c is missing; layout of RFC 4880 5.2.2): the octet 5, type,
creation time, signer key ID, key algorithm, hash algorithm, hash prefix and
parameters, delivered as one signature event. -/
def parse_v3_signature (input : List Nat) : List ops_parser_content_t × Bool :=
  match input with
  | 5 :: ty :: t3 :: t2 :: t1 :: t0 :: k0 :: k1 :: k2 :: k3 :: k4 :: k5 :: k6 :: k7
      :: ka :: ha :: h1 :: h0 :: r =>
    match parse_signature_params ka r with
    | some u =>
      ([⟨OPS_PTAG_CT_SIGNATURE, 0,
          .signature
            { version := 3, type := ty, creation_time := read_scalar [t3, t2, t1, t0],
              signer_id := [k0, k1, k2, k3, k4, k5, k6, k7], key_algorithm := ka,
              hash_algorithm := ha, hash2 := [h1, h0], signature := u,
              v4_hashed_data_start := 0, v4_hashed_data_length := 0 }⟩], true)
    | none => ([errcode_event .format], false)
  | _ => ([errcode_event .format], false)

/-- Modelled from the spec: the body parser of a signature packet (packet-parse.c
is missing), selected by the version octet. -/
def parse_signature (body : List Nat) : List ops_parser_content_t × Bool :=
  match body with
  | 3 :: rest => parse_v3_signature rest
  | 4 :: rest => parse_v4_signature rest
  | _ => ([errcode_event .format], false)

/-- Modelled from the spec: the body parser of a one-pass signature packet
(packet-parse.c is missing; layout of RFC 4880 5.4): version, signature type,
hash algorithm, key algorithm, the eight octets of the key ID, and the nested
flag. -/
def parse_one_pass_signature (body : List Nat) : List ops_parser_content_t × Bool :=
  match body with
  | [v, ty, ha, ka, k0, k1, k2, k3, k4, k5, k6, k7, nested] =>
    ([⟨OPS_PTAG_CT_ONE_PASS_SIGNATURE, 0,
        .one_pass_signature ⟨v, ty, ha, ka, [k0, k1, k2, k3, k4, k5, k6, k7], nested⟩⟩], true)
  | _ => ([errcode_event .format], false)

/-- Chunks of at most 8192 octets, the size of the `data` array of a body
chunk event; the first argument bounds their number. -/
def body_chunks : Nat → List Nat → List (List Nat)
  | 0, _ => []
  | _ + 1, [] => []
  | fuel + 1, b :: bs => (b :: bs).take 8192 :: body_chunks fuel ((b :: bs).drop 8192)

/-- Modelled from the spec: the body parser of a literal data packet (section
4.2, data streaming; packet-parse.c is missing; layout of RFC 4880 5.9): the
format octet, the file name with its length octet and the modification time are
delivered as the header event, the data as body-chunk events of at most 8192
octets. -/
def parse_literal_data (body : List Nat) : List ops_parser_content_t × Bool :=
  match body with
  | format :: flen :: rest =>
    match limited_read flen rest with
    | some (filename, m3 :: m2 :: m1 :: m0 :: data) =>
      (⟨OPS_PTAG_CT_LITERAL_DATA_HEADER, 0,
          .literal_data_header ⟨format, filename, read_scalar [m3, m2, m1, m0]⟩⟩
        :: (body_chunks data.length data).map
            (fun chunk => ⟨OPS_PTAG_CT_LITERAL_DATA_BODY, 0,
              .literal_data_body ⟨chunk.length, chunk⟩⟩), true)
    | _ => ([errcode_event .format], false)
  | _ => ([errcode_event .format], false)

/-- Modelled from the spec: step 4 of the parser loop, dispatch by content tag
(packet-parse.c is missing).  Signature, one-pass signature and literal data
packets are parsed into their events; the body of any other packet is delivered
whole under its content tag. -/
def parse_packet_body (ptag : ops_ptag_t) (body : List Nat) :
    List ops_parser_content_t × Bool :=
  if ptag.content_tag = OPS_PTAG_CT_SIGNATURE then parse_signature body
  else if ptag.content_tag = OPS_PTAG_CT_ONE_PASS_SIGNATURE then parse_one_pass_signature body
  else if ptag.content_tag = OPS_PTAG_CT_LITERAL_DATA then parse_literal_data body
  else ([⟨ptag.content_tag, 0, .packet ⟨body.length, body⟩⟩], true)

/-- A packet header as read in steps 1 and 2: the packet tag with its length,
whether the length announces a partial chunk, whether it is indeterminate. -/
structure packet_header where
  ptag : ops_ptag_t
  is_partial : Bool
  indeterminate : Bool
  deriving DecidableEq, Repr

/-- Modelled from the spec: steps 1 and 2 of the parser loop after the bit 7
test (packet-parse.c is missing): old/new format from bit 6, the content tag,
and the body length; old format 1/2/4-byte or indeterminate, new format through
`read_new_length`.  `none` when the input ends inside the header. -/
def read_packet_header (pos b : Nat) (rest : List Nat) :
    Option (packet_header × List Nat) :=
  if ptag_new_format b then
    match read_new_length rest with
    | none => none
    | some (l, r) =>
      some (⟨⟨1, ptag_nf_content_tag b, .OPS_PTAG_OF_LT_ONE_BYTE, l.length, pos⟩,
        l.is_partial, false⟩, r)
  else
    match ops_ptag_of_lt_t.ofVal (ptag_of_length_type b) with
    | some .OPS_PTAG_OF_LT_INDETERMINATE =>
      some (⟨⟨0, ptag_of_content_tag b, .OPS_PTAG_OF_LT_INDETERMINATE, 0, pos⟩,
        false, true⟩, rest)
    | some lt =>
      match limited_read (2 ^ lt.val) rest with
      | none => none
      | some (bs, r) =>
        some (⟨⟨0, ptag_of_content_tag b, lt, read_scalar bs, pos⟩, false, false⟩, r)
    | none => none

/-- The data packets, whose bodies may come in partial chunks: compressed,
symmetrically encrypted, literal and integrity-protected data. -/
def is_data_packet (content_tag : Nat) : Bool :=
  content_tag == OPS_PTAG_CT_COMPRESSED || content_tag == OPS_PTAG_CT_SK_DATA ||
  content_tag == OPS_PTAG_CT_LITERAL_DATA || content_tag == OPS_PTAG_CT_SK_IP_DATA

/-- Modelled from the spec: "Partial-length chunks concatenate to a single
logical packet body" (section 3; packet-parse.c is missing).  Reads the chunk
that the length `l` announces; when `l` is a partial length, reads the next
new-format length and goes on, until a length that is not partial.  The first
argument bounds the number of chunks. -/
def read_partial_body : Nat → nf_length → List Nat → Option (List Nat × List Nat)
  | 0, l, input => if l.is_partial then none else limited_read l.length input
  | fuel + 1, l, input =>
    match limited_read l.length input with
    | none => none
    | some (chunk, r) =>
      if l.is_partial then
        match read_new_length r with
        | none => none
        | some (l2, r2) =>
          match read_partial_body fuel l2 r2 with
          | none => none
          | some (body, r3) => some (chunk ++ body, r3)
      else some (chunk, r)

/-- Modelled from the spec: the bytes of a packet body (step 4, "reads exactly
`length` bytes (or iterates partial chunks for data packets)"; packet-parse.c
is missing).  An indeterminate length takes the rest of the input. -/
def read_packet_body (h : packet_header) (input : List Nat) :
    Option (List Nat × List Nat) :=
  if h.indeterminate then some (input, [])
  else if h.is_partial && is_data_packet h.ptag.content_tag then
    read_partial_body (input.length + 1) ⟨h.ptag.length, true⟩ input
  else limited_read h.ptag.length input

/-- Modelled from the spec: one turn of the parser loop of section 4.2
(packet-parse.c is missing).  Step 1: read one packet tag byte; if bit 7 is
clear, emit a parse error and halt.  Step 2: decode the body length.  Step 3:
emit the packet-tag event.  Step 4: dispatch to the body parser; a packet that
parsed without error ends with the end-of-packet event, which carries the
retained packet body.  Returns the events and the unread input, `none` when the
parse halts. -/
def ops_parse_one_packet (pos : Nat) (input : List Nat) :
    List ops_parser_content_t × Option (List Nat) :=
  match input with
  | [] => ([], none)
  | b :: rest =>
    if !ptag_always_set b then ([errcode_event .format], none)
    else
      match read_packet_header pos b rest with
      | none => ([errcode_event .io], none)
      | some (h, r) =>
        match read_packet_body h r with
        | none => ([ptag_event h.ptag, errcode_event .io], none)
        | some (body, r2) =>
          if (parse_packet_body h.ptag body).2 then
            (ptag_event h.ptag :: ((parse_packet_body h.ptag body).1 ++ [packet_end_event body]),
              some r2)
          else (ptag_event h.ptag :: (parse_packet_body h.ptag body).1, none)

/-- Modelled from the spec: the parser loop (packet-parse.c is missing), one
packet after the other until the input ends or the parse halts.  The first
argument bounds the number of packets. -/
def ops_parse_loop : Nat → Nat → List Nat → List ops_parser_content_t
  | 0, _, _ => []
  | fuel + 1, pos, input =>
    match ops_parse_one_packet pos input with
    | (evs, none) => evs
    | (evs, some rest) => evs ++ ops_parse_loop fuel (pos + (input.length - rest.length)) rest

/-- Modelled from the spec: `parse(reader, callback, opaque)` on a memory
reader holding `input` (packet-parse.c is missing): the events delivered to the
callback, in order.  Every packet takes at least its tag octet, so the input
length bounds the number of packets. -/
def ops_parse (input : List Nat) : List ops_parser_content_t :=
  ops_parse_loop (input.length + 1) 0 input

/-! ## Hash objects (hash.h), fingerprints and key IDs (packet.h) -/

/-- Size of the largest digest a hash object writes. -/
def OPS_MAX_HASH : Nat := 20

/-- Size of a key ID in octets. -/
def OPS_KEY_ID_SIZE : Nat := 8

/-- A hash object (`struct _ops_hash_t`): `init`, `add` and `finish` working on
the private `data` of the object, here a state of type `σ`; `finish` gives the
octets written to `out`. -/
structure ops_hash_t (σ : Type) where
  init : σ
  add : σ → List Nat → σ
  finish : σ → List Nat

/-- Feed the `length` low octets of `n` to a hash, most significant first
(`hash_add_int`, declared in hash.h). -/
def hash_add_int {σ : Type} (hash : ops_hash_t σ) (st : σ) (n : Nat) : Nat → σ
  | 0 => st
  | length + 1 => hash_add_int hash (hash.add st [(n >>> (length * 8)) % 256]) n length

/-- The `len` low octets of `n`, most significant first. -/
def be_bytes (n : Nat) : Nat → List Nat
  | 0 => []
  | len + 1 => (n >>> (len * 8)) % 256 :: be_bytes n len

/-- Union to hold public key parameters of any algorithm. -/
inductive ops_public_key_union_t where
  | dsa (p q g y : Nat)
  | rsa (n e : Nat)
  | elgamal (p g y : Nat)
  deriving DecidableEq, Repr

/-- Structure to hold one pgp public key. -/
structure ops_public_key_t where
  version : Nat
  creation_time : Nat
  days_valid : Nat
  algorithm : Nat
  key : ops_public_key_union_t
  deriving DecidableEq, Repr

/-- A fingerprint: up to 20 octets and their number. -/
structure ops_fingerprint_t where
  fingerprint : List Nat
  length : Nat
  deriving DecidableEq, Repr

/-- Number of significant bits of `n`, counted in at most `fuel` halvings. -/
def mpi_bits_aux : Nat → Nat → Nat
  | 0, _ => 0
  | fuel + 1, n => if n = 0 then 0 else mpi_bits_aux fuel (n / 2) + 1

/-- Number of significant bits of a natural number. -/
def mpi_bits (n : Nat) : Nat := mpi_bits_aux n n

/-- Modelled from the spec: an MPI on the wire (section 4.2; the writer,
create.c, is missing): a 2-byte bit-length header followed by `ceil(bits/8)`
bytes, big-endian. -/
def write_mpi (n : Nat) : List Nat :=
  be_bytes (mpi_bits n) 2 ++ be_bytes n ((mpi_bits n + 7) / 8)

/-- Modelled from the spec: the big integers of a public key, in the order of
section 3 (create.c is missing): RSA `{n,e}`, DSA `{p,q,g,y}`, ElGamal
`{p,g,y}`. -/
def write_public_key_params : ops_public_key_union_t → List Nat
  | .rsa n e => write_mpi n ++ write_mpi e
  | .dsa p q g y => write_mpi p ++ write_mpi q ++ write_mpi g ++ write_mpi y
  | .elgamal p g y => write_mpi p ++ write_mpi g ++ write_mpi y

/-- Modelled from the spec: the body of a public-key packet (create.c is
missing; layout of RFC 4880 5.5.2, which section 6 makes the wire format):
version, creation time, for v3 keys the validity period in days, algorithm,
and the key material. -/
def ops_build_public_key (key : ops_public_key_t) : List Nat :=
  [key.version % 256] ++ be_bytes key.creation_time 4
    ++ (if key.version = 4 then [] else be_bytes key.days_valid 2)
    ++ [key.algorithm % 256] ++ write_public_key_params key.key

/-- Modelled from the spec: `ops_fingerprint` for a v4 key (declared in
packet.h, its source fingerprint.c is missing): SHA-1 of `0x99 || len16 ||
public_key_packet_body`, computed with the hash object `sha1`.  The spec does
not describe the fingerprint of other key versions. -/
def ops_fingerprint {σ : Type} (sha1 : ops_hash_t σ) (key : ops_public_key_t) :
    Option ops_fingerprint_t :=
  if key.version = 4 then
    let mem := ops_build_public_key key
    let l := mem.length
    let st := hash_add_int sha1 sha1.init 0x99 1
    let st := hash_add_int sha1 st l 2
    let st := sha1.add st mem
    some ⟨sha1.finish st, 20⟩
  else none

/-- Modelled from the spec: `ops_keyid` (declared in packet.h, its source
fingerprint.c is missing): the low 8 octets of the v4 fingerprint, or the low 8
octets of `n` for a v3 RSA key. -/
def ops_keyid {σ : Type} (sha1 : ops_hash_t σ) (key : ops_public_key_t) : Option (List Nat) :=
  if key.version = 4 then
    match ops_fingerprint sha1 key with
    | some fp => some (fp.fingerprint.drop (fp.length - OPS_KEY_ID_SIZE))
    | none => none
  else
    match key.key with
    | .rsa n _ => some (be_bytes n OPS_KEY_ID_SIZE)
    | _ => none

/-! ### SHA-1

The hash objects are bindings to an external library; `ops_hash_sha1` is only
declared in hash.h.  The digest itself is the one of FIPS 180. -/

/-- Rotate a 32-bit word left. -/
def rotl32 (x n : Nat) : Nat := ((x <<< n) ||| (x >>> (32 - n))) % 2 ^ 32

/-- SHA-1 padding: 0x80, zeros up to 56 mod 64, the bit length on 8 octets. -/
def sha1_pad (msg : List Nat) : List Nat :=
  msg ++ [0x80] ++ List.replicate ((119 - msg.length % 64) % 64) 0 ++ be_bytes (msg.length * 8) 8

/-- The 80-word message schedule, most recent word first. -/
def sha1_schedule : Nat → List Nat → List Nat
  | 0, w => w
  | n + 1, w =>
    sha1_schedule n
      (rotl32 (w.getD 2 0 ^^^ w.getD 7 0 ^^^ w.getD 13 0 ^^^ w.getD 15 0) 1 :: w)

/-- One SHA-1 round, on the working variables a, b, c, d, e. -/
def sha1_round (t : Nat) (v : Nat × Nat × Nat × Nat × Nat) (w : Nat) :
    Nat × Nat × Nat × Nat × Nat :=
  let (a, b, c, d, e) := v
  let f :=
    if t < 20 then (b &&& c) ||| ((b ^^^ 0xffffffff) &&& d)
    else if t < 40 then b ^^^ c ^^^ d
    else if t < 60 then (b &&& c) ||| (b &&& d) ||| (c &&& d)
    else b ^^^ c ^^^ d
  let k :=
    if t < 20 then 0x5a827999 else if t < 40 then 0x6ed9eba1
    else if t < 60 then 0x8f1bbcdc else 0xca62c1d6
  ((rotl32 a 5 + f + e + k + w) % 2 ^ 32, a, rotl32 b 30, c, d)

/-- All rounds over the schedule words, in order. -/
def sha1_rounds : Nat → Nat × Nat × Nat × Nat × Nat → List Nat → Nat × Nat × Nat × Nat × Nat
  | _, v, [] => v
  | t, v, w :: ws => sha1_rounds (t + 1) (sha1_round t v w) ws

/-- The sixteen big-endian words of a 64-octet block. -/
def sha1_words : Nat → List Nat → List Nat
  | 0, _ => []
  | n + 1, bs => read_scalar (bs.take 4) :: sha1_words n (bs.drop 4)

/-- Compression of one block into the chaining value. -/
def sha1_block (h : Nat × Nat × Nat × Nat × Nat) (block : List Nat) :
    Nat × Nat × Nat × Nat × Nat :=
  let w := (sha1_schedule 64 (sha1_words 16 block).reverse).reverse
  let (a, b, c, d, e) := sha1_rounds 0 h w
  let (h0, h1, h2, h3, h4) := h
  ((h0 + a) % 2 ^ 32, (h1 + b) % 2 ^ 32, (h2 + c) % 2 ^ 32, (h3 + d) % 2 ^ 32,
    (h4 + e) % 2 ^ 32)

/-- Compression of `n` consecutive blocks. -/
def sha1_blocks : Nat → Nat × Nat × Nat × Nat × Nat → List Nat → Nat × Nat × Nat × Nat × Nat
  | 0, h, _ => h
  | n + 1, h, bs => sha1_blocks n (sha1_block h (bs.take 64)) (bs.drop 64)

/-- SHA-1 digest of a message, 20 octets. -/
def sha1_digest (msg : List Nat) : List Nat :=
  let p := sha1_pad msg
  let (h0, h1, h2, h3, h4) :=
    sha1_blocks (p.length / 64) (0x67452301, 0xefcdab89, 0x98badcfe, 0x10325476, 0xc3d2e1f0) p
  be_bytes h0 4 ++ be_bytes h1 4 ++ be_bytes h2 4 ++ be_bytes h3 4 ++ be_bytes h4 4


/-- Modelled from the spec: the hash object that `ops_hash_sha1` sets up
(declared in hash.h, its source is missing): `add` appends to the message seen
so far, `finish` gives its SHA-1 digest. -/
def ops_hash_sha1 : ops_hash_t (List Nat) :=
  { init := [], add := fun st data => st ++ data, finish := sha1_digest }

/-- A small v4 RSA public key, used as an example. -/
def example_public_key : ops_public_key_t :=
  { version := 4, creation_time := 0x4a3b2c1d, days_valid := 0, algorithm := 1,
    key := .rsa 0xc55d 0x11 }

/-! ## Armour codec (spec section 4.6)

The armour writer and the dearmour reader are not part of this tree; this
section follows sections 4.1, 4.6 and 6 of the specification.  Armoured text
is a list of characters, binary data a list of octets. -/

/-- Modelled from the spec: the armour block names of section 6 (the armour
source is missing). -/
inductive armour_type where
  | PGP_MESSAGE
  | PGP_PUBLIC_KEY_BLOCK
  | PGP_PRIVATE_KEY_BLOCK
  | PGP_SIGNATURE
  | PGP_SIGNED_MESSAGE
  deriving DecidableEq, Repr

/-- Modelled from the spec: the text of each block name (section 6). -/
def armour_type.name : armour_type → List Char
  | .PGP_MESSAGE => "PGP MESSAGE".toList
  | .PGP_PUBLIC_KEY_BLOCK => "PGP PUBLIC KEY BLOCK".toList
  | .PGP_PRIVATE_KEY_BLOCK => "PGP PRIVATE KEY BLOCK".toList
  | .PGP_SIGNATURE => "PGP SIGNATURE".toList
  | .PGP_SIGNED_MESSAGE => "PGP SIGNED MESSAGE".toList

/-- All block names, in the order of section 6. -/
def armour_types : List armour_type :=
  [.PGP_MESSAGE, .PGP_PUBLIC_KEY_BLOCK, .PGP_PRIVATE_KEY_BLOCK, .PGP_SIGNATURE,
   .PGP_SIGNED_MESSAGE]

/-- An armoured block: its block name, its headers and the data it carries
(`ops_armour_header_t` with the dearmoured data). -/
structure armour_block where
  type : armour_type
  headers : List ops_armoured_header_value_t
  data : List Nat
  deriving DecidableEq, Repr

/-- The Radix-64 alphabet; the 65th character is the padding `=`. -/
def radix64_alphabet : List Char :=
  "ABCDEFGHIJKLMNOPQRSTUVWXYZabcdefghijklmnopqrstuvwxyz0123456789+/".toList

/-- The character of a 6-bit value. -/
def radix64_char (n : Nat) : Char := radix64_alphabet.getD n 'A'

/-- The 6-bit value of a character of the alphabet. -/
def radix64_value (c : Char) : Option Nat :=
  if radix64_alphabet.indexOf c < 64 then some (radix64_alphabet.indexOf c) else none

/-- Modelled from the spec: Radix-64 encoding, three octets to four characters,
the last group padded with `=` (section 4.6; the armour source is missing). -/
def radix64_encode : List Nat → List Char
  | [] => []
  | [a] => [radix64_char (a / 4), radix64_char (a % 4 * 16), '=', '=']
  | [a, b] =>
    [radix64_char (a / 4), radix64_char (a % 4 * 16 + b / 16), radix64_char (b % 16 * 4), '=']
  | a :: b :: c :: rest =>
    radix64_char (a / 4) :: radix64_char (a % 4 * 16 + b / 16)
      :: radix64_char (b % 16 * 4 + c / 64) :: radix64_char (c % 64) :: radix64_encode rest

/-- Modelled from the spec: Radix-64 decoding (section 4.1, "decodes Radix-64";
the armour source is missing): groups of four characters, padding only in the
last group.  `none` on a character outside the alphabet or a broken group. -/
def radix64_decode : List Char → Option (List Nat)
  | [] => some []
  | c0 :: c1 :: c2 :: c3 :: rest =>
    match radix64_value c0, radix64_value c1 with
    | some s0, some s1 =>
      if c3 = '=' ∧ rest = [] then
        if c2 = '=' then some [s0 * 4 + s1 / 16]
        else
          match radix64_value c2 with
          | some s2 => some [s0 * 4 + s1 / 16, s1 % 16 * 16 + s2 / 4]
          | none => none
      else
        match radix64_value c2, radix64_value c3, radix64_decode rest with
        | some s2, some s3, some tail =>
          some ([s0 * 4 + s1 / 16, s1 % 16 * 16 + s2 / 4, s2 % 4 * 64 + s3] ++ tail)
        | _, _, _ => none
    | _, _ => none
  | _ => none

/-- One bit step of the CRC-24 register, polynomial 0x864cfb. -/
def crc24_shift (crc : Nat) : Nat :=
  if (crc <<< 1) &&& 0x1000000 ≠ 0 then ((crc <<< 1) ^^^ 0x864cfb) &&& 0xffffff
  else (crc <<< 1) &&& 0xffffff

/-- The CRC-24 register after one more octet. -/
def crc24_update (crc b : Nat) : Nat :=
  crc24_shift (crc24_shift (crc24_shift (crc24_shift (crc24_shift (crc24_shift
    (crc24_shift (crc24_shift (crc ^^^ (b <<< 16)))))))))

/-- Modelled from the spec: CRC-24 with polynomial 0x864cfb and initial value
0xb704ce (section 4.6; the armour source is missing). -/
def crc24 (data : List Nat) : Nat := data.foldl crc24_update 0xb704ce

/-- Lines of at most `width` characters; the first argument bounds their number. -/
def wrap_lines (width : Nat) : Nat → List Char → List (List Char)
  | 0, _ => []
  | _ + 1, [] => []
  | fuel + 1, c :: cs => (c :: cs).take width :: wrap_lines width fuel ((c :: cs).drop width)

/-- Text made of lines, each terminated by a line feed. -/
def join_lines : List (List Char) → List Char
  | [] => []
  | l :: ls => l ++ '\n' :: join_lines ls

/-- The lines of a text: the pieces between line feeds. -/
def split_lines : List Char → List (List Char)
  | [] => [[]]
  | c :: cs =>
    if c = '\n' then [] :: split_lines cs
    else
      match split_lines cs with
      | [] => [[c]]
      | l :: ls => (c :: l) :: ls

/-- The header line of a block. -/
def armour_begin_line (t : armour_type) : List Char :=
  "-----BEGIN ".toList ++ t.name ++ "-----".toList

/-- The trailer line of a block. -/
def armour_end_line (t : armour_type) : List Char :=
  "-----END ".toList ++ t.name ++ "-----".toList

/-- The line of one armour header, `Key: Value`. -/
def armour_header_line (h : ops_armoured_header_value_t) : List Char :=
  h.key ++ ':' :: ' ' :: h.value

/-- Modelled from the spec: the lines of an armoured block (sections 4.3 and
4.6; the armour source is missing): the header line with the block name, the
`Key: Value` header lines and a blank line, the Radix-64 text wrapped at 64
columns, the CRC-24 as `=` and the Radix-64 of its three octets on a line of
its own, and the trailer line with the same block name. -/
def armour_lines (b : armour_block) : List (List Char) :=
  [armour_begin_line b.type] ++ b.headers.map armour_header_line ++ [[]]
    ++ wrap_lines 64 (radix64_encode b.data).length (radix64_encode b.data)
    ++ ['=' :: radix64_encode (be_bytes (crc24 b.data) 3), armour_end_line b.type]

/-- Modelled from the spec: the armour writer (sections 4.3 and 4.6; the armour
source is missing): the lines of the block, each ended by a line feed. -/
def armour (b : armour_block) : List Char :=
  join_lines (armour_lines b)

/-- The block name announced by a header line, if it is one. -/
def parse_begin_line (line : List Char) : Option armour_type :=
  armour_types.find? (fun t => line = armour_begin_line t)

/-- Split a header line at its first colon; the colon must be followed by a
space. -/
def parse_header_line : List Char → Option ops_armoured_header_value_t
  | [] => none
  | c :: cs =>
    if c = ':' then
      if cs.head? = some ' ' then some ⟨[], cs.tail⟩ else none
    else
      match parse_header_line cs with
      | some h => some ⟨c :: h.key, h.value⟩
      | none => none

/-- The header lines up to the blank line, and the lines after it. -/
def parse_headers : List (List Char) →
    Option (List ops_armoured_header_value_t × List (List Char))
  | [] => none
  | l :: ls =>
    if l = [] then some ([], ls)
    else
      match parse_header_line l, parse_headers ls with
      | some h, some (hs, rest) => some (h :: hs, rest)
      | _, _ => none

/-- The Radix-64 lines up to the CRC line (the first line starting with `=`),
joined, then the CRC line and what follows it. -/
def parse_body_lines : List (List Char) → Option (List Char × List Char × List (List Char))
  | [] => none
  | l :: ls =>
    if l.head? = some '=' then some ([], l.tail, ls)
    else
      match parse_body_lines ls with
      | some (text, crc, rest) => some (l ++ text, crc, rest)
      | none => none

/-- Modelled from the spec: the dearmour reader on the lines of one block
(sections 4.1 and 4.6; the armour source is missing): it recognizes the
`-----BEGIN PGP ...-----` line, parses the headers, decodes the Radix-64,
validates the CRC-24 and checks that the trailer matches the block name of the
header.  Any failure is an `armour` error. -/
def dearmour_lines (lines : List (List Char)) : Except ops_errcode_t armour_block :=
  match lines with
  | [] => .error .armour
  | first :: lines0 =>
    match parse_begin_line first with
    | none => .error .armour
    | some t =>
      match parse_headers lines0 with
      | none => .error .armour
      | some (hs, lines1) =>
        match parse_body_lines lines1 with
        | none => .error .armour
        | some (text, crc, lines2) =>
          match radix64_decode text, radix64_decode crc, lines2 with
          | some data, some sum, trailer :: _ =>
            if sum = be_bytes (crc24 data) 3 ∧ trailer = armour_end_line t then
              .ok ⟨t, hs, data⟩
            else .error .armour
          | _, _, _ => .error .armour

/-- Modelled from the spec: the dearmour reader on the text of one block (the
armour source is missing). -/
def dearmour (x : List Char) : Except ops_errcode_t armour_block :=
  dearmour_lines (split_lines x)

/-! ## DSA (hash.h, spec section 4.4)

`ops_dsa_verify` is declared in hash.h; the primitive itself belongs to an
external library.  Signing and verification follow FIPS 186, which section 4.4
of the specification names. -/

/-- Structure to hold one DSA public key parameters. -/
structure ops_dsa_public_key_t where
  p : Nat
  q : Nat
  g : Nat
  y : Nat
  deriving DecidableEq, Repr

/-- Struct to hold parameters of a DSA signature. -/
structure ops_dsa_signature_t where
  r : Nat
  s : Nat
  deriving DecidableEq, Repr

/-- Inverse modulo a prime `q`, by modular exponentiation. -/
def dsa_inverse (a q : Nat) : Nat := a ^ (q - 2) % q

/-- Modelled from the spec: DSA signing of a digest (section 4.4, "`(r,s)` per
FIPS 186 using a per-signature random `k`"; the primitive is missing): with the
secret `x` and the nonce `k`, `r = (g^k mod p) mod q` and
`s = k^-1 (z + x r) mod q`, `z` being the digest read big-endian. -/
def ops_dsa_sign (hash : List Nat) (x k : Nat) (dsa : ops_dsa_public_key_t) :
    ops_dsa_signature_t :=
  let r := dsa.g ^ k % dsa.p % dsa.q
  ⟨r, dsa_inverse k dsa.q * (read_scalar hash + x * r) % dsa.q⟩

/-- Modelled from the spec: `ops_dsa_verify` (declared in hash.h, its source is
missing), DSA verification per FIPS 186: `0 < r, s < q`, `w = s^-1 mod q`,
`u1 = z w mod q`, `u2 = r w mod q`, and `(g^u1 y^u2 mod p) mod q = r`. -/
def ops_dsa_verify (hash : List Nat) (sig : ops_dsa_signature_t)
    (dsa : ops_dsa_public_key_t) : Bool :=
  decide (0 < sig.r) && decide (sig.r < dsa.q) && decide (0 < sig.s) && decide (sig.s < dsa.q) &&
  (dsa.g ^ (read_scalar hash * dsa_inverse sig.s dsa.q % dsa.q)
      * dsa.y ^ (sig.r * dsa_inverse sig.s dsa.q % dsa.q) % dsa.p % dsa.q == sig.r)

/-! ## Packet writer (spec section 4.3) -/

/-- Modelled from the spec: the length header of a framed new-format packet
(section 4.3, length-prefixing; the writer, create.c, is missing): one octet
below 192, two octets below 8384, else 255 and four octets big-endian. -/
def write_length (n : Nat) : List Nat :=
  if n < 192 then [n]
  else if n < 8384 then [(n - 192) / 256 + 192, (n - 192) % 256]
  else 255 :: be_bytes n 4

/-- Modelled from the spec: a framed new-format packet (section 4.3, "emits tag
+ length header, then body"; create.c is missing). -/
def write_packet (content_tag : Nat) (body : List Nat) : List Nat :=
  (OPS_PTAG_ALWAYS_SET + OPS_PTAG_NEW_FORMAT + content_tag) :: (write_length body.length ++ body)

/-! ## Signature engine (spec section 4.4)

The signature writer and the validation code are not part of this tree; this
section follows section 4.4 of the specification and the order of the calls in
examples/sign-inline.c. -/

/-- DSA (Digital Signature Algorithm) (`OPS_PKA_DSA`). -/
def OPS_PKA_DSA : Nat := 17
/-- SHA-1 (`OPS_HASH_SHA1`). -/
def OPS_HASH_SHA1 : Nat := 2
/-- Signature of a binary document (`OPS_SIG_BINARY`). -/
def OPS_SIG_BINARY : Nat := 0x00
/-- Signature of a canonical text document (`OPS_SIG_TEXT`). -/
def OPS_SIG_TEXT : Nat := 0x01
/-- Subpacket event tag: signature creation time. -/
def OPS_PTAG_SS_CREATION_TIME : Nat := 0x200 + 2
/-- Subpacket event tag: issuer key ID. -/
def OPS_PTAG_SS_ISSUER_KEY_ID : Nat := 0x200 + 16

/-- Secret key material (`ops_secret_key_union_t`).  packet.h of this tree has
the RSA member only; the DSA member, the secret exponent `x`, is modelled from
the spec, whose signature engine signs with DSA keys. -/
inductive ops_secret_key_union_t where
  | rsa (d p q u : Nat)
  | dsa (x : Nat)
  deriving DecidableEq, Repr

/-- A secret key with its public key (`ops_secret_key_t`). -/
structure ops_secret_key_t where
  public_key : ops_public_key_t
  s2k_usage : Nat
  checksum : Nat
  key : ops_secret_key_union_t
  deriving DecidableEq, Repr

/-- Modelled from the spec: the hash object of a hash algorithm number (the
hash registry is missing; of the hashes declared in hash.h only SHA-1 is
modelled). -/
def ops_hash_for (hash_algorithm : Nat) : Option (ops_hash_t (List Nat)) :=
  if hash_algorithm = OPS_HASH_SHA1 then some ops_hash_sha1 else none

/-- Modelled from the spec: the signature object of section 4.4 (signature.c is
missing): `{version 4, type, hash_alg, key_alg}`, the state of its hash (the
octets the hash has seen) and the hashed subpackets added so far. -/
structure ops_create_signature_t where
  type : Nat
  key_algorithm : Nat
  hash_algorithm : Nat
  hash : List Nat
  hashed_subpackets : List Nat
  deriving DecidableEq, Repr

/-- Modelled from the spec: `signature_start_plaintext_signature(sig, skey,
hash_alg, type)` (signature.c is missing): a signature object for a document,
its hash freshly initialised. -/
def ops_signature_start_plaintext_signature (skey : ops_secret_key_t)
    (hash_algorithm type : Nat) : ops_create_signature_t :=
  { type := type, key_algorithm := skey.public_key.algorithm,
    hash_algorithm := hash_algorithm, hash := ops_hash_sha1.init, hashed_subpackets := [] }

/-- Modelled from the spec: feeding document octets to the hash of a signature
(the hash-tee of section 4.3; signature.c is missing). -/
def ops_signature_add_data (sig : ops_create_signature_t) (data : List Nat) :
    ops_create_signature_t :=
  { sig with hash := ops_hash_sha1.add sig.hash data }

/-- Modelled from the spec: `signature_add_creation_time(sig, t)` (signature.c
is missing): a hashed subpacket of type 2 with the time on four octets. -/
def ops_signature_add_creation_time (sig : ops_create_signature_t) (t : Nat) :
    ops_create_signature_t :=
  { sig with hashed_subpackets := sig.hashed_subpackets ++ ([5, 2] ++ be_bytes t 4) }

/-- Modelled from the spec: `signature_add_issuer_key_id(sig, keyid)`
(signature.c is missing): a hashed subpacket of type 16 with the eight octets
of the key ID. -/
def ops_signature_add_issuer_key_id (sig : ops_create_signature_t) (keyid : List Nat) :
    ops_create_signature_t :=
  { sig with hashed_subpackets := sig.hashed_subpackets ++ ([9, 16] ++ keyid) }

/-- Modelled from the spec: the hashed part of a v4 signature (section 4.4):
`0x04 || type || key_alg || hash_alg || be16(hashed_subpkts_len) ||
hashed_subpkts`. -/
def v4_hashed_data (sig : ops_create_signature_t) : List Nat :=
  [4, sig.type, sig.key_algorithm, sig.hash_algorithm]
    ++ be_bytes sig.hashed_subpackets.length 2 ++ sig.hashed_subpackets

/-- Modelled from the spec: the end of the v4 trailer (sections 3 and 4.4):
`0x04 0xff || be32(hashed_len)`, `hashed_len` being `6 + hashed_subpkts_len`. -/
def v4_hash_trailer (hashed_len : Nat) : List Nat :=
  [4, 0xff] ++ be_bytes hashed_len 4

/-- Modelled from the spec: the digest a v4 signature signs (section 4.4): the
hash having seen the document, the hashed part and the trailer are appended and
the hash is finished. -/
def ops_signature_digest (sig : ops_create_signature_t) : List Nat :=
  ops_hash_sha1.finish
    (ops_hash_sha1.add (ops_hash_sha1.add sig.hash (v4_hashed_data sig))
      (v4_hash_trailer (v4_hashed_data sig).length))

/-- Modelled from the spec: `write_signature(sig, pub, sec, info)` for a DSA key
(section 4.4; signature.c is missing): finish the hash, store its first two
octets as the hash prefix, sign the digest with the secret key and the nonce
`k`, and write the signature packet: hashed part, empty unhashed region, hash
prefix, the MPIs `r` and `s`.  `none` for a key that is not a SHA-1 DSA
signing key. -/
def ops_write_signature (sig : ops_create_signature_t) (skey : ops_secret_key_t)
    (k : Nat) : Option (List Nat) :=
  match skey.public_key.key, skey.key with
  | .dsa p q g y, .dsa x =>
    if sig.hash_algorithm = OPS_HASH_SHA1 then
      some (write_packet OPS_PTAG_CT_SIGNATURE
        (v4_hashed_data sig ++ be_bytes 0 2 ++ (ops_signature_digest sig).take 2
          ++ write_mpi (ops_dsa_sign (ops_signature_digest sig) x k ⟨p, q, g, y⟩).r
          ++ write_mpi (ops_dsa_sign (ops_signature_digest sig) x k ⟨p, q, g, y⟩).s))
    else none
  | _, _ => none

/-- Modelled from the spec: verification of one signature (section 4.4; the
validation code is missing).  `seen` are the document octets the verifier's
hash has seen, `raw` is the retained packet body.  Replay the hashed byte range
plus the trailer into a fresh hash of the declared algorithm, compare the first
two octets of the digest with the hash prefix, then verify `(r,s)` against the
digest.  A mismatch is a `crypto` error. -/
def ops_check_signature (seen : List Nat) (sig : ops_signature_t) (raw : List Nat)
    (key : ops_public_key_t) : Except ops_errcode_t Unit :=
  match ops_hash_for sig.hash_algorithm with
  | none => .error .unsupported
  | some hash =>
    if (hash.finish (hash.add (hash.add (hash.add hash.init seen)
          ((raw.drop sig.v4_hashed_data_start).take sig.v4_hashed_data_length))
          (v4_hash_trailer sig.v4_hashed_data_length))).take 2 = sig.hash2 then
      match sig.signature, key.key with
      | .dsa r s, .dsa p q g y =>
        if ops_dsa_verify (hash.finish (hash.add (hash.add (hash.add hash.init seen)
              ((raw.drop sig.v4_hashed_data_start).take sig.v4_hashed_data_length))
              (v4_hash_trailer sig.v4_hashed_data_length))) ⟨r, s⟩ ⟨p, q, g, y⟩ then .ok ()
        else .error .crypto
      | _, _ => .error .unsupported
    else .error .crypto

/-- What the validation callback remembers between events: the document octets
its hash has seen once the hash is installed, the issuer key ID and the
signature seen in the current packet, and the outcome once known. -/
structure validate_data_cb_arg_t where
  hash : Option (List Nat)
  issuer : Option (List Nat)
  signature : Option ops_signature_t
  result : Option (Except ops_errcode_t Unit)

/-- Modelled from the spec: the validation callback (section 4.4, Verify and
one-pass signatures; the validation code is missing).  A one-pass signature
installs the hash, which then sees every literal data chunk.  The callback
notes the issuer key ID and the signature of the footer event; at the end of
the signature packet it identifies the signer key in the keyring by its key ID
(`key` error when absent) and checks the signature.  A parse error event is the
outcome when none is known yet. -/
def validate_cb (keyring : List ops_public_key_t)
    (arg : validate_data_cb_arg_t) (ev : ops_parser_content_t) : validate_data_cb_arg_t :=
  match ev.content with
  | .errcode e =>
    { arg with result := some (arg.result.getD (.error e)) }
  | .one_pass_signature _ => { arg with hash := some [] }
  | .literal_data_body b =>
    match arg.hash with
    | some seen => { arg with hash := some (seen ++ b.data) }
    | none => arg
  | .ss_data d =>
    if ev.tag = OPS_PTAG_SS_ISSUER_KEY_ID then { arg with issuer := some d } else arg
  | .signature s =>
    if ev.tag = OPS_PTAG_CT_SIGNATURE_FOOTER then { arg with signature := some s } else arg
  | .packet p =>
    if ev.tag = OPS_PARSER_PACKET_END then
      match arg.signature, arg.issuer, arg.hash with
      | some s, some i, some seen =>
        match keyring.find? (fun key => ops_keyid ops_hash_sha1 key == some i) with
        | some key =>
          ⟨arg.hash, none, none, some (arg.result.getD (ops_check_signature seen s p.raw key))⟩
        | none =>
          ⟨arg.hash, none, none, some (arg.result.getD (.error .key))⟩
      | _, _, _ => ⟨arg.hash, none, none, arg.result⟩
    else arg
  | _ => arg

/-- Modelled from the spec: validation of the signatures found in a stream of
parser events against a keyring (the validation code is missing), the hash
being in the state `hash` at the start; `format` error when the events hold no
signature to check. -/
def ops_validate_events (keyring : List ops_public_key_t) (hash : Option (List Nat))
    (events : List ops_parser_content_t) : Except ops_errcode_t Unit :=
  ((events.foldl (validate_cb keyring) ⟨hash, none, none, none⟩).result).getD (.error .format)

/-- Modelled from the spec: validation of the signature packet that follows a
document whose octets `seen` the hash has already seen (the validation code is
missing). -/
def ops_validate_signature (keyring : List ops_public_key_t) (seen : List Nat)
    (events : List ops_parser_content_t) : Except ops_errcode_t Unit :=
  ops_validate_events keyring (some seen) events

/-! ## Cleartext-signed messages (spec section 4.5) -/

/-- The first line of a cleartext-signed message. -/
def cleartext_begin_line : List Char := "-----BEGIN PGP SIGNED MESSAGE-----".toList

/-- The header naming the hash algorithm of a cleartext-signed message. -/
def cleartext_hash_header : ops_armoured_header_value_t := ⟨"Hash".toList, "SHA1".toList⟩

/-- White space at the end of a line: space, tab, and the carriage return of a
CRLF line ending. -/
def is_line_space (c : Char) : Bool := c == ' ' || c == '\t' || c == '\r'

/-- A line without its trailing white space. -/
def strip_trailing_whitespace (line : List Char) : List Char :=
  line.rdropWhile is_line_space

/-- The lines of a text; a final line feed ends the last line and opens no
further one. -/
def text_lines (text : List Char) : List (List Char) :=
  if text.getLast? = some '\n' then (split_lines text).dropLast else split_lines text

/-- Modelled from the spec: the lines of a text in canonical text form (section
4.5; the dash-escape writer is missing): trailing white space stripped. -/
def canonical_lines (text : List Char) : List (List Char) :=
  (text_lines text).map strip_trailing_whitespace

/-- Modelled from the spec: the octets hashed for canonical lines (section
4.5): the lines joined by CRLF, the CRLF after the final line excluded. -/
def canonical_text : List (List Char) → List Char
  | [] => []
  | [l] => l
  | l :: l2 :: ls => l ++ '\r' :: '\n' :: canonical_text (l2 :: ls)

/-- Modelled from the spec: dash-escaping of one line (section 4.5): a line
beginning with `-` is prefixed by `- `. -/
def dash_escape (line : List Char) : List Char :=
  if line.head? = some '-' then '-' :: ' ' :: line else line

/-- Modelled from the spec: undoing the dash-escaping of one line (section 4.5,
reader side). -/
def dash_unescape (line : List Char) : List Char :=
  if line.head? = some '-' ∧ line.tail.head? = some ' ' then line.tail.tail else line

/-- Modelled from the spec: the signature object of a cleartext signature made
at time `t` (sections 4.4 and 4.5; the signing code is missing): it has hashed
the body in canonical text form and holds the creation time and the issuer key
ID as hashed subpackets, in the order of examples/sign-inline.c. -/
def cleartext_signature (input : List Char) (skey : ops_secret_key_t) (keyid : List Nat)
    (t : Nat) : ops_create_signature_t :=
  ops_signature_add_issuer_key_id
    (ops_signature_add_creation_time
      (ops_signature_add_data
        (ops_signature_start_plaintext_signature skey OPS_HASH_SHA1 OPS_SIG_TEXT)
        ((canonical_text (canonical_lines input)).map Char.toNat))
      t)
    keyid

/-- Modelled from the spec: `ops_sign_buf_as_cleartext` (section 4.5, writer
side; the signing code is missing): `-----BEGIN PGP SIGNED MESSAGE-----`, the
`Hash:` header, a blank line, the canonicalized body with dash-escaping and
CRLF line endings, then the ASCII-armoured signature packet in a
`-----BEGIN PGP SIGNATURE-----` block.  `k` is the nonce of the DSA signature,
`t` the creation time. -/
def ops_sign_buf_as_cleartext (input : List Char) (skey : ops_secret_key_t) (k t : Nat) :
    Option (List Char) :=
  match ops_keyid ops_hash_sha1 skey.public_key with
  | none => none
  | some keyid =>
    match ops_write_signature (cleartext_signature input skey keyid t) skey k with
    | none => none
    | some packet =>
      some (join_lines
        ([cleartext_begin_line, armour_header_line cleartext_hash_header, []]
          ++ (canonical_lines input).map (fun l => dash_escape l ++ ['\r'])
          ++ armour_lines ⟨.PGP_SIGNATURE, [], packet⟩))

/-- Modelled from the spec: `ops_sign_file_as_cleartext` (the signing code is
missing): the cleartext signature of the contents of a file. -/
def ops_sign_file_as_cleartext (file : List Char) (skey : ops_secret_key_t) (k t : Nat) :
    Option (List Char) :=
  ops_sign_buf_as_cleartext file skey k t

/-- The body lines of a cleartext-signed message up to the signature block,
white space stripped and dash-escaping undone, and the lines of the block. -/
def read_cleartext_body : List (List Char) → Option (List (List Char) × List (List Char))
  | [] => none
  | l :: ls =>
    if l = armour_begin_line .PGP_SIGNATURE then some ([], l :: ls)
    else
      match read_cleartext_body ls with
      | some (body, block) => some (dash_unescape (strip_trailing_whitespace l) :: body, block)
      | none => none

/-- Modelled from the spec: re-parsing and verifying a cleartext-signed message
(section 4.5, reader side; the reader and the validation code are missing):
detect the framing, undo dash-escaping, hash the canonical body, then parse the
trailing signature block and verify against the computed hash. -/
def ops_validate_cleartext (keyring : List ops_public_key_t) (input : List Char) :
    Except ops_errcode_t Unit :=
  match split_lines input with
  | [] => .error .armour
  | first :: lines =>
    if first = cleartext_begin_line then
      match parse_headers lines with
      | none => .error .armour
      | some (_, lines1) =>
        match read_cleartext_body lines1 with
        | none => .error .armour
        | some (body, block_lines) =>
          match dearmour_lines block_lines with
          | .error e => .error e
          | .ok block =>
            ops_validate_signature keyring ((canonical_text body).map Char.toNat)
              (ops_parse block.data)
    else .error .armour

/-- A small DSA key pair, used as an example: `p = 607`, `q = 101`, `g = 64`
of order `q`, secret `x = 57`, `y = g^x mod p`. -/
def example_dsa_secret_key : ops_secret_key_t :=
  { public_key :=
      { version := 4, creation_time := 0x4a3b2c1d, days_valid := 0, algorithm := 17,
        key := .dsa 607 101 64 (64 ^ 57 % 607) },
    s2k_usage := 0, checksum := 0, key := .dsa 57 }

/-- The digest that the cleartext signature of `input` signs: the one of the
signature object holding the key ID of the signer. -/
def cleartext_digest (input : List Char) (skey : ops_secret_key_t) (t : Nat) : List Nat :=
  ops_signature_digest
    (cleartext_signature input skey ((ops_keyid ops_hash_sha1 skey.public_key).getD []) t)

/-! ## Signed messages (spec sections 4.3 and 4.4) -/

/-- Literal data of binary format (`OPS_LDT_BINARY`, the character b). -/
def OPS_LDT_BINARY : Nat := 0x62
/-- Literal data of text format (`OPS_LDT_TEXT`, the character t). -/
def OPS_LDT_TEXT : Nat := 0x74

/-- Modelled from the spec: a one-pass signature packet (section 4.4; the
writer is missing; layout of RFC 4880 5.4), the last one before the data. -/
def write_one_pass_signature (sig_type hash_algorithm key_algorithm : Nat)
    (keyid : List Nat) : List Nat :=
  write_packet OPS_PTAG_CT_ONE_PASS_SIGNATURE
    ([3, sig_type, hash_algorithm, key_algorithm] ++ keyid ++ [1])

/-- Modelled from the spec: partial-length streaming (section 4.3; the writer
is missing): while more than 512 octets remain, a header with the partial
length 512 (length octet 224 + 9) and a full chunk; then a final non-partial
chunk for the tail.  The first argument bounds the number of chunks. -/
def write_partial_body : Nat → List Nat → List Nat
  | 0, data => write_length data.length ++ data
  | fuel + 1, data =>
    if 512 < data.length then
      (224 + 9) :: (data.take 512 ++ write_partial_body fuel (data.drop 512))
    else write_length data.length ++ data

/-- Modelled from the spec: a literal data packet written through the
partial-length layer (section 4.3; the writer is missing; layout of RFC 4880
5.9): format, file name with its length octet, modification time, data. -/
def write_literal_data (format : Nat) (filename : List Nat) (modification_time : Nat)
    (data : List Nat) : List Nat :=
  (OPS_PTAG_ALWAYS_SET + OPS_PTAG_NEW_FORMAT + OPS_PTAG_CT_LITERAL_DATA)
    :: write_partial_body
        ([format, filename.length] ++ filename ++ be_bytes modification_time 4 ++ data).length
        ([format, filename.length] ++ filename ++ be_bytes modification_time 4 ++ data)

/-- Modelled from the spec: a document in canonical text form (section 4.4):
CRLF line endings, trailing white space stripped per line. -/
def canonical_document (input : List Nat) : List Nat :=
  (canonical_text ((split_lines (input.map Char.ofNat)).map strip_trailing_whitespace)).map
    Char.toNat

/-- Modelled from the spec: the octets that a signature of type `sig_type`
covers (section 4.4): the document, in canonical text form if the type is
TEXT. -/
def signed_document (input : List Nat) (sig_type : Nat) : List Nat :=
  if sig_type = OPS_SIG_TEXT then canonical_document input else input

/-- Modelled from the spec: the signature object of an inline signature made
at time `t` (section 4.4; the signing code is missing): it has hashed the
document and holds the creation time and the issuer key ID as hashed
subpackets, in the order of examples/sign-inline.c. -/
def inline_signature (input : List Nat) (sig_type : Nat) (skey : ops_secret_key_t)
    (keyid : List Nat) (t : Nat) : ops_create_signature_t :=
  ops_signature_add_issuer_key_id
    (ops_signature_add_creation_time
      (ops_signature_add_data
        (ops_signature_start_plaintext_signature skey OPS_HASH_SHA1 sig_type)
        (signed_document input sig_type))
      t)
    keyid

/-- Modelled from the spec: the packets of an inline-signed message (sections
4.3 and 4.4; the signing code is missing): a one-pass signature packet, the
document as a literal data packet written in partial-length chunks, and the
signature packet. -/
def signed_message (input : List Nat) (sig_type : Nat) (skey : ops_secret_key_t)
    (keyid packet : List Nat) : List Nat :=
  write_one_pass_signature sig_type OPS_HASH_SHA1 skey.public_key.algorithm keyid
    ++ write_literal_data (if sig_type = OPS_SIG_TEXT then OPS_LDT_TEXT else OPS_LDT_BINARY)
        [] 0 (signed_document input sig_type)
    ++ packet

/-- Modelled from the spec: `ops_sign_buf` (sections 4.3 and 4.4; the signing
code is missing): the packets of the inline-signed message, armoured as a
`PGP MESSAGE` block when `use_armour` is set.  `k` is the nonce of the DSA
signature, `t` the creation time. -/
def ops_sign_buf (input : List Nat) (sig_type : Nat) (skey : ops_secret_key_t)
    (use_armour : Bool) (k t : Nat) : Option (List Nat) :=
  match ops_keyid ops_hash_sha1 skey.public_key with
  | none => none
  | some keyid =>
    match ops_write_signature (inline_signature input sig_type skey keyid t) skey k with
    | none => none
    | some packet =>
      if use_armour then
        some ((armour ⟨.PGP_MESSAGE, [], signed_message input sig_type skey keyid packet⟩).map
          Char.toNat)
      else some (signed_message input sig_type skey keyid packet)

/-- Modelled from the spec: `ops_sign_file` (the signing code is missing): the
binary signature of the contents of a file. -/
def ops_sign_file (file : List Nat) (skey : ops_secret_key_t) (use_armour : Bool)
    (k t : Nat) : Option (List Nat) :=
  ops_sign_buf file OPS_SIG_BINARY skey use_armour k t

/-- Modelled from the spec: `check_sig_with_ops_core`, the validation of a
signed message held in memory (sections 4.1 and 4.4; the helper of the tests
and the validation code are missing): the dearmour reader is pushed when the
message is armoured, the packets are parsed and the events handed to the
validation callback. -/
def check_sig_with_ops_core (keyring : List ops_public_key_t) (input : List Nat)
    (use_armour : Bool) : Except ops_errcode_t Unit :=
  if use_armour then
    match dearmour (input.map Char.ofNat) with
    | .error e => .error e
    | .ok block => ops_validate_events keyring none (ops_parse block.data)
  else ops_validate_events keyring none (ops_parse input)

/-- The digest that the inline signature of `input` signs: the one of the
signature object holding the key ID of the signer. -/
def inline_digest (input : List Nat) (sig_type : Nat) (skey : ops_secret_key_t) (t : Nat) :
    List Nat :=
  ops_signature_digest
    (inline_signature input sig_type skey ((ops_keyid ops_hash_sha1 skey.public_key).getD []) t)

/-! ## Enumerations of packet.h -/

/-- Package tags (aka content tags) and signature subpacket types
(`enum ops_content_tag_t`): all rfc-defined packet tag values, the tags for
internal use, the signature subpacket types the parser understands, and the
pseudo content types. -/
inductive ops_content_tag_t where
  | OPS_PTAG_CT_RESERVED
  | OPS_PTAG_CT_PK_SESSION_KEY
  | OPS_PTAG_CT_SIGNATURE
  | OPS_PTAG_CT_SK_SESSION_KEY
  | OPS_PTAG_CT_ONE_PASS_SIGNATURE
  | OPS_PTAG_CT_SECRET_KEY
  | OPS_PTAG_CT_PUBLIC_KEY
  | OPS_PTAG_CT_SECRET_SUBKEY
  | OPS_PTAG_CT_COMPRESSED
  | OPS_PTAG_CT_SK_DATA
  | OPS_PTAG_CT_MARKER
  | OPS_PTAG_CT_LITERAL_DATA
  | OPS_PTAG_CT_TRUST
  | OPS_PTAG_CT_USER_ID
  | OPS_PTAG_CT_PUBLIC_SUBKEY
  | OPS_PTAG_CT_RESERVED2
  | OPS_PTAG_CT_RESERVED3
  | OPS_PTAG_CT_USER_ATTRIBUTE
  | OPS_PTAG_CT_SK_IP_DATA
  | OPS_PTAG_CT_MDC
  | OPS_PARSER_ERROR
  | OPS_PARSER_PTAG
  | OPS_PTAG_RAW_SS
  | OPS_PTAG_SS_ALL
  | OPS_PARSER_PACKET_END
  | OPS_PARSER_ERRCODE
  | OPS_PTAG_SIGNATURE_SUBPACKET_BASE
  | OPS_PTAG_SS_CREATION_TIME
  | OPS_PTAG_SS_EXPIRATION_TIME
  | OPS_PTAG_SS_TRUST
  | OPS_PTAG_SS_REGEXP
  | OPS_PTAG_SS_REVOCABLE
  | OPS_PTAG_SS_KEY_EXPIRATION_TIME
  | OPS_PTAG_SS_RESERVED
  | OPS_PTAG_SS_PREFERRED_SKA
  | OPS_PTAG_SS_REVOCATION_KEY
  | OPS_PTAG_SS_ISSUER_KEY_ID
  | OPS_PTAG_SS_NOTATION_DATA
  | OPS_PTAG_SS_PREFERRED_HASH
  | OPS_PTAG_SS_PREFERRED_COMPRESSION
  | OPS_PTAG_SS_KEY_SERVER_PREFS
  | OPS_PTAG_SS_PREFERRED_KEY_SERVER
  | OPS_PTAG_SS_PRIMARY_USER_ID
  | OPS_PTAG_SS_POLICY_URL
  | OPS_PTAG_SS_KEY_FLAGS
  | OPS_PTAG_SS_SIGNERS_USER_ID
  | OPS_PTAG_SS_REVOCATION_REASON
  | OPS_PTAG_SS_FEATURES
  | OPS_PTAG_SS_USERDEFINED00
  | OPS_PTAG_SS_USERDEFINED01
  | OPS_PTAG_SS_USERDEFINED02
  | OPS_PTAG_SS_USERDEFINED03
  | OPS_PTAG_SS_USERDEFINED04
  | OPS_PTAG_SS_USERDEFINED05
  | OPS_PTAG_SS_USERDEFINED06
  | OPS_PTAG_SS_USERDEFINED07
  | OPS_PTAG_SS_USERDEFINED08
  | OPS_PTAG_SS_USERDEFINED09
  | OPS_PTAG_SS_USERDEFINED10
  | OPS_PTAG_CT_LITERAL_DATA_HEADER
  | OPS_PTAG_CT_LITERAL_DATA_BODY
  | OPS_PTAG_CT_SIGNATURE_HEADER
  | OPS_PTAG_CT_SIGNATURE_FOOTER
  | OPS_PTAG_CT_ARMOUR_HEADER
  | OPS_PTAG_CT_ARMOUR_TRAILER
  | OPS_PTAG_CT_SIGNED_CLEARTEXT_HEADER
  | OPS_PTAG_CT_SIGNED_CLEARTEXT_BODY
  | OPS_PTAG_CT_SIGNED_CLEARTEXT_TRAILER
  | OPS_PTAG_CT_UNARMOURED_TEXT
  deriving DecidableEq, Repr, Fintype

/-- The value of an enumerator of `ops_content_tag_t`, as packet.h gives it. -/
def ops_content_tag_t.val : ops_content_tag_t → Nat
  | .OPS_PTAG_CT_RESERVED => 0
  | .OPS_PTAG_CT_PK_SESSION_KEY => 1
  | .OPS_PTAG_CT_SIGNATURE => 2
  | .OPS_PTAG_CT_SK_SESSION_KEY => 3
  | .OPS_PTAG_CT_ONE_PASS_SIGNATURE => 4
  | .OPS_PTAG_CT_SECRET_KEY => 5
  | .OPS_PTAG_CT_PUBLIC_KEY => 6
  | .OPS_PTAG_CT_SECRET_SUBKEY => 7
  | .OPS_PTAG_CT_COMPRESSED => 8
  | .OPS_PTAG_CT_SK_DATA => 9
  | .OPS_PTAG_CT_MARKER => 10
  | .OPS_PTAG_CT_LITERAL_DATA => 11
  | .OPS_PTAG_CT_TRUST => 12
  | .OPS_PTAG_CT_USER_ID => 13
  | .OPS_PTAG_CT_PUBLIC_SUBKEY => 14
  | .OPS_PTAG_CT_RESERVED2 => 15
  | .OPS_PTAG_CT_RESERVED3 => 16
  | .OPS_PTAG_CT_USER_ATTRIBUTE => 17
  | .OPS_PTAG_CT_SK_IP_DATA => 18
  | .OPS_PTAG_CT_MDC => 19
  | .OPS_PARSER_ERROR => 0x100
  | .OPS_PARSER_PTAG => 0x101
  | .OPS_PTAG_RAW_SS => 0x102
  | .OPS_PTAG_SS_ALL => 0x103
  | .OPS_PARSER_PACKET_END => 0x104
  | .OPS_PARSER_ERRCODE => 0x105
  | .OPS_PTAG_SIGNATURE_SUBPACKET_BASE => 0x200
  | .OPS_PTAG_SS_CREATION_TIME => 0x200 + 2
  | .OPS_PTAG_SS_EXPIRATION_TIME => 0x200 + 3
  | .OPS_PTAG_SS_TRUST => 0x200 + 5
  | .OPS_PTAG_SS_REGEXP => 0x200 + 6
  | .OPS_PTAG_SS_REVOCABLE => 0x200 + 7
  | .OPS_PTAG_SS_KEY_EXPIRATION_TIME => 0x200 + 9
  | .OPS_PTAG_SS_RESERVED => 0x200 + 10
  | .OPS_PTAG_SS_PREFERRED_SKA => 0x200 + 11
  | .OPS_PTAG_SS_REVOCATION_KEY => 0x200 + 12
  | .OPS_PTAG_SS_ISSUER_KEY_ID => 0x200 + 16
  | .OPS_PTAG_SS_NOTATION_DATA => 0x200 + 20
  | .OPS_PTAG_SS_PREFERRED_HASH => 0x200 + 21
  | .OPS_PTAG_SS_PREFERRED_COMPRESSION => 0x200 + 22
  | .OPS_PTAG_SS_KEY_SERVER_PREFS => 0x200 + 23
  | .OPS_PTAG_SS_PREFERRED_KEY_SERVER => 0x200 + 24
  | .OPS_PTAG_SS_PRIMARY_USER_ID => 0x200 + 25
  | .OPS_PTAG_SS_POLICY_URL => 0x200 + 26
  | .OPS_PTAG_SS_KEY_FLAGS => 0x200 + 27
  | .OPS_PTAG_SS_SIGNERS_USER_ID => 0x200 + 28
  | .OPS_PTAG_SS_REVOCATION_REASON => 0x200 + 29
  | .OPS_PTAG_SS_FEATURES => 0x200 + 30
  | .OPS_PTAG_SS_USERDEFINED00 => 0x200 + 100
  | .OPS_PTAG_SS_USERDEFINED01 => 0x200 + 101
  | .OPS_PTAG_SS_USERDEFINED02 => 0x200 + 102
  | .OPS_PTAG_SS_USERDEFINED03 => 0x200 + 103
  | .OPS_PTAG_SS_USERDEFINED04 => 0x200 + 104
  | .OPS_PTAG_SS_USERDEFINED05 => 0x200 + 105
  | .OPS_PTAG_SS_USERDEFINED06 => 0x200 + 106
  | .OPS_PTAG_SS_USERDEFINED07 => 0x200 + 107
  | .OPS_PTAG_SS_USERDEFINED08 => 0x200 + 108
  | .OPS_PTAG_SS_USERDEFINED09 => 0x200 + 109
  | .OPS_PTAG_SS_USERDEFINED10 => 0x200 + 110
  | .OPS_PTAG_CT_LITERAL_DATA_HEADER => 0x300
  | .OPS_PTAG_CT_LITERAL_DATA_BODY => 0x300 + 1
  | .OPS_PTAG_CT_SIGNATURE_HEADER => 0x300 + 2
  | .OPS_PTAG_CT_SIGNATURE_FOOTER => 0x300 + 3
  | .OPS_PTAG_CT_ARMOUR_HEADER => 0x300 + 4
  | .OPS_PTAG_CT_ARMOUR_TRAILER => 0x300 + 5
  | .OPS_PTAG_CT_SIGNED_CLEARTEXT_HEADER => 0x300 + 6
  | .OPS_PTAG_CT_SIGNED_CLEARTEXT_BODY => 0x300 + 7
  | .OPS_PTAG_CT_SIGNED_CLEARTEXT_TRAILER => 0x300 + 8
  | .OPS_PTAG_CT_UNARMOURED_TEXT => 0x300 + 9

/-- Public key algorithm numbers (`ops_public_key_algorithm_t`, RFC2440bis-12 9.1). -/
inductive ops_public_key_algorithm_t where
  | OPS_PKA_RSA
  | OPS_PKA_RSA_ENCRYPT_ONLY
  | OPS_PKA_RSA_SIGN_ONLY
  | OPS_PKA_ELGAMAL
  | OPS_PKA_DSA
  | OPS_PKA_RESERVED_ELLIPTIC_CURVE
  | OPS_PKA_RESERVED_ECDSA
  | OPS_PKA_ELGAMAL_ENCRYPT_OR_SIGN
  | OPS_PKA_RESERVED_DH
  | OPS_PKA_PRIVATE00
  | OPS_PKA_PRIVATE01
  | OPS_PKA_PRIVATE02
  | OPS_PKA_PRIVATE03
  | OPS_PKA_PRIVATE04
  | OPS_PKA_PRIVATE05
  | OPS_PKA_PRIVATE06
  | OPS_PKA_PRIVATE07
  | OPS_PKA_PRIVATE08
  | OPS_PKA_PRIVATE09
  | OPS_PKA_PRIVATE10
  deriving DecidableEq, Repr, Fintype

/-- The value of an enumerator of `ops_public_key_algorithm_t`, as packet.h gives it. -/
def ops_public_key_algorithm_t.val : ops_public_key_algorithm_t → Nat
  | .OPS_PKA_RSA => 1
  | .OPS_PKA_RSA_ENCRYPT_ONLY => 2
  | .OPS_PKA_RSA_SIGN_ONLY => 3
  | .OPS_PKA_ELGAMAL => 16
  | .OPS_PKA_DSA => 17
  | .OPS_PKA_RESERVED_ELLIPTIC_CURVE => 18
  | .OPS_PKA_RESERVED_ECDSA => 19
  | .OPS_PKA_ELGAMAL_ENCRYPT_OR_SIGN => 20
  | .OPS_PKA_RESERVED_DH => 21
  | .OPS_PKA_PRIVATE00 => 100
  | .OPS_PKA_PRIVATE01 => 101
  | .OPS_PKA_PRIVATE02 => 102
  | .OPS_PKA_PRIVATE03 => 103
  | .OPS_PKA_PRIVATE04 => 104
  | .OPS_PKA_PRIVATE05 => 105
  | .OPS_PKA_PRIVATE06 => 106
  | .OPS_PKA_PRIVATE07 => 107
  | .OPS_PKA_PRIVATE08 => 108
  | .OPS_PKA_PRIVATE09 => 109
  | .OPS_PKA_PRIVATE10 => 110

/-- Symmetric key algorithm numbers (`ops_symmetric_key_algorithm_t`, RFC2440bis-12
9.2). -/
inductive ops_symmetric_key_algorithm_t where
  | OPS_SKA_PLAINTEXT
  | OPS_SKA_IDEA
  | OPS_SKA_TRIPLEDES
  | OPS_SKA_CAST5
  | OPS_SKA_BLOWFISH
  | OPS_SKA_AES_128
  | OPS_SKA_AES_192
  | OPS_SKA_AES_256
  | OPS_SKA_TWOFISH
  deriving DecidableEq, Repr, Fintype

/-- The value of an enumerator of `ops_symmetric_key_algorithm_t`, as packet.h gives it. -/
def ops_symmetric_key_algorithm_t.val : ops_symmetric_key_algorithm_t → Nat
  | .OPS_SKA_PLAINTEXT => 0
  | .OPS_SKA_IDEA => 1
  | .OPS_SKA_TRIPLEDES => 2
  | .OPS_SKA_CAST5 => 3
  | .OPS_SKA_BLOWFISH => 4
  | .OPS_SKA_AES_128 => 7
  | .OPS_SKA_AES_192 => 8
  | .OPS_SKA_AES_256 => 9
  | .OPS_SKA_TWOFISH => 10

/-- Hashing algorithm numbers (`ops_hash_algorithm_t`, RFC2440bis-12 9.4);
`OPS_HASH_UNKNOWN` is -1 and indicates errors. -/
inductive ops_hash_algorithm_t where
  | OPS_HASH_UNKNOWN
  | OPS_HASH_MD5
  | OPS_HASH_SHA1
  | OPS_HASH_RIPEMD
  | OPS_HASH_SHA256
  | OPS_HASH_SHA384
  | OPS_HASH_SHA512
  deriving DecidableEq, Repr, Fintype

/-- The value of an enumerator of `ops_hash_algorithm_t`, as packet.h gives it. -/
def ops_hash_algorithm_t.val : ops_hash_algorithm_t → Int
  | .OPS_HASH_UNKNOWN => -1
  | .OPS_HASH_MD5 => 1
  | .OPS_HASH_SHA1 => 2
  | .OPS_HASH_RIPEMD => 3
  | .OPS_HASH_SHA256 => 8
  | .OPS_HASH_SHA384 => 9
  | .OPS_HASH_SHA512 => 10

/-- Signature types (`ops_sig_type_t`, RFC2440bis-12 5.2.1). -/
inductive ops_sig_type_t where
  | OPS_SIG_BINARY
  | OPS_SIG_TEXT
  | OPS_SIG_STANDALONE
  | OPS_CERT_GENERIC
  | OPS_CERT_PERSONA
  | OPS_CERT_CASUAL
  | OPS_CERT_POSITIVE
  | OPS_SIG_SUBKEY
  | OPS_SIG_PRIMARY
  | OPS_SIG_DIRECT
  | OPS_SIG_REV_KEY
  | OPS_SIG_REV_SUBKEY
  | OPS_SIG_REV_CERT
  | OPS_SIG_TIMESTAMP
  | OPS_SIG_3RD_PARTY
  deriving DecidableEq, Repr, Fintype

/-- The value of an enumerator of `ops_sig_type_t`, as packet.h gives it. -/
def ops_sig_type_t.val : ops_sig_type_t → Nat
  | .OPS_SIG_BINARY => 0x00
  | .OPS_SIG_TEXT => 0x01
  | .OPS_SIG_STANDALONE => 0x02
  | .OPS_CERT_GENERIC => 0x10
  | .OPS_CERT_PERSONA => 0x11
  | .OPS_CERT_CASUAL => 0x12
  | .OPS_CERT_POSITIVE => 0x13
  | .OPS_SIG_SUBKEY => 0x18
  | .OPS_SIG_PRIMARY => 0x19
  | .OPS_SIG_DIRECT => 0x1f
  | .OPS_SIG_REV_KEY => 0x20
  | .OPS_SIG_REV_SUBKEY => 0x28
  | .OPS_SIG_REV_CERT => 0x30
  | .OPS_SIG_TIMESTAMP => 0x40
  | .OPS_SIG_3RD_PARTY => 0x50

/-! ## The example programs (examples/encrypt.c, examples/sign-inline.c)

Each `main` is embedded as a function from what a run meets outside the program
(its arguments, the files, the results of the library calls) to the calls the
run makes, in order, and the way it ends.  The library functions the programs
call are not part of this tree; their results are taken from the world of the
run, and a call that fails is taken to return to the program. -/

/-- The way a run of `main` ends: a return from `main`, a call of `exit`, or a
failed `assert`. -/
inductive exit_status where
  | returned (code : Int)
  | exited (code : Int)
  | aborted
  deriving DecidableEq, Repr

/-- The result of one `read(fd,buf,sizeof buf)`: the value returned and the
contents of `buf` after the call. -/
structure read_result where
  n : Int
  buf : List Nat
  deriving DecidableEq, Repr

/-- The calls of a run, with the arguments that matter here; `α` is the type of
the key handed to the library. -/
inductive sdk_call (α : Type) where
  | ops_init
  | get_secret_key (keyfile : String)
  | ops_keyring_read (keyfile : String)
  | ops_keyring_find_key_by_userid (user_id : String)
  | ops_hash_algorithm_from_text (hashstr : String)
  | ops_create_signature_new
  | ops_signature_start_plaintext_signature (skey : α) (alg : ops_hash_algorithm_t)
      (type : ops_sig_type_t)
  | sys_open (path : String)
  | ops_create_info_new
  | ops_writer_set_fd (fd : Int)
  | ops_writer_push_dash_escaped
  | ops_writer_push_encrypt (key : α)
  | sys_read (fd : Int)
  | ops_write (buf : List Nat) (n : Int)
  | sys_close (fd : Int)
  | ops_writer_switch_to_signature
  | ops_signature_add_creation_time (t : Nat)
  | ops_keyid (skey : α)
  | ops_signature_add_issuer_key_id
  | ops_signature_hashed_subpackets_end
  | ops_write_signature (skey : α)
  | ops_writer_close
  | ops_secret_key_free (skey : α)
  deriving DecidableEq, Repr

/-- The flags of the two `open` calls of sign-inline.c: `O_RDONLY` for the
plaintext file, `O_CREAT|O_TRUNC|O_WRONLY` for the signature file. -/
inductive open_flags where
  | O_RDONLY
  | O_CREAT_O_TRUNC_O_WRONLY
  deriving DecidableEq, Repr

/-- What a run of an example meets outside the program.  `κ` and `δ` are the
keyring and key record types of keyring.h, which is not part of this tree.
`get_secret_key` (common.h) and `ops_keyring_find_key_by_userid` answer `none`
for a null pointer; `sys_open` is the descriptor `open` returns for a path
and flags, negative on failure; `reads` are the results of the successive
`read` calls on the input, after which the input is at its end; `ops_write_result k` tells
whether the `k`-th `ops_write` succeeds, `ops_write_signature_result` whether
`ops_write_signature` does; `time` is what `time(NULL)` returns. -/
structure example_world (κ δ : Type) where
  argv : List String
  get_secret_key : String → Option ops_secret_key_t
  ops_hash_algorithm_from_text : String → ops_hash_algorithm_t
  ops_keyring_read : String → κ
  ops_keyring_find_key_by_userid : κ → String → Option δ
  sys_open : String → open_flags → Int
  reads : List read_result
  ops_write_result : Nat → Bool
  ops_write_signature_result : Bool
  time : Nat

/-- The copy loop of both examples: `n=read(fd,buf,sizeof buf)`; leave the loop
when `n` is 0; `exit(4)` when `n` is negative; otherwise
`ops_write(buf,n,info)` and go on.  The boolean is false when the loop ends in
`exit(4)`. -/
def copy_loop (α : Type) (fd : Int) : List read_result → List (sdk_call α) × Bool
  | [] => ([.sys_read fd], true)
  | r :: rs =>
    if r.n = 0 then ([.sys_read fd], true)
    else if r.n < 0 then ([.sys_read fd], false)
    else (.sys_read fd :: .ops_write r.buf r.n :: (copy_loop α fd rs).1, (copy_loop α fd rs).2)

/-- The function `main` of examples/sign-inline.c, statement by statement: the
usage test (`exit(1)`), `get_secret_key` and its `assert`, the hash name
(`exit(2)`), the start of the signature, the signature file (`exit(5)`), the
writer with the dash-escaped layer, the plaintext file (`exit(3)`), the copy
loop (`exit(4)`), then the signature and `return 0`.  The argument `user_id`
(`argv[2]`) is stored and not used. -/
def sign_inline_main {κ δ : Type} (w : example_world κ δ) :
    List (sdk_call ops_secret_key_t) × exit_status :=
  match w.argv with
  | [_, keyfile, _, hashstr, plainfile, sigfile] =>
    match w.get_secret_key keyfile with
    | none => ([.ops_init, .get_secret_key keyfile], .aborted)
    | some skey =>
      if w.ops_hash_algorithm_from_text hashstr = .OPS_HASH_UNKNOWN then
        ([.ops_init, .get_secret_key keyfile, .ops_hash_algorithm_from_text hashstr], .exited 2)
      else if w.sys_open sigfile .O_CREAT_O_TRUNC_O_WRONLY < 0 then
        ([.ops_init, .get_secret_key keyfile, .ops_hash_algorithm_from_text hashstr,
          .ops_create_signature_new,
          .ops_signature_start_plaintext_signature skey
            (w.ops_hash_algorithm_from_text hashstr) .OPS_SIG_BINARY,
          .sys_open sigfile], .exited 5)
      else if w.sys_open plainfile .O_RDONLY < 0 then
        ([.ops_init, .get_secret_key keyfile, .ops_hash_algorithm_from_text hashstr,
          .ops_create_signature_new,
          .ops_signature_start_plaintext_signature skey
            (w.ops_hash_algorithm_from_text hashstr) .OPS_SIG_BINARY,
          .sys_open sigfile, .ops_create_info_new,
          .ops_writer_set_fd (w.sys_open sigfile .O_CREAT_O_TRUNC_O_WRONLY),
          .ops_writer_push_dash_escaped, .sys_open plainfile], .exited 3)
      else if (copy_loop ops_secret_key_t (w.sys_open plainfile .O_RDONLY) w.reads).2 then
        ([.ops_init, .get_secret_key keyfile, .ops_hash_algorithm_from_text hashstr,
          .ops_create_signature_new,
          .ops_signature_start_plaintext_signature skey
            (w.ops_hash_algorithm_from_text hashstr) .OPS_SIG_BINARY,
          .sys_open sigfile, .ops_create_info_new,
          .ops_writer_set_fd (w.sys_open sigfile .O_CREAT_O_TRUNC_O_WRONLY),
          .ops_writer_push_dash_escaped, .sys_open plainfile]
          ++ (copy_loop ops_secret_key_t (w.sys_open plainfile .O_RDONLY) w.reads).1
          ++ [.sys_close (w.sys_open plainfile .O_RDONLY), .ops_writer_switch_to_signature,
            .ops_signature_add_creation_time w.time, .ops_keyid skey,
            .ops_signature_add_issuer_key_id, .ops_signature_hashed_subpackets_end,
            .ops_write_signature skey, .ops_writer_close, .ops_secret_key_free skey],
          .returned 0)
      else
        ([.ops_init, .get_secret_key keyfile, .ops_hash_algorithm_from_text hashstr,
          .ops_create_signature_new,
          .ops_signature_start_plaintext_signature skey
            (w.ops_hash_algorithm_from_text hashstr) .OPS_SIG_BINARY,
          .sys_open sigfile, .ops_create_info_new,
          .ops_writer_set_fd (w.sys_open sigfile .O_CREAT_O_TRUNC_O_WRONLY),
          .ops_writer_push_dash_escaped, .sys_open plainfile]
          ++ (copy_loop ops_secret_key_t (w.sys_open plainfile .O_RDONLY) w.reads).1, .exited 4)
  | _ => ([], .exited 1)

/-- The function `main` of examples/encrypt.c, statement by statement: the
usage test (`exit(1)`), `ops_keyring_read`, `ops_keyring_find_key_by_userid`
and its `assert`, the writer on descriptor 1 with the encrypt layer, the copy
loop from descriptor 0 (`exit(4)`), then `return 0`. -/
def encrypt_main {κ δ : Type} (w : example_world κ δ) : List (sdk_call δ) × exit_status :=
  match w.argv with
  | [_, keyfile, user_id] =>
    match w.ops_keyring_find_key_by_userid (w.ops_keyring_read keyfile) user_id with
    | none =>
      ([.ops_init, .ops_keyring_read keyfile, .ops_keyring_find_key_by_userid user_id],
        .aborted)
    | some key =>
      if (copy_loop δ 0 w.reads).2 then
        ([.ops_init, .ops_keyring_read keyfile, .ops_keyring_find_key_by_userid user_id,
          .ops_create_info_new, .ops_writer_set_fd 1, .ops_writer_push_encrypt key]
          ++ (copy_loop δ 0 w.reads).1, .returned 0)
      else
        ([.ops_init, .ops_keyring_read keyfile, .ops_keyring_find_key_by_userid user_id,
          .ops_create_info_new, .ops_writer_set_fd 1, .ops_writer_push_encrypt key]
          ++ (copy_loop δ 0 w.reads).1, .exited 4)
  | _ => ([], .exited 1)

/-- The number of `ops_write` calls among the calls of a run. -/
def count_ops_write {α : Type} (calls : List (sdk_call α)) : Nat :=
  (calls.filter (fun c => match c with | .ops_write _ _ => true | _ => false)).length

/-- An example world: a key file holding the secret keys of two users, of
which `get_secret_key` gives the first; a plaintext of six octets read in one
piece; every `ops_write` and `ops_write_signature` fails. -/
def example_run : example_world (List (String × ops_secret_key_t)) ops_secret_key_t :=
  { argv := ["sign-inline", "sec.gpg", "bob", "SHA1", "plain.txt", "plain.txt.asc"],
    get_secret_key := fun f => if f = "sec.gpg" then some example_dsa_secret_key else none,
    ops_hash_algorithm_from_text := fun s =>
      if s = "SHA1" then .OPS_HASH_SHA1 else .OPS_HASH_UNKNOWN,
    ops_keyring_read := fun f =>
      if f = "sec.gpg" then
        [("alice", example_dsa_secret_key),
          ("bob", { example_dsa_secret_key with checksum := 1 })]
      else [],
    ops_keyring_find_key_by_userid := fun ring uid =>
      (ring.find? (fun e => e.1 = uid)).map Prod.snd,
    sys_open := fun f _ =>
      if f = "plain.txt" then 4 else if f = "plain.txt.asc" then 3 else -1,
    reads := [⟨6, [104, 101, 108, 108, 111, 10]⟩, ⟨0, [104, 101, 108, 108, 111, 10]⟩],
    ops_write_result := fun _ => false,
    ops_write_signature_result := false,
    time := 1000 }

/-! ## Body chunk events (packet.h, spec section 4.2) -/

/-- Pseudo content type of the header event of a cleartext-signed message. -/
def OPS_PTAG_CT_SIGNED_CLEARTEXT_HEADER : Nat := 0x300 + 6
/-- Pseudo content type of a body chunk event of a cleartext-signed message. -/
def OPS_PTAG_CT_SIGNED_CLEARTEXT_BODY : Nat := 0x300 + 7
/-- Pseudo content type of the trailer event of a cleartext-signed message. -/
def OPS_PTAG_CT_SIGNED_CLEARTEXT_TRAILER : Nat := 0x300 + 8

/-- Modelled from the spec: the events of a cleartext-signed message (sections
3, 4.2 and 4.5, reader side; the reader is missing): the header event with the
armour headers; the cleartext, dash-escaping undone and in the canonical form
the hash sees, in body chunk events of at most 8192 octets, the size of the
`data` array of `ops_signed_cleartext_body_t`; the trailer event with the hash
that has seen the cleartext; then the events of the packets of the signature
block. -/
def read_signed_cleartext (input : List Char) : Except ops_errcode_t (List ops_parser_content_t) :=
  match split_lines input with
  | [] => .error .armour
  | first :: lines =>
    if first = cleartext_begin_line then
      match parse_headers lines with
      | none => .error .armour
      | some (headers, lines1) =>
        match read_cleartext_body lines1 with
        | none => .error .armour
        | some (body, block_lines) =>
          match dearmour_lines block_lines with
          | .error e => .error e
          | .ok block =>
            .ok ([⟨OPS_PTAG_CT_SIGNED_CLEARTEXT_HEADER, 0, .signed_cleartext_header ⟨headers⟩⟩]
              ++ (body_chunks ((canonical_text body).map Char.toNat).length
                    ((canonical_text body).map Char.toNat)).map
                  (fun chunk => ⟨OPS_PTAG_CT_SIGNED_CLEARTEXT_BODY, 0,
                    .signed_cleartext_body ⟨chunk.length, chunk⟩⟩)
              ++ [⟨OPS_PTAG_CT_SIGNED_CLEARTEXT_TRAILER, 0,
                    .signed_cleartext_trailer
                      ⟨ops_hash_sha1.add ops_hash_sha1.init
                        ((canonical_text body).map Char.toNat)⟩⟩]
              ++ ops_parse block.data)
    else .error .armour

/-- Whether a body chunk event fits the `data` array of its structure: the
length of a literal-data or signed-cleartext body chunk is at most 8192 and is
the number of octets the chunk holds.  Other events carry no such array. -/
def body_chunk_fits (ev : ops_parser_content_t) : Bool :=
  match ev.content with
  | .literal_data_body b => decide (b.length ≤ 8192) && decide (b.data.length = b.length)
  | .signed_cleartext_body b => decide (b.length ≤ 8192) && decide (b.data.length = b.length)
  | _ => true

/-! ## The copy loop and the end of the examples -/

/-- The octets that a call hands to the writer: the first `n` octets of `buf`
for `ops_write(buf,n,info)`, none for any other call. -/
def ops_write_bytes {α : Type} : sdk_call α → List Nat
  | .ops_write buf n => buf.take n.toNat
  | _ => []

/-- The arguments of the `ops_write` calls of a run, in order. -/
def ops_write_calls {α : Type} (calls : List (sdk_call α)) : List (List Nat × Int) :=
  calls.filterMap (fun c => match c with | .ops_write buf n => some (buf, n) | _ => none)

/-- The input consumed up to the end of the input: the octets that the reads
before the first result that is not positive have put in the buffer. -/
def input_consumed : List read_result → List Nat
  | [] => []
  | r :: rs => if 0 < r.n then r.buf.take r.n.toNat ++ input_consumed rs else []

/-! ## Theorems -/

/-- C1: for every packet-tag octet, the packet is new-format exactly when bit 6
is set; a new-format octet has as content tag its low 6 bits, a value in 0..63;
an old-format octet has as content tag its bits 5..2, a value in 0..15. -/
theorem ptag_format_and_content_tag (b : Nat) (hb : b < 256) :
    (ptag_new_format b = true ↔ b.testBit 6 = true) ∧
    (ptag_new_format b = true →
      ptag_nf_content_tag b = b % 64 ∧ ptag_nf_content_tag b ≤ 63) ∧
    (ptag_new_format b = false →
      ptag_of_content_tag b = (b / 4) % 16 ∧ ptag_of_content_tag b ≤ 15) := by
  revert b
  decide

/-- Witness of C1 at the new-format literal-data tag 0xCB. -/
theorem ptag_format_and_content_tag_witness :
    (203 < 256) ∧ ((ptag_new_format 203 = true ↔ (203 : Nat).testBit 6 = true) ∧
    (ptag_new_format 203 = true →
      ptag_nf_content_tag 203 = 203 % 64 ∧ ptag_nf_content_tag 203 ≤ 63) ∧
    (ptag_new_format 203 = false →
      ptag_of_content_tag 203 = (203 / 4) % 16 ∧ ptag_of_content_tag 203 ≤ 15)) :=
  ⟨by decide, ptag_format_and_content_tag 203 (by decide)⟩

theorem partial_length_pow (b0 : Nat) (h1 : 224 ≤ b0) (h2 : b0 ≤ 254) :
    1 <<< (b0 &&& 0x1f) = 2 ^ (b0 - 224) ∧ b0 - 224 ≤ 30 := by
  revert h1 h2
  have : ∀ b, b < 255 → 224 ≤ b → b ≤ 254 →
      1 <<< (b &&& 0x1f) = 2 ^ (b - 224) ∧ b - 224 ≤ 30 := by decide
  intro h1 h2
  exact this b0 (by omega) h1 h2

/-- C2: new-format body-length decoding is total in the first length octet; its
four cases are pairwise disjoint and cover 0..255: at most 191 gives the octet
itself; 192..223 with next octet b1 gives ((b0-192)<<8)+b1+192, in 192..8383;
224..254 gives a partial chunk of 1<<(b0&0x1f) bytes, a power of two between 1
and 2^30; 255 gives the next four octets read big-endian. -/
theorem read_new_length_cases (b0 : Nat) (hb : b0 < 256) :
    ((nf_length_form_of b0 = .one_octet ↔ b0 ≤ 191) ∧
     (nf_length_form_of b0 = .two_octet ↔ 192 ≤ b0 ∧ b0 ≤ 223) ∧
     (nf_length_form_of b0 = .partial_body ↔ 224 ≤ b0 ∧ b0 ≤ 254) ∧
     (nf_length_form_of b0 = .five_octet ↔ b0 = 255)) ∧
    (b0 ≤ 191 → ∀ rest, read_new_length (b0 :: rest) = some (⟨b0, false⟩, rest)) ∧
    (192 ≤ b0 ∧ b0 ≤ 223 → ∀ b1 rest, b1 < 256 →
      read_new_length (b0 :: b1 :: rest)
        = some (⟨((b0 - 192) <<< 8) + b1 + 192, false⟩, rest) ∧
      192 ≤ ((b0 - 192) <<< 8) + b1 + 192 ∧ ((b0 - 192) <<< 8) + b1 + 192 ≤ 8383) ∧
    (224 ≤ b0 ∧ b0 ≤ 254 → ∀ rest,
      read_new_length (b0 :: rest) = some (⟨1 <<< (b0 &&& 0x1f), true⟩, rest) ∧
      (∃ k, k ≤ 30 ∧ 1 <<< (b0 &&& 0x1f) = 2 ^ k) ∧
      1 ≤ 1 <<< (b0 &&& 0x1f) ∧ 1 <<< (b0 &&& 0x1f) ≤ 2 ^ 30) ∧
    (b0 = 255 → ∀ b1 b2 b3 b4 rest, b1 < 256 → b2 < 256 → b3 < 256 → b4 < 256 →
      read_new_length (b0 :: b1 :: b2 :: b3 :: b4 :: rest)
        = some (⟨b1 * 2 ^ 24 + b2 * 2 ^ 16 + b3 * 2 ^ 8 + b4, false⟩, rest)) := by
  refine ⟨?_, ?_, ?_, ?_, ?_⟩
  · unfold nf_length_form_of
    refine ⟨?_, ?_, ?_, ?_⟩ <;> (split_ifs <;> simp <;> omega)
  · intro h rest
    simp [read_new_length, nf_length_form_of, h]
  · rintro ⟨h1, h2⟩ b1 rest hb1
    have hf : nf_length_form_of b0 = .two_octet := by
      unfold nf_length_form_of; split_ifs <;> first | rfl | omega
    refine ⟨by simp [read_new_length, hf], ?_, ?_⟩
    · omega
    · rw [Nat.shiftLeft_eq]; omega
  · rintro ⟨h1, h2⟩ rest
    have hf : nf_length_form_of b0 = .partial_body := by
      unfold nf_length_form_of; split_ifs <;> first | rfl | omega
    obtain ⟨hp, hk⟩ := partial_length_pow b0 h1 h2
    refine ⟨by simp [read_new_length, hf], ⟨b0 - 224, hk, hp⟩, ?_, ?_⟩
    · rw [hp]; exact Nat.one_le_two_pow
    · rw [hp]; exact Nat.pow_le_pow_right (by decide) hk
  · intro h b1 b2 b3 b4 rest hb1 hb2 hb3 hb4
    subst h
    have hf : nf_length_form_of 255 = .five_octet := by decide
    simp only [read_new_length, hf, read_scalar, List.foldl]
    congr 2
    simp only [Nat.zero_shiftLeft, Nat.zero_or]
    rw [Nat.shiftLeft_eq, Nat.shiftLeft_eq, Nat.shiftLeft_eq]
    rw [show b1 * 2 ^ 8 = 2 ^ 8 * b1 by ring, ← Nat.mul_add_lt_is_or (by omega : b2 < 2 ^ 8)]
    rw [show (2 ^ 8 * b1 + b2) * 2 ^ 8 = 2 ^ 8 * (2 ^ 8 * b1 + b2) by ring,
      ← Nat.mul_add_lt_is_or (by omega : b3 < 2 ^ 8)]
    rw [show (2 ^ 8 * (2 ^ 8 * b1 + b2) + b3) * 2 ^ 8
          = 2 ^ 8 * (2 ^ 8 * (2 ^ 8 * b1 + b2) + b3) by ring,
      ← Nat.mul_add_lt_is_or (by omega : b4 < 2 ^ 8)]
    norm_num
    ring

/-- Witness of C2 at the two-octet length 200, 5 (decoding to 2245). -/
theorem read_new_length_cases_witness :
    (200 < 256) ∧ (192 ≤ 200 ∧ 200 ≤ 223) ∧ (5 < 256) ∧
    (read_new_length [200, 5, 9] = some (⟨2245, false⟩, [9]) ∧
      192 ≤ 2245 ∧ 2245 ≤ 8383) :=
  ⟨by decide, by decide, by decide,
    (read_new_length_cases 200 (by decide)).2.2.1 (by decide) 5 [9] (by decide)⟩

/-- C3: for every old-format packet-tag octet, the length type (the octet
masked with OPS_PTAG_OF_LENGTH_TYPE_MASK) is the value of exactly one
enumerator of ops_ptag_of_lt_t; the enumerators 0, 1, 2 announce headers of 2,
3 and 5 bytes and 3 is the indeterminate length, so a definite length type lt
has a header of 1 + 2^lt bytes. -/
theorem of_length_type_cases (b : Nat) (hb : b < 256) (_hold : ptag_new_format b = false) :
    (∃ lt : ops_ptag_of_lt_t,
      ops_ptag_of_lt_t.ofVal (ptag_of_length_type b) = some lt ∧
      lt.val = ptag_of_length_type b ∧
      ∀ lt2 : ops_ptag_of_lt_t, lt2.val = ptag_of_length_type b → lt2 = lt) ∧
    (ops_ptag_of_lt_t.OPS_PTAG_OF_LT_ONE_BYTE.val = 0 ∧
      ops_ptag_of_lt_t.OPS_PTAG_OF_LT_ONE_BYTE.header_length = some 2) ∧
    (ops_ptag_of_lt_t.OPS_PTAG_OF_LT_TWO_BYTE.val = 1 ∧
      ops_ptag_of_lt_t.OPS_PTAG_OF_LT_TWO_BYTE.header_length = some 3) ∧
    (ops_ptag_of_lt_t.OPS_PTAG_OF_LT_FOUR_BYTE.val = 2 ∧
      ops_ptag_of_lt_t.OPS_PTAG_OF_LT_FOUR_BYTE.header_length = some 5) ∧
    (ops_ptag_of_lt_t.OPS_PTAG_OF_LT_INDETERMINATE.val = 3 ∧
      ops_ptag_of_lt_t.OPS_PTAG_OF_LT_INDETERMINATE.header_length = none) ∧
    (∀ lt : ops_ptag_of_lt_t, lt ≠ .OPS_PTAG_OF_LT_INDETERMINATE →
      lt.header_length = some (1 + 2 ^ lt.val)) := by
  refine ⟨?_, ⟨rfl, rfl⟩, ⟨rfl, rfl⟩, ⟨rfl, rfl⟩, ⟨rfl, rfl⟩, ?_⟩
  · have key : ∀ b, b < 256 → ∃ lt : ops_ptag_of_lt_t,
        ops_ptag_of_lt_t.ofVal (ptag_of_length_type b) = some lt ∧
        lt.val = ptag_of_length_type b ∧
        ∀ lt2 : ops_ptag_of_lt_t, lt2.val = ptag_of_length_type b → lt2 = lt := by
      decide
    exact key b hb
  · intro lt hlt
    cases lt <;> first | rfl | exact absurd rfl hlt

/-- Witness of C3 at the old-format public-key tag 0x99 (two-byte length). -/
theorem of_length_type_cases_witness :
    (153 < 256) ∧ ptag_new_format 153 = false ∧
    ops_ptag_of_lt_t.ofVal (ptag_of_length_type 153)
      = some ops_ptag_of_lt_t.OPS_PTAG_OF_LT_TWO_BYTE :=
  ⟨by decide, by decide, by
    obtain ⟨lt, h1, h2, -⟩ := (of_length_type_cases 153 (by decide) (by decide)).1
    rw [h1]
    cases lt <;> first | rfl | exact absurd h2 (by decide)⟩

theorem ops_parse_cons (b : Nat) (rest : List Nat) :
    ops_parse (b :: rest) =
      match ops_parse_one_packet 0 (b :: rest) with
      | (evs, none) => evs
      | (evs, some r) =>
        evs ++ ops_parse_loop (rest.length + 1) (0 + ((b :: rest).length - r.length)) r := by
  simp [ops_parse, ops_parse_loop]

/-- C4: when the first octet of the input has bit 7 clear, the parser emits one
parse-error event and halts, without a packet-tag event for that octet; an
octet with bit 7 set never triggers this error: the parse then starts with the
packet-tag event of the octet as soon as its length can be read. -/
theorem ptag_bit7_clear_halts (b : Nat) (rest : List Nat) :
    (b &&& OPS_PTAG_ALWAYS_SET = 0 →
      ops_parse (b :: rest) = [errcode_event .format] ∧
      is_parse_error (errcode_event .format) = true ∧
      (∀ ev ∈ ops_parse (b :: rest), ev.tag ≠ OPS_PARSER_PTAG) ∧
      ∀ pos, ops_parse_one_packet pos (b :: rest) = ([errcode_event .format], none)) ∧
    (b &&& OPS_PTAG_ALWAYS_SET ≠ 0 →
      (ops_parse (b :: rest)).head? ≠ some (errcode_event .format) ∧
      (∀ h r, read_packet_header 0 b rest = some (h, r) →
        (ops_parse (b :: rest)).head? = some (ptag_event h.ptag) ∧
        h.ptag.content_tag = (if ptag_new_format b then ptag_nf_content_tag b
          else ptag_of_content_tag b)) ∧
      (read_packet_header 0 b rest = none → ops_parse (b :: rest) = [errcode_event .io])) := by
  constructor
  · intro h0
    have hone : ∀ pos, ops_parse_one_packet pos (b :: rest) = ([errcode_event .format], none) := by
      intro pos
      simp [ops_parse_one_packet, ptag_always_set, h0]
    have hp : ops_parse (b :: rest) = [errcode_event .format] := by
      rw [ops_parse_cons, hone 0]
    refine ⟨hp, by decide, ?_, hone⟩
    intro ev hev
    rw [hp] at hev
    simp at hev
    subst hev
    decide
  · intro h1
    have hset : ptag_always_set b = true := by
      simp [ptag_always_set, h1]
    have hhead : ∀ h r, read_packet_header 0 b rest = some (h, r) →
        (ops_parse (b :: rest)).head? = some (ptag_event h.ptag) := by
      intro h r hr
      rw [ops_parse_cons]
      simp only [ops_parse_one_packet, hset, hr]
      cases hbody : read_packet_body h r with
      | none => simp
      | some p =>
        obtain ⟨body, r2⟩ := p
        cases hok : (parse_packet_body h.ptag body).2 <;> simp [hok]
    have hnone : read_packet_header 0 b rest = none →
        ops_parse (b :: rest) = [errcode_event .io] := by
      intro hr
      rw [ops_parse_cons]
      simp [ops_parse_one_packet, hset, hr]
    refine ⟨?_, ?_, hnone⟩
    · cases hr : read_packet_header 0 b rest with
      | none => rw [hnone hr]; decide
      | some p =>
        obtain ⟨h, r⟩ := p
        rw [hhead h r hr]
        simp [ptag_event, errcode_event, OPS_PARSER_PTAG, OPS_PARSER_ERRCODE]
    · intro h r hr
      refine ⟨hhead h r hr, ?_⟩
      unfold read_packet_header at hr
      split at hr
      · split at hr
        · simp at hr
        · simp at hr; obtain ⟨rfl, -⟩ := hr; simp [*]
      · split at hr
        · simp at hr; obtain ⟨rfl, -⟩ := hr; simp [*]
        · split at hr
          · simp at hr
          · simp at hr; obtain ⟨rfl, -⟩ := hr; simp [*]
        · simp at hr

/-- Witness of C4: the octet 0x19 has bit 7 clear, 0x99 has it set. -/
theorem ptag_bit7_clear_halts_witness :
    ops_parse [0x19, 1, 2] = [errcode_event .format] ∧
    (ops_parse [0x99, 0, 1, 7]).head? ≠ some (errcode_event .format) :=
  ⟨((ptag_bit7_clear_halts 0x19 [1, 2]).1 (by decide)).1,
   ((ptag_bit7_clear_halts 0x99 [0, 1, 7]).2 (by decide)).1⟩

theorem limited_read_append {n : Nat} {r x y : List Nat} (m : List Nat)
    (h : limited_read n r = some (x, y)) : limited_read n (r ++ m) = some (x, y ++ m) := by
  unfold limited_read at h ⊢
  split at h
  · rename_i hn
    simp only [Option.some.injEq, Prod.mk.injEq] at h
    obtain ⟨rfl, rfl⟩ := h
    have : n ≤ (r ++ m).length := by simp; omega
    rw [if_pos this, List.take_append_of_le_length hn, List.drop_append_of_le_length hn]
  · simp at h

theorem limited_read_length {n : Nat} {r x y : List Nat}
    (h : limited_read n r = some (x, y)) : x.length = n ∧ r = x ++ y := by
  unfold limited_read at h
  split at h
  · rename_i hn
    simp only [Option.some.injEq, Prod.mk.injEq] at h
    obtain ⟨rfl, rfl⟩ := h
    simp [hn]
  · simp at h

theorem limited_read_exact (x y : List Nat) : limited_read x.length (x ++ y) = some (x, y) := by
  simp [limited_read]

theorem read_ss_length_append {r y : List Nat} {n : Nat} (m : List Nat)
    (h : read_ss_length r = some (n, y)) : read_ss_length (r ++ m) = some (n, y ++ m) := by
  match r, h with
  | b0 :: rest, h =>
    simp only [read_ss_length, List.cons_append] at h ⊢
    split_ifs at h ⊢ with h1 h2
    · simp at h; simp [h]
    · match rest, h with
      | b1 :: rest1, h => simp at h; simp [h]
    · match rest, h with
      | b1 :: b2 :: b3 :: b4 :: rest4, h => simp at h; simp [h]

theorem read_ss_length_lt {r y : List Nat} {n : Nat}
    (h : read_ss_length r = some (n, y)) : y.length < r.length := by
  match r, h with
  | b0 :: rest, h =>
    simp only [read_ss_length] at h
    split_ifs at h with h1 h2
    · simp at h; simp [← h.2]
    · match rest, h with
      | b1 :: rest1, h => simp at h; simp [← h.2]; omega
    · match rest, h with
      | b1 :: b2 :: b3 :: b4 :: rest4, h => simp at h; simp [← h.2]; omega

theorem parse_one_signature_subpacket_append {r rest : List Nat}
    {evs : List ops_parser_content_t} (m : List Nat)
    (h : parse_one_signature_subpacket r = (evs, some rest)) :
    parse_one_signature_subpacket (r ++ m) = (evs, some (rest ++ m)) := by
  unfold parse_one_signature_subpacket at h ⊢
  cases hl : read_ss_length r with
  | none => simp [hl] at h
  | some p =>
    obtain ⟨len, r1⟩ := p
    rw [read_ss_length_append m hl]
    simp only [hl] at h ⊢
    cases hr : limited_read len r1 with
    | none => simp [hr] at h
    | some q =>
      obtain ⟨x, y⟩ := q
      rw [limited_read_append m hr]
      simp only [hr] at h ⊢
      cases x with
      | nil => simp at h
      | cons c body =>
        simp only at h ⊢
        split_ifs at h ⊢ with h1 h2
        · simp at h; simp [h]
        · simp at h
        · simp at h; simp [h]

theorem parse_one_signature_subpacket_lt {r rest : List Nat}
    {evs : List ops_parser_content_t}
    (h : parse_one_signature_subpacket r = (evs, some rest)) : rest.length < r.length := by
  unfold parse_one_signature_subpacket at h
  cases hl : read_ss_length r with
  | none => simp [hl] at h
  | some p =>
    obtain ⟨len, r1⟩ := p
    have hlt := read_ss_length_lt hl
    simp only [hl] at h
    cases hr : limited_read len r1 with
    | none => simp [hr] at h
    | some q =>
      obtain ⟨x, y⟩ := q
      obtain ⟨-, hxy⟩ := limited_read_length hr
      simp only [hr] at h
      have hy : rest = y := by
        cases x with
        | nil => simp at h
        | cons c body =>
          simp only at h
          split_ifs at h with h1 h2
          · simp at h; exact h.2.symm
          · simp at h
          · simp at h; exact h.2.symm
      subst hy
      rw [hxy] at hlt
      simp at hlt
      omega

theorem parse_signature_subpackets_fuel (f1 f2 : Nat) (r : List Nat)
    (h1 : r.length ≤ f1) (h2 : r.length ≤ f2) :
    parse_signature_subpackets f1 r = parse_signature_subpackets f2 r := by
  induction f1 generalizing f2 r with
  | zero =>
    cases r with
    | nil => cases f2 <;> simp [parse_signature_subpackets]
    | cons b t => simp at h1
  | succ n ih =>
    cases r with
    | nil => cases f2 <;> simp [parse_signature_subpackets]
    | cons b t =>
      cases f2 with
      | zero => simp at h2
      | succ k =>
        simp only [parse_signature_subpackets]
        cases hp : parse_one_signature_subpacket (b :: t) with
        | mk evs o =>
          cases o with
          | none => rfl
          | some rest =>
            have hlt := parse_one_signature_subpacket_lt hp
            simp only [List.length_cons] at hlt h1 h2
            simp only
            rw [ih k rest (by omega) (by omega)]

theorem parse_signature_subpackets_append (f : Nat) (pre m : List Nat)
    (evs : List ops_parser_content_t) (hf : pre.length ≤ f)
    (h : parse_signature_subpackets f pre = (evs, true)) :
    parse_signature_subpackets (pre ++ m).length (pre ++ m)
      = (evs ++ (parse_signature_subpackets m.length m).1,
          (parse_signature_subpackets m.length m).2) := by
  induction f generalizing pre evs with
  | zero =>
    cases pre with
    | nil =>
      simp [parse_signature_subpackets] at h
      subst h
      simp
    | cons b t => simp at hf
  | succ n ih =>
    cases pre with
    | nil =>
      simp [parse_signature_subpackets] at h
      subst h
      simp
    | cons b t =>
      simp only [parse_signature_subpackets] at h
      cases hp : parse_one_signature_subpacket (b :: t) with
      | mk e1 o =>
        rw [hp] at h
        cases o with
        | none => simp at h
        | some rest =>
          simp only [Prod.mk.injEq] at h
          have hlt := parse_one_signature_subpacket_lt hp
          simp only [List.length_cons] at hlt hf
          have hrest : parse_signature_subpackets n rest
              = ((parse_signature_subpackets n rest).1, true) := by
            rw [← h.2]
          have := ih rest _ (by omega) hrest
          have happ := parse_one_signature_subpacket_append m hp
          rw [List.cons_append] at happ ⊢
          rw [List.length_cons, parse_signature_subpackets, happ]
          simp only
          rw [parse_signature_subpackets_fuel _ (rest ++ m).length (rest ++ m)
            (by simp; omega) (le_refl _), this, ← h.1]
          simp

theorem parse_signature_subpackets_step (r rest : List Nat) (evs : List ops_parser_content_t)
    (h : parse_one_signature_subpacket r = (evs, some rest)) :
    parse_signature_subpackets r.length r
      = (evs ++ (parse_signature_subpackets rest.length rest).1,
          (parse_signature_subpackets rest.length rest).2) := by
  have hlt := parse_one_signature_subpacket_lt h
  cases r with
  | nil => simp at hlt
  | cons b t =>
    simp only [List.length_cons] at hlt ⊢
    rw [parse_signature_subpackets, h]
    simp only
    rw [parse_signature_subpackets_fuel t.length rest.length rest (by omega) (le_refl _)]

theorem parse_signature_subpackets_halt (r : List Nat) (evs : List ops_parser_content_t)
    (hne : r ≠ []) (h : parse_one_signature_subpacket r = (evs, none)) :
    parse_signature_subpackets r.length r = (evs, false) := by
  cases r with
  | nil => exact absurd rfl hne
  | cons b t =>
    simp only [List.length_cons]
    rw [parse_signature_subpackets, h]

theorem critical_bit_clear (c : Nat) (hc : c < 256) (h : c &&& 0x80 = 0) :
    c >>> 7 = 0 ∧ c &&& 0x7f = c := by
  revert h
  have : ∀ c, c < 256 → c &&& 0x80 = 0 → c >>> 7 = 0 ∧ c &&& 0x7f = c := by decide
  exact this c hc

theorem critical_bit_set (c : Nat) (hc : c < 256) (h : c &&& 0x80 ≠ 0) :
    (c >>> 7 != 0) = true := by
  revert h
  have : ∀ c, c < 256 → c &&& 0x80 ≠ 0 → (c >>> 7 != 0) = true := by decide
  exact this c hc

theorem parse_one_unknown_subpacket (c : Nat) (hdr sbody post : List Nat) (hc : c < 256)
    (hhdr : ∀ x, read_ss_length (hdr ++ x) = some (sbody.length + 1, x))
    (hunknown : ss_known (c &&& 0x7f) = false) :
    (c &&& 0x80 = 0 →
      parse_one_signature_subpacket (hdr ++ c :: sbody ++ post)
        = ([⟨OPS_PTAG_RAW_SS, 0,
            .ss_raw ⟨OPS_PTAG_SIGNATURE_SUBPACKET_BASE + c, sbody.length, sbody⟩⟩], some post)) ∧
    (c &&& 0x80 ≠ 0 →
      parse_one_signature_subpacket (hdr ++ c :: sbody ++ post)
        = ([errcode_event .format], none)) := by
  have hread : limited_read (sbody.length + 1) (c :: sbody ++ post) = some (c :: sbody, post) := by
    have := limited_read_exact (c :: sbody) post
    simpa using this
  have hrw : hdr ++ c :: sbody ++ post = hdr ++ (c :: sbody ++ post) := by simp
  constructor
  · intro h0
    obtain ⟨h7, hm⟩ := critical_bit_clear c hc h0
    rw [hm] at hunknown
    rw [hrw]
    unfold parse_one_signature_subpacket
    rw [hhdr]
    simp only [hread, hm, h7, hunknown]
    simp
  · intro h1
    have h7 := critical_bit_set c hc h1
    rw [hrw]
    unfold parse_one_signature_subpacket
    rw [hhdr]
    simp only [hread, hunknown, h7]
    simp

theorem parse_subpackets_unknown (c : Nat) (hdr sbody pre post : List Nat)
    (evs_pre : List ops_parser_content_t) (hc : c < 256)
    (hhdr : ∀ x, read_ss_length (hdr ++ x) = some (sbody.length + 1, x))
    (hunknown : ss_known (c &&& 0x7f) = false)
    (hpre : parse_signature_subpackets pre.length pre = (evs_pre, true)) :
    (c &&& 0x80 = 0 →
      parse_signature_subpackets (pre ++ (hdr ++ c :: sbody) ++ post).length
          (pre ++ (hdr ++ c :: sbody) ++ post)
        = (evs_pre ++ ⟨OPS_PTAG_RAW_SS, 0,
            .ss_raw ⟨OPS_PTAG_SIGNATURE_SUBPACKET_BASE + c, sbody.length, sbody⟩⟩
              :: (parse_signature_subpackets post.length post).1,
            (parse_signature_subpackets post.length post).2)) ∧
    (c &&& 0x80 ≠ 0 →
      parse_signature_subpackets (pre ++ (hdr ++ c :: sbody) ++ post).length
          (pre ++ (hdr ++ c :: sbody) ++ post)
        = (evs_pre ++ [errcode_event .format], false)) := by
  have hrw : pre ++ (hdr ++ c :: sbody) ++ post = pre ++ (hdr ++ c :: sbody ++ post) := by simp
  have hne : hdr ++ c :: sbody ++ post ≠ [] := by simp
  have happ := parse_signature_subpackets_append pre.length pre (hdr ++ c :: sbody ++ post)
    evs_pre (le_refl _) hpre
  obtain ⟨hclear, hset⟩ := parse_one_unknown_subpacket c hdr sbody post hc hhdr hunknown
  constructor
  · intro h0
    rw [hrw, happ, parse_signature_subpackets_step _ _ _ (hclear h0)]
    simp
  · intro h1
    rw [hrw, happ, parse_signature_subpackets_halt _ _ hne (hset h1)]

theorem parse_v4_hashed_of (sig : ops_signature_t) (region post after : List Nat)
    (evs : List ops_parser_content_t)
    (h : parse_signature_subpackets region.length region
      = (evs ++ (parse_signature_subpackets post.length post).1,
          (parse_signature_subpackets post.length post).2)) :
    parse_v4_hashed sig region after
      = (evs ++ (parse_v4_hashed sig post after).1, (parse_v4_hashed sig post after).2) := by
  unfold parse_v4_hashed
  rw [h]
  cases hp : parse_signature_subpackets post.length post with
  | mk e ok => cases ok <;> simp [List.append_assoc]

theorem parse_v4_unhashed_of (sig : ops_signature_t) (region post after : List Nat)
    (evs : List ops_parser_content_t)
    (h : parse_signature_subpackets region.length region
      = (evs ++ (parse_signature_subpackets post.length post).1,
          (parse_signature_subpackets post.length post).2)) :
    parse_v4_unhashed sig region after
      = (evs ++ (parse_v4_unhashed sig post after).1, (parse_v4_unhashed sig post after).2) := by
  unfold parse_v4_unhashed
  rw [h]
  cases hp : parse_signature_subpackets post.length post with
  | mk e ok => cases ok <;> simp [List.append_assoc]

theorem parse_signature_v4 (ty ka ha h1 h0 : Nat) (region after : List Nat)
    (hlen : read_scalar [h1, h0] = region.length) :
    parse_signature (4 :: ty :: ka :: ha :: h1 :: h0 :: (region ++ after))
      = (⟨OPS_PTAG_CT_SIGNATURE_HEADER, 0,
            .signature (v4_signature_header ty ka ha region.length)⟩
          :: (parse_v4_hashed (v4_signature_header ty ka ha region.length) region after).1,
          (parse_v4_hashed (v4_signature_header ty ka ha region.length) region after).2) := by
  simp only [parse_signature, parse_v4_signature, hlen, limited_read_exact]

theorem parse_v4_hashed_ok (sig : ops_signature_t) (region after : List Nat) (u1 u0 : Nat)
    (uregion : List Nat) (evs : List ops_parser_content_t)
    (h : parse_signature_subpackets region.length region = (evs, true))
    (hlen : read_scalar [u1, u0] = uregion.length) :
    parse_v4_hashed sig region (u1 :: u0 :: (uregion ++ after))
      = (evs ++ (parse_v4_unhashed sig uregion after).1,
          (parse_v4_unhashed sig uregion after).2) := by
  simp only [parse_v4_hashed, h, parse_v4_after_hashed, hlen, limited_read_exact]

/-- C10: in a v4 signature, a subpacket of a type the parser does not know,
whether in the hashed or in the unhashed region, is delivered as a raw event
(tag OPS_PTAG_RAW_SS, its ops_ss_raw_t carrying base + type, length and bytes)
when its critical bit is clear, and parsing goes on after it with the bytes
that follow; when its critical bit is set, a format error event is emitted and
the parse of the signature halts. -/
theorem unknown_subpacket_raw_or_format_error (c : Nat) (hdr sbody : List Nat)
    (hc : c < 256)
    (hhdr : ∀ x, read_ss_length (hdr ++ x) = some (sbody.length + 1, x))
    (hunknown : ss_known (c &&& 0x7f) = false) :
    (∀ (ty ka ha h1 h0 : Nat) (pre post after : List Nat)
        (evs_pre : List ops_parser_content_t),
      read_scalar [h1, h0] = (pre ++ (hdr ++ c :: sbody) ++ post).length →
      parse_signature_subpackets pre.length pre = (evs_pre, true) →
      (c &&& 0x80 = 0 →
        parse_signature
            (4 :: ty :: ka :: ha :: h1 :: h0 :: (pre ++ (hdr ++ c :: sbody) ++ post ++ after))
          = (⟨OPS_PTAG_CT_SIGNATURE_HEADER, 0, .signature
                (v4_signature_header ty ka ha (pre ++ (hdr ++ c :: sbody) ++ post).length)⟩
              :: (evs_pre ++ ⟨OPS_PTAG_RAW_SS, 0,
                  .ss_raw ⟨OPS_PTAG_SIGNATURE_SUBPACKET_BASE + c, sbody.length, sbody⟩⟩
                :: (parse_v4_hashed
                    (v4_signature_header ty ka ha (pre ++ (hdr ++ c :: sbody) ++ post).length)
                    post after).1),
              (parse_v4_hashed
                (v4_signature_header ty ka ha (pre ++ (hdr ++ c :: sbody) ++ post).length)
                post after).2)) ∧
      (c &&& 0x80 ≠ 0 →
        parse_signature
            (4 :: ty :: ka :: ha :: h1 :: h0 :: (pre ++ (hdr ++ c :: sbody) ++ post ++ after))
          = (⟨OPS_PTAG_CT_SIGNATURE_HEADER, 0, .signature
                (v4_signature_header ty ka ha (pre ++ (hdr ++ c :: sbody) ++ post).length)⟩
              :: (evs_pre ++ [errcode_event .format]), false))) ∧
    (∀ (ty ka ha h1 h0 u1 u0 : Nat) (hashed pre post after : List Nat)
        (evs_hashed evs_pre : List ops_parser_content_t),
      read_scalar [h1, h0] = hashed.length →
      parse_signature_subpackets hashed.length hashed = (evs_hashed, true) →
      read_scalar [u1, u0] = (pre ++ (hdr ++ c :: sbody) ++ post).length →
      parse_signature_subpackets pre.length pre = (evs_pre, true) →
      (c &&& 0x80 = 0 →
        parse_signature
            (4 :: ty :: ka :: ha :: h1 :: h0 :: (hashed ++ u1 :: u0 ::
              (pre ++ (hdr ++ c :: sbody) ++ post ++ after)))
          = (⟨OPS_PTAG_CT_SIGNATURE_HEADER, 0, .signature
                (v4_signature_header ty ka ha hashed.length)⟩
              :: (evs_hashed ++ (evs_pre ++ ⟨OPS_PTAG_RAW_SS, 0,
                  .ss_raw ⟨OPS_PTAG_SIGNATURE_SUBPACKET_BASE + c, sbody.length, sbody⟩⟩
                :: (parse_v4_unhashed (v4_signature_header ty ka ha hashed.length)
                    post after).1)),
              (parse_v4_unhashed (v4_signature_header ty ka ha hashed.length) post after).2)) ∧
      (c &&& 0x80 ≠ 0 →
        parse_signature
            (4 :: ty :: ka :: ha :: h1 :: h0 :: (hashed ++ u1 :: u0 ::
              (pre ++ (hdr ++ c :: sbody) ++ post ++ after)))
          = (⟨OPS_PTAG_CT_SIGNATURE_HEADER, 0, .signature
                (v4_signature_header ty ka ha hashed.length)⟩
              :: (evs_hashed ++ (evs_pre ++ [errcode_event .format])), false))) := by
  constructor
  · intro ty ka ha h1 h0 pre post after evs_pre hlen hpre
    obtain ⟨hclear, hset⟩ :=
      parse_subpackets_unknown c hdr sbody pre post evs_pre hc hhdr hunknown hpre
    rw [parse_signature_v4 ty ka ha h1 h0 _ after hlen]
    constructor
    · intro h0'
      have := parse_v4_hashed_of
        (v4_signature_header ty ka ha (pre ++ (hdr ++ c :: sbody) ++ post).length)
        (pre ++ (hdr ++ c :: sbody) ++ post) post after
        (evs_pre ++ [⟨OPS_PTAG_RAW_SS, 0,
          .ss_raw ⟨OPS_PTAG_SIGNATURE_SUBPACKET_BASE + c, sbody.length, sbody⟩⟩])
        (by rw [hclear h0']; simp)
      rw [this]
      simp
    · intro h1'
      simp only [parse_v4_hashed, hset h1']
  · intro ty ka ha h1 h0 u1 u0 hashed pre post after evs_hashed evs_pre hlen hhashed hulen hpre
    obtain ⟨hclear, hset⟩ :=
      parse_subpackets_unknown c hdr sbody pre post evs_pre hc hhdr hunknown hpre
    rw [parse_signature_v4 ty ka ha h1 h0 _ _ hlen,
      parse_v4_hashed_ok _ hashed after u1 u0 _ evs_hashed hhashed hulen]
    constructor
    · intro h0'
      have := parse_v4_unhashed_of (v4_signature_header ty ka ha hashed.length)
        (pre ++ (hdr ++ c :: sbody) ++ post) post after
        (evs_pre ++ [⟨OPS_PTAG_RAW_SS, 0,
          .ss_raw ⟨OPS_PTAG_SIGNATURE_SUBPACKET_BASE + c, sbody.length, sbody⟩⟩])
        (by rw [hclear h0']; simp)
      rw [this]
      simp
    · intro h1'
      simp only [parse_v4_unhashed, hset h1']
/-- Witness of C10: a DSA v4 signature whose hashed region holds a creation
time subpacket followed by a subpacket of the unknown type 77. -/
theorem unknown_subpacket_raw_or_format_error_witness :
    (77 < 256) ∧ ss_known (77 &&& 0x7f) = false ∧ 77 &&& 0x80 = 0 ∧
    parse_signature [4, 0, 17, 2, 0, 10, 5, 2, 1, 2, 3, 4, 3, 77, 9, 9,
        0, 0, 0xab, 0xcd, 0, 1, 1, 0, 9, 1, 0xff]
      = ([⟨OPS_PTAG_CT_SIGNATURE_HEADER, 0, .signature (v4_signature_header 0 17 2 10)⟩,
          ⟨OPS_PTAG_SIGNATURE_SUBPACKET_BASE + 2, 0, .ss_data [1, 2, 3, 4]⟩,
          ⟨OPS_PTAG_RAW_SS, 0, .ss_raw ⟨OPS_PTAG_SIGNATURE_SUBPACKET_BASE + 77, 2, [9, 9]⟩⟩,
          ⟨OPS_PTAG_CT_SIGNATURE_FOOTER, 0, .signature
            { v4_signature_header 0 17 2 10 with
              hash2 := [0xab, 0xcd], signature := .dsa 1 511 }⟩], true) ∧
    205 &&& 0x80 ≠ 0 ∧
    parse_signature [4, 0, 17, 2, 0, 10, 5, 2, 1, 2, 3, 4, 3, 205, 9, 9,
        0, 0, 0xab, 0xcd, 0, 1, 1, 0, 9, 1, 0xff]
      = ([⟨OPS_PTAG_CT_SIGNATURE_HEADER, 0, .signature (v4_signature_header 0 17 2 10)⟩,
          ⟨OPS_PTAG_SIGNATURE_SUBPACKET_BASE + 2, 0, .ss_data [1, 2, 3, 4]⟩,
          errcode_event .format], false) :=
  ⟨by decide, by decide, by decide,
    ((unknown_subpacket_raw_or_format_error 77 [3] [9, 9] (by decide) (fun _ => rfl)
      (by decide)).1 0 17 2 0 10 [5, 2, 1, 2, 3, 4] [] [0, 0, 0xab, 0xcd, 0, 1, 1, 0, 9, 1, 0xff]
      [⟨OPS_PTAG_SIGNATURE_SUBPACKET_BASE + 2, 0, .ss_data [1, 2, 3, 4]⟩]
      (by decide) (by decide)).1 (by decide),
    by decide,
    ((unknown_subpacket_raw_or_format_error 205 [3] [9, 9] (by decide) (fun _ => rfl)
      (by decide)).1 0 17 2 0 10 [5, 2, 1, 2, 3, 4] [] [0, 0, 0xab, 0xcd, 0, 1, 1, 0, 9, 1, 0xff]
      [⟨OPS_PTAG_SIGNATURE_SUBPACKET_BASE + 2, 0, .ss_data [1, 2, 3, 4]⟩]
      (by decide) (by decide)).2 (by decide)⟩

/-- C9: for every v4 public key, the fingerprint computed by ops_fingerprint is
the 20-octet SHA-1 digest of 0x99 || be16(L) || body, where body is the
public-key packet body and L its length, and the key ID given by ops_keyid is
the last 8 of these 20 octets. -/
theorem keyid_is_fingerprint_tail {σ : Type} (sha1 : ops_hash_t σ) (key : ops_public_key_t)
    (hv : key.version = 4)
    (hstream : ∀ s a b, sha1.add (sha1.add s a) b = sha1.add s (a ++ b))
    (hlen : ∀ s, (sha1.finish s).length = 20) :
    ∃ fp keyid, ops_fingerprint sha1 key = some fp ∧ ops_keyid sha1 key = some keyid ∧
      fp.length = 20 ∧ fp.fingerprint.length = 20 ∧
      fp.fingerprint = sha1.finish (sha1.add sha1.init
        (0x99 :: be_bytes (ops_build_public_key key).length 2 ++ ops_build_public_key key)) ∧
      keyid = fp.fingerprint.drop 12 ∧ keyid.length = OPS_KEY_ID_SIZE := by
  have hfp : ops_fingerprint sha1 key = some ⟨sha1.finish (sha1.add sha1.init
      (0x99 :: be_bytes (ops_build_public_key key).length 2 ++ ops_build_public_key key)),
      20⟩ := by
    simp [ops_fingerprint, hv, hash_add_int, hstream, be_bytes]
  refine ⟨_, _, hfp, ?_, rfl, hlen _, rfl, rfl, ?_⟩
  · simp [ops_keyid, hv, hfp, OPS_KEY_ID_SIZE]
  · simp [hlen]
    rfl

theorem be_bytes_length (n len : Nat) : (be_bytes n len).length = len := by
  induction len with
  | zero => rfl
  | succ k ih => simp [be_bytes, ih]

theorem sha1_digest_length (msg : List Nat) : (sha1_digest msg).length = 20 := by
  unfold sha1_digest
  simp [be_bytes_length]

/-- Witness of C9: the example key under the SHA-1 hash object. -/
theorem keyid_is_fingerprint_tail_witness :
    example_public_key.version = 4 ∧
    (∀ s a b, ops_hash_sha1.add (ops_hash_sha1.add s a) b = ops_hash_sha1.add s (a ++ b)) ∧
    (∀ s, (ops_hash_sha1.finish s).length = 20) ∧
    ∃ fp keyid, ops_fingerprint ops_hash_sha1 example_public_key = some fp ∧
      ops_keyid ops_hash_sha1 example_public_key = some keyid ∧
      fp.length = 20 ∧ fp.fingerprint.length = 20 ∧
      fp.fingerprint = ops_hash_sha1.finish (ops_hash_sha1.add ops_hash_sha1.init
        (0x99 :: be_bytes (ops_build_public_key example_public_key).length 2
          ++ ops_build_public_key example_public_key)) ∧
      keyid = fp.fingerprint.drop 12 ∧ keyid.length = OPS_KEY_ID_SIZE :=
  ⟨rfl, fun s a b => List.append_assoc s a b, sha1_digest_length,
    keyid_is_fingerprint_tail ops_hash_sha1 example_public_key rfl
      (fun s a b => List.append_assoc s a b) sha1_digest_length⟩


theorem example_public_key_keyid :
    ops_keyid ops_hash_sha1 example_public_key
      = some [0xf0, 0x7c, 0x9a, 0x8d, 0x91, 0xaf, 0xed, 0xfe] := by
  decide

theorem radix64_value_char (n : Nat) (h : n < 64) :
    radix64_value (radix64_char n) = some n := by
  revert n
  decide

theorem radix64_char_ne (n : Nat) : radix64_char n ≠ '=' ∧ radix64_char n ≠ '\n' := by
  by_cases h : n < 64
  · revert n
    decide
  · have : radix64_char n = 'A' := by
      unfold radix64_char
      apply List.getD_eq_default
      have : radix64_alphabet.length = 64 := by decide
      omega
    rw [this]
    decide

theorem radix64_decode_encode (data : List Nat) (h : ∀ b ∈ data, b < 256) :
    radix64_decode (radix64_encode data) = some data := by
  induction data using radix64_encode.induct with
  | case1 => rfl
  | case2 a =>
    have ha : a < 256 := h a (by simp)
    simp only [radix64_encode, radix64_decode]
    rw [radix64_value_char _ (by omega), radix64_value_char _ (by omega)]
    simp
    omega
  | case3 a b =>
    have ha : a < 256 := h a (by simp)
    have hb : b < 256 := h b (by simp)
    simp only [radix64_encode, radix64_decode]
    rw [radix64_value_char _ (by omega), radix64_value_char _ (by omega)]
    simp only [and_self, ↓reduceIte, (radix64_char_ne _).1]
    rw [radix64_value_char _ (by omega)]
    simp
    omega
  | case4 a b c rest ih =>
    have ha : a < 256 := h a (by simp)
    have hb : b < 256 := h b (by simp)
    have hc : c < 256 := h c (by simp)
    have hrest : ∀ x ∈ rest, x < 256 := fun x hx => h x (by simp [hx])
    simp only [radix64_encode, radix64_decode]
    rw [radix64_value_char _ (by omega), radix64_value_char _ (by omega)]
    simp only [(radix64_char_ne _).1, false_and, ↓reduceIte]
    rw [radix64_value_char _ (by omega), radix64_value_char _ (by omega), ih hrest]
    simp
    omega

theorem radix64_encode_chars (data : List Nat) :
    ∀ c ∈ radix64_encode data, c ≠ '\n' := by
  induction data using radix64_encode.induct with
  | case1 => simp [radix64_encode]
  | case2 a =>
    intro c hc
    simp only [radix64_encode, List.mem_cons, List.mem_singleton, List.not_mem_nil, or_false] at hc
    rcases hc with h | h | h | h <;> subst h <;>
      first | exact (radix64_char_ne _).2 | decide
  | case3 a b =>
    intro c hc
    simp only [radix64_encode, List.mem_cons, List.mem_singleton, List.not_mem_nil, or_false] at hc
    rcases hc with h | h | h | h <;> subst h <;>
      first | exact (radix64_char_ne _).2 | decide
  | case4 a b c rest ih =>
    intro x hx
    simp only [radix64_encode, List.mem_cons] at hx
    rcases hx with h | h | h | h | h
    · subst h; exact (radix64_char_ne _).2
    · subst h; exact (radix64_char_ne _).2
    · subst h; exact (radix64_char_ne _).2
    · subst h; exact (radix64_char_ne _).2
    · exact ih x h

theorem radix64_encode_head (data : List Nat) :
    (radix64_encode data).head? ≠ some '=' := by
  cases data with
  | nil => simp [radix64_encode]
  | cons a t =>
    cases t with
    | nil => simp [radix64_encode, (radix64_char_ne _).1]
    | cons b t2 =>
      cases t2 with
      | nil => simp [radix64_encode, (radix64_char_ne _).1]
      | cons c t3 => simp [radix64_encode, (radix64_char_ne _).1]

theorem radix64_encode_drop (j : Nat) (data : List Nat) :
    (radix64_encode data).drop (4 * j) = radix64_encode (data.drop (3 * j)) := by
  induction j generalizing data with
  | zero => simp
  | succ k ih =>
    have h4 : 4 * (k + 1) = 4 * k + 4 := by ring
    have h3 : 3 * (k + 1) = 3 * k + 3 := by ring
    rw [h4, h3]
    match data with
    | [] => simp [radix64_encode]
    | [a] => simp [radix64_encode]
    | [a, b] => simp [radix64_encode]
    | a :: b :: c :: rest =>
      simp only [radix64_encode, List.drop_succ_cons]
      exact ih rest

theorem wrap_lines_radix64 (fuel : Nat) (data : List Nat) :
    ∀ l ∈ wrap_lines 64 fuel (radix64_encode data),
      l.head? ≠ some '=' ∧ ∀ c ∈ l, c ≠ '\n' := by
  induction fuel generalizing data with
  | zero => simp [wrap_lines]
  | succ n ih =>
    cases hT : radix64_encode data with
    | nil => simp [wrap_lines]
    | cons c cs =>
      intro l hl
      simp only [wrap_lines, List.mem_cons] at hl
      rcases hl with h | h
      · subst h
        constructor
        · have := radix64_encode_head data
          rw [hT] at this
          simpa using this
        · intro x hx
          have hx2 : x ∈ radix64_encode data := by
            rw [hT]; exact List.mem_of_mem_take hx
          exact radix64_encode_chars data x hx2
      · have hd : (c :: cs).drop 64 = radix64_encode (data.drop 48) := by
          rw [← hT]
          exact radix64_encode_drop 16 data
        rw [hd] at h
        exact ih _ l h

theorem wrap_lines_join (width : Nat) (hw : 0 < width) (fuel : Nat) (cs : List Char)
    (hf : cs.length ≤ fuel) : (wrap_lines width fuel cs).flatten = cs := by
  induction fuel generalizing cs with
  | zero =>
    cases cs with
    | nil => rfl
    | cons c t => simp at hf
  | succ n ih =>
    cases cs with
    | nil => rfl
    | cons c t =>
      rw [wrap_lines, List.flatten_cons, ih _ (by simp at hf ⊢; omega)]
      exact List.take_append_drop _ _

theorem split_lines_append (l rest : List Char) (hl : ∀ c ∈ l, c ≠ '\n') :
    split_lines (l ++ '\n' :: rest) = l :: split_lines rest := by
  induction l with
  | nil => simp [split_lines]
  | cons c t ih =>
    have hc : c ≠ '\n' := hl c (by simp)
    have ht : ∀ x ∈ t, x ≠ '\n' := fun x hx => hl x (by simp [hx])
    rw [List.cons_append, split_lines, if_neg hc, ih ht]

theorem split_join_lines (ls : List (List Char)) (h : ∀ l ∈ ls, ∀ c ∈ l, c ≠ '\n') :
    split_lines (join_lines ls) = ls ++ [[]] := by
  induction ls with
  | nil => rfl
  | cons l t ih =>
    simp only [join_lines, List.cons_append]
    rw [split_lines_append l _ (h l (by simp)), ih (fun x hx => h x (by simp [hx]))]

theorem parse_begin_line_begin (t : armour_type) :
    parse_begin_line (armour_begin_line t) = some t := by
  cases t <;> decide

theorem armour_lines_no_newline (t : armour_type) :
    (∀ c ∈ armour_begin_line t, c ≠ '\n') ∧ (∀ c ∈ armour_end_line t, c ≠ '\n') := by
  cases t <;> decide

theorem parse_header_line_header (h : ops_armoured_header_value_t) (hk : ∀ c ∈ h.key, c ≠ ':') :
    parse_header_line (armour_header_line h) = some h := by
  obtain ⟨key, value⟩ := h
  simp only [armour_header_line] at *
  induction key with
  | nil => simp [parse_header_line]
  | cons c t ih =>
    have hc : c ≠ ':' := hk c (by simp)
    rw [List.cons_append, parse_header_line, if_neg hc, ih (fun x hx => hk x (by simp [hx]))]

theorem parse_headers_headers (hs : List ops_armoured_header_value_t) (rest : List (List Char))
    (hk : ∀ h ∈ hs, ∀ c ∈ h.key, c ≠ ':') :
    parse_headers (hs.map armour_header_line ++ [] :: rest) = some (hs, rest) := by
  induction hs with
  | nil => simp [parse_headers]
  | cons h t ih =>
    have hne : armour_header_line h ≠ [] := by simp [armour_header_line]
    rw [List.map_cons, List.cons_append, parse_headers, if_neg hne,
      parse_header_line_header h (hk h (by simp)), ih (fun x hx => hk x (by simp [hx]))]

theorem parse_body_lines_body (body : List (List Char)) (crc : List Char)
    (rest : List (List Char)) (hb : ∀ l ∈ body, l.head? ≠ some '=') :
    parse_body_lines (body ++ ('=' :: crc) :: rest) = some (body.flatten, crc, rest) := by
  induction body with
  | nil => simp [parse_body_lines]
  | cons l t ih =>
    have hl : l.head? ≠ some '=' := hb l (by simp)
    have ht := ih (fun x hx => hb x (by simp [hx]))
    rw [List.cons_append, parse_body_lines, if_neg hl, ht]
    simp

theorem armour_lines_no_line_feed (b : armour_block)
    (hline : ∀ h ∈ b.headers, ∀ c ∈ armour_header_line h, c ≠ '\n') :
    ∀ l ∈ armour_lines b, ∀ c ∈ l, c ≠ '\n' := by
  obtain ⟨t, hs, data⟩ := b
  simp only at hline
  have hbody := wrap_lines_radix64 (radix64_encode data).length data
  have hcrc : ∀ c ∈ '=' :: radix64_encode (be_bytes (crc24 data) 3), c ≠ '\n' := by
    intro c hc
    rcases List.mem_cons.1 hc with h | h
    · subst h; decide
    · exact radix64_encode_chars _ c h
  intro l hl
  simp only [armour_lines, List.append_assoc, List.mem_append, List.mem_cons,
    List.mem_singleton, List.mem_map, List.not_mem_nil, or_false] at hl
  rcases hl with h | ⟨h0, hh, h⟩ | h | h | h | h
  · subst h; exact (armour_lines_no_newline t).1
  · subst h; exact hline h0 hh
  · subst h; simp
  · exact (hbody l h).2
  · subst h; exact hcrc
  · subst h; exact (armour_lines_no_newline t).2

theorem dearmour_lines_armour_lines (b : armour_block) (rest : List (List Char))
    (hdata : ∀ x ∈ b.data, x < 256)
    (hkey : ∀ h ∈ b.headers, ∀ c ∈ h.key, c ≠ ':') :
    dearmour_lines (armour_lines b ++ rest) = .ok b := by
  obtain ⟨t, hs, data⟩ := b
  simp only at hdata hkey
  have hbody := wrap_lines_radix64 (radix64_encode data).length data
  have hbytes : ∀ x ∈ be_bytes (crc24 data) 3, x < 256 := by
    intro x hx
    simp only [be_bytes, List.mem_cons, List.not_mem_nil, or_false] at hx
    rcases hx with h | h | h <;> subst h <;> exact Nat.mod_lt _ (by decide)
  unfold dearmour_lines armour_lines
  simp only [List.singleton_append, List.cons_append, List.append_assoc, List.nil_append,
    parse_begin_line_begin]
  rw [parse_headers_headers hs _ hkey]
  simp only []
  rw [parse_body_lines_body _ _ _ (fun l hl => (hbody l hl).1)]
  simp only []
  rw [wrap_lines_join 64 (by decide) _ _ (le_refl _), radix64_decode_encode data hdata,
    radix64_decode_encode _ hbytes]
  simp

/-- Dearmouring an armoured block gives back the block name, the headers and
the data. -/
theorem dearmour_armour (b : armour_block) (hdata : ∀ x ∈ b.data, x < 256)
    (hkey : ∀ h ∈ b.headers, ∀ c ∈ h.key, c ≠ ':')
    (hline : ∀ h ∈ b.headers, ∀ c ∈ armour_header_line h, c ≠ '\n') :
    dearmour (armour b) = .ok b := by
  unfold dearmour armour
  rw [split_join_lines _ (armour_lines_no_line_feed b hline)]
  exact dearmour_lines_armour_lines b [[]] hdata hkey

theorem wrap_lines_length (width fuel : Nat) (cs : List Char) :
    ∀ l ∈ wrap_lines width fuel cs, l.length ≤ width := by
  induction fuel generalizing cs with
  | zero => simp [wrap_lines]
  | succ n ih =>
    cases cs with
    | nil => simp [wrap_lines]
    | cons c t =>
      intro l hl
      simp only [wrap_lines, List.mem_cons] at hl
      rcases hl with h | h
      · subst h; exact List.length_take_le _ _
      · exact ih _ l h

/-- C8: Armour(Dearmour(X)) = X for every X produced by Armour: an armoured
block (header line, Key: Value header lines, blank line, Radix-64 text in lines
of at most 64 columns, CRC-24 line, matching trailer line) is dearmoured
without error to its block name, headers and data, and armouring these again
reproduces the block character for character. -/
theorem armour_dearmour_roundtrip (b : armour_block) (x : List Char) (hx : x = armour b)
    (hdata : ∀ o ∈ b.data, o < 256)
    (hheaders : ∀ h ∈ b.headers,
      (∀ c ∈ h.key, c ≠ ':' ∧ c ≠ '\n') ∧ ∀ c ∈ h.value, c ≠ '\n') :
    (∃ b2, dearmour x = .ok b2 ∧ armour b2 = x) ∧ dearmour x = .ok b ∧
    (∀ l ∈ wrap_lines 64 (radix64_encode b.data).length (radix64_encode b.data),
      l.length ≤ 64) := by
  have hkey : ∀ h ∈ b.headers, ∀ c ∈ h.key, c ≠ ':' :=
    fun h hh c hc => ((hheaders h hh).1 c hc).1
  have hline : ∀ h ∈ b.headers, ∀ c ∈ armour_header_line h, c ≠ '\n' := by
    intro h hh c hc
    simp only [armour_header_line, List.mem_append, List.mem_cons] at hc
    rcases hc with h1 | h1 | h1 | h1
    · exact ((hheaders h hh).1 c h1).2
    · subst h1; decide
    · subst h1; decide
    · exact (hheaders h hh).2 c h1
  have hd := dearmour_armour b hdata hkey hline
  subst hx
  exact ⟨⟨b, hd, rfl⟩, hd, wrap_lines_length 64 _ _⟩

/-- Witness of C8: a message block with one header and 50 octets of data. -/
theorem armour_dearmour_roundtrip_witness :
    (∀ o ∈ (List.range 50), o < 256) ∧
    dearmour (armour ⟨.PGP_MESSAGE, [⟨"Version".toList, "1".toList⟩], List.range 50⟩)
      = .ok ⟨.PGP_MESSAGE, [⟨"Version".toList, "1".toList⟩], List.range 50⟩ :=
  ⟨by decide,
    (armour_dearmour_roundtrip ⟨.PGP_MESSAGE, [⟨"Version".toList, "1".toList⟩], List.range 50⟩
      _ rfl (by decide) (by decide)).2.1⟩

theorem armour_example :
    armour ⟨.PGP_SIGNATURE, [], [1, 2, 3, 4]⟩
      = "-----BEGIN PGP SIGNATURE-----\n\nAQIDBA==\n=eHjN\n-----END PGP SIGNATURE-----\n".toList := by
  decide

theorem dsa_inverse_mul (a q : Nat) (hq : q.Prime) (ha : ¬ q ∣ a) :
    a * dsa_inverse a q ≡ 1 [MOD q] := by
  haveI : Fact q.Prime := ⟨hq⟩
  have h2 : 2 ≤ q := hq.two_le
  unfold dsa_inverse
  have hz : (a : ZMod q) ≠ 0 := by
    intro h
    exact ha ((ZMod.natCast_zmod_eq_zero_iff_dvd a q).1 h)
  have hf := ZMod.pow_card_sub_one_eq_one hz
  rw [← ZMod.eq_iff_modEq_nat]
  push_cast
  rw [ZMod.natCast_mod, Nat.cast_pow, ← pow_succ']
  have : q - 2 + 1 = q - 1 := by omega
  rw [this, hf]

theorem pow_modEq_of_order (g p q a b : Nat) (hg : g ^ q % p = 1 % p) (hab : a ≡ b [MOD q]) :
    g ^ a ≡ g ^ b [MOD p] := by
  have hg1 : g ^ q ≡ 1 [MOD p] := hg
  have key : ∀ a b : Nat, a ≤ b → a ≡ b [MOD q] → g ^ a ≡ g ^ b [MOD p] := by
    intro a b hle h
    obtain ⟨t, ht⟩ := (Nat.modEq_iff_dvd' hle).1 h
    have hb : b = a + q * t := by omega
    rw [hb, pow_add, pow_mul]
    have := (hg1.pow t).mul_left (g ^ a)
    simpa using this.symm
  rcases le_total a b with h | h
  · exact key a b h hab
  · exact (key b a h hab.symm).symm

theorem ops_dsa_verify_sign (hash : List Nat) (x k : Nat) (dsa : ops_dsa_public_key_t)
    (hq : dsa.q.Prime) (hg : dsa.g ^ dsa.q % dsa.p = 1 % dsa.p)
    (hy : dsa.y = dsa.g ^ x % dsa.p) (hk : ¬ dsa.q ∣ k)
    (hr : (ops_dsa_sign hash x k dsa).r ≠ 0) (hs : (ops_dsa_sign hash x k dsa).s ≠ 0) :
    ops_dsa_verify hash (ops_dsa_sign hash x k dsa) dsa = true := by
  obtain ⟨p, q, g, y⟩ := dsa
  simp only at hq hg hy hk
  haveI : Fact q.Prime := ⟨hq⟩
  have hqpos : 0 < q := hq.pos
  set z := read_scalar hash with hz
  set r := g ^ k % p % q with hrdef
  set s := dsa_inverse k q * (z + x * r) % q with hsdef
  have hsig : ops_dsa_sign hash x k ⟨p, q, g, y⟩ = ⟨r, s⟩ := rfl
  rw [hsig] at hr hs ⊢
  simp only at hr hs
  have hrq : r < q := Nat.mod_lt _ hqpos
  have hsq : s < q := Nat.mod_lt _ hqpos
  have hsnd : ¬ q ∣ s := fun h => hs (Nat.eq_zero_of_dvd_of_lt h hsq)
  set w := dsa_inverse s q with hw
  have hsw := dsa_inverse_mul s q hq hsnd
  have hkk := dsa_inverse_mul k q hq hk
  -- the exponent: u1 + x * u2 ≡ k (mod q)
  have hexp : z * w % q + x * (r * w % q) ≡ k [MOD q] := by
    rw [← ZMod.eq_iff_modEq_nat] at hsw hkk ⊢
    have hs' : (s : ZMod q) = (dsa_inverse k q : ZMod q) * ((z : ZMod q) + x * r) := by
      rw [hsdef]
      push_cast [ZMod.natCast_mod]
      ring
    push_cast [ZMod.natCast_mod] at hsw hkk ⊢
    calc (z : ZMod q) * w + x * (r * w)
        = ((z : ZMod q) + x * r) * w := by ring
      _ = (k * dsa_inverse k q) * (((z : ZMod q) + x * r) * w) := by rw [hkk, one_mul]
      _ = k * (s * w) := by rw [hs']; ring
      _ = k := by rw [hsw, mul_one]
  have hpow : g ^ (z * w % q) * y ^ (r * w % q) ≡ g ^ k [MOD p] := by
    have h1 : y ^ (r * w % q) ≡ (g ^ x) ^ (r * w % q) [MOD p] := by
      apply Nat.ModEq.pow
      rw [hy]
      exact Nat.mod_modEq _ _
    have h2 : g ^ (z * w % q) * y ^ (r * w % q)
        ≡ g ^ (z * w % q + x * (r * w % q)) [MOD p] := by
      rw [pow_add, pow_mul]
      exact h1.mul_left _
    exact h2.trans (pow_modEq_of_order g p q _ _ hg hexp)
  have hv : g ^ (z * w % q) * y ^ (r * w % q) % p % q = r := by
    rw [hrdef]
    congr 1
  simp only [ops_dsa_verify, hv, beq_self_eq_true, Bool.and_true, Bool.and_eq_true,
    decide_eq_true_eq]
  exact ⟨⟨⟨Nat.pos_of_ne_zero hr, hrq⟩, Nat.pos_of_ne_zero hs⟩, hsq⟩

theorem read_scalar_aux (acc : Nat) (bs : List Nat) (h : ∀ b ∈ bs, b < 256) :
    bs.foldl (fun a b => (a <<< 8) ||| b) acc = acc * 2 ^ (8 * bs.length) + read_scalar bs := by
  induction bs generalizing acc with
  | nil => simp [read_scalar]
  | cons b t ih =>
    have hb : b < 256 := h b (by simp)
    have ht : ∀ x ∈ t, x < 256 := fun x hx => h x (by simp [hx])
    have hor : ∀ a : Nat, (a <<< 8) ||| b = a * 256 + b := by
      intro a
      rw [Nat.shiftLeft_eq, show a * 2 ^ 8 = 2 ^ 8 * a by ring,
        ← Nat.mul_add_lt_is_or (by omega : b < 2 ^ 8)]
      ring
    simp only [read_scalar, List.foldl_cons, List.length_cons]
    rw [ih _ ht, ih (0 <<< 8 ||| b) ht, hor, hor]
    have : 2 ^ (8 * (t.length + 1)) = 256 * 2 ^ (8 * t.length) := by
      rw [show 8 * (t.length + 1) = 8 + 8 * t.length by ring, pow_add]; norm_num
    rw [this]
    ring

theorem read_scalar_cons (b : Nat) (bs : List Nat) (h : ∀ x ∈ b :: bs, x < 256) :
    read_scalar (b :: bs) = b * 2 ^ (8 * bs.length) + read_scalar bs := by
  have hb : b < 256 := h b (by simp)
  have ht : ∀ x ∈ bs, x < 256 := fun x hx => h x (by simp [hx])
  have h0 : (0 <<< 8 ||| b) = b := by simp
  simp only [read_scalar, List.foldl_cons]
  rw [h0]
  exact read_scalar_aux b bs ht

theorem be_bytes_lt (n len : Nat) : ∀ b ∈ be_bytes n len, b < 256 := by
  induction len with
  | zero => simp [be_bytes]
  | succ k ih =>
    intro b hb
    simp only [be_bytes, List.mem_cons] at hb
    rcases hb with h | h
    · subst h; exact Nat.mod_lt _ (by decide)
    · exact ih b h

theorem read_scalar_be_bytes (n len : Nat) :
    read_scalar (be_bytes n len) = n % 2 ^ (8 * len) := by
  induction len with
  | zero => simp [be_bytes, read_scalar, Nat.mod_one]
  | succ k ih =>
    have hlt : ∀ x ∈ be_bytes n (k + 1), x < 256 := be_bytes_lt n (k + 1)
    simp only [be_bytes] at hlt ⊢
    rw [read_scalar_cons _ _ hlt, ih, be_bytes_length, Nat.shiftRight_eq_div_pow,
      show 8 * (k + 1) = k * 8 + 8 by ring, pow_add, Nat.mod_mul, show 8 * k = k * 8 by ring,
      show (2 : Nat) ^ 8 = 256 by norm_num]
    ring

theorem read_new_length_write_length (n : Nat) (rest : List Nat) (hn : n < 2 ^ 32) :
    read_new_length (write_length n ++ rest) = some (⟨n, false⟩, rest) := by
  unfold write_length
  split_ifs with h1 h2
  · simp [read_new_length, nf_length_form_of, show n ≤ 191 by omega]
  · have hf : nf_length_form_of ((n - 192) / 256 + 192) = .two_octet := by
      unfold nf_length_form_of
      split_ifs <;> first | rfl | omega
    simp only [List.cons_append, List.nil_append, read_new_length, hf, Nat.shiftLeft_eq]
    congr 3
    omega
  · have hf : nf_length_form_of 255 = .five_octet := by decide
    have hb := read_scalar_be_bytes n 4
    simp only [be_bytes] at hb ⊢
    simp only [List.cons_append, List.nil_append, read_new_length, hf, hb]
    congr 3
    exact Nat.mod_eq_of_lt hn

theorem mpi_bits_aux_spec (fuel n : Nat) (h : n ≤ fuel) :
    n < 2 ^ mpi_bits_aux fuel n ∧ (n ≠ 0 → 2 ^ (mpi_bits_aux fuel n - 1) ≤ n) := by
  induction fuel generalizing n with
  | zero =>
    have : n = 0 := by omega
    subst this
    simp [mpi_bits_aux]
  | succ f ih =>
    unfold mpi_bits_aux
    by_cases hn : n = 0
    · subst hn; simp
    · rw [if_neg hn]
      obtain ⟨h1, h2⟩ := ih (n / 2) (by omega)
      constructor
      · rw [pow_succ]
        omega
      · intro _
        simp only [Nat.add_sub_cancel]
        by_cases hh : n / 2 = 0
        · have hb : mpi_bits_aux f (n / 2) = 0 := by
            rw [hh]; cases f <;> simp [mpi_bits_aux]
          rw [hb]
          simp
          omega
        · have h3 := h2 hh
          have hpos : 0 < mpi_bits_aux f (n / 2) := by
            by_contra hc
            have : mpi_bits_aux f (n / 2) = 0 := by omega
            rw [this] at h1
            simp at h1
            exact hh h1
          have : mpi_bits_aux f (n / 2) = (mpi_bits_aux f (n / 2) - 1) + 1 := by omega
          rw [this, pow_succ]
          omega

theorem mpi_bits_spec (n : Nat) :
    n < 2 ^ mpi_bits n ∧ (n ≠ 0 → 2 ^ (mpi_bits n - 1) ≤ n) :=
  mpi_bits_aux_spec n n (le_refl n)

theorem mpi_bits_zero_iff (n : Nat) : mpi_bits n = 0 ↔ n = 0 := by
  constructor
  · intro h
    have := (mpi_bits_spec n).1
    rw [h] at this
    simpa using this
  · intro h
    subst h
    rfl

theorem mpi_leading_byte (n k nz : Nat) (hnz1 : 1 ≤ nz) (hnz8 : nz ≤ 8)
    (hlt : n < 2 ^ (k * 8 + nz)) (hge : 2 ^ (k * 8 + nz - 1) ≤ n) :
    (n >>> (k * 8) % 256) >>> nz = 0 ∧ (n >>> (k * 8) % 256).testBit (nz - 1) = true := by
  have hpos : 0 < 2 ^ (k * 8) := Nat.pow_pos (by decide)
  have hb : n / 2 ^ (k * 8) < 2 ^ nz := by
    apply Nat.div_lt_of_lt_mul
    rw [← pow_add]; exact hlt
  have h256 : 2 ^ nz ≤ 256 := by
    calc 2 ^ nz ≤ 2 ^ 8 := Nat.pow_le_pow_right (by decide) hnz8
      _ = 256 := by norm_num
  have hb2 : 2 ^ (nz - 1) ≤ n / 2 ^ (k * 8) := by
    rw [Nat.le_div_iff_mul_le hpos, ← pow_add]
    have : nz - 1 + k * 8 = k * 8 + nz - 1 := by omega
    rw [this]; exact hge
  simp only [Nat.shiftRight_eq_div_pow]
  rw [Nat.mod_eq_of_lt (by omega)]
  constructor
  · exact Nat.div_eq_of_lt hb
  · rw [Nat.testBit_to_div_mod]
    have hp : 0 < 2 ^ (nz - 1) := Nat.pow_pos (by decide)
    have h1 : n / 2 ^ (k * 8) / 2 ^ (nz - 1) < 2 := by
      apply Nat.div_lt_of_lt_mul
      have : 2 ^ (nz - 1) * 2 = 2 ^ nz := by
        rw [← pow_succ]; congr 1; omega
      rw [this]; exact hb
    have h2 : 1 ≤ n / 2 ^ (k * 8) / 2 ^ (nz - 1) := by
      rw [Nat.le_div_iff_mul_le hp]; simpa using hb2
    have : n / 2 ^ (k * 8) / 2 ^ (nz - 1) = 1 := by omega
    simp [this]

theorem read_mpi_write_mpi (n : Nat) (rest : List Nat) (hn : mpi_bits n < 65536) :
    read_mpi (write_mpi n ++ rest) = some (n, rest) := by
  obtain ⟨hlt, hge⟩ := mpi_bits_spec n
  have hbits : read_scalar (be_bytes (mpi_bits n) 2) = mpi_bits n := by
    rw [read_scalar_be_bytes]
    exact Nat.mod_eq_of_lt (by norm_num; exact hn)
  have hread : limited_read ((mpi_bits n + 7) / 8)
      (be_bytes n ((mpi_bits n + 7) / 8) ++ rest)
      = some (be_bytes n ((mpi_bits n + 7) / 8), rest) := by
    have := limited_read_exact (be_bytes n ((mpi_bits n + 7) / 8)) rest
    rwa [be_bytes_length] at this
  unfold write_mpi
  simp only [be_bytes] at hbits ⊢
  simp only [List.cons_append, List.nil_append, read_mpi, hbits, hread]
  cases hlen : (mpi_bits n + 7) / 8 with
  | zero =>
    have h0 : mpi_bits n = 0 := by omega
    have : n = 0 := (mpi_bits_zero_iff n).1 h0
    simp [be_bytes, this]
  | succ k =>
    have hval : read_scalar (be_bytes n (k + 1)) = n := by
      rw [read_scalar_be_bytes]
      apply Nat.mod_eq_of_lt
      calc n < 2 ^ mpi_bits n := hlt
        _ ≤ 2 ^ (8 * (k + 1)) := Nat.pow_le_pow_right (by decide) (by omega)
    have hn0 : n ≠ 0 := by
      intro h
      have := (mpi_bits_zero_iff n).2 h
      omega
    have hnz : mpi_bits n = k * 8 + (if mpi_bits n % 8 = 0 then 8 else mpi_bits n % 8) := by
      split_ifs <;> omega
    have hnz1 : 1 ≤ (if mpi_bits n % 8 = 0 then 8 else mpi_bits n % 8) := by
      split_ifs <;> omega
    have hnz8 : (if mpi_bits n % 8 = 0 then 8 else mpi_bits n % 8) ≤ 8 := by
      split_ifs <;> omega
    obtain ⟨hl1, hl2⟩ := mpi_leading_byte n k _ hnz1 hnz8 (by rw [← hnz]; exact hlt)
      (by rw [← hnz]; exact hge hn0)
    simp only [be_bytes] at hval ⊢
    simp only [hl1, hl2, hval]
    simp

theorem new_format_tag_octet (tag : Nat) (h : tag < 64) :
    ptag_always_set (OPS_PTAG_ALWAYS_SET + OPS_PTAG_NEW_FORMAT + tag) = true ∧
    ptag_new_format (OPS_PTAG_ALWAYS_SET + OPS_PTAG_NEW_FORMAT + tag) = true ∧
    ptag_nf_content_tag (OPS_PTAG_ALWAYS_SET + OPS_PTAG_NEW_FORMAT + tag) = tag := by
  revert tag
  decide

theorem ops_parse_loop_nil (fuel pos : Nat) : ops_parse_loop fuel pos [] = [] := by
  cases fuel <;> simp [ops_parse_loop, ops_parse_one_packet]

/-- One turn of the parser loop on a framed new-format packet with a definite
length: the packet-tag event, the events of the body parser, the end-of-packet
event, then the packets that follow. -/
theorem ops_parse_loop_write_packet (fuel pos tag : Nat) (body rest : List Nat)
    (htag : tag < 64) (hlen : body.length < 2 ^ 32) :
    ops_parse_loop (fuel + 1) pos (write_packet tag body ++ rest)
      = ptag_event ⟨1, tag, .OPS_PTAG_OF_LT_ONE_BYTE, body.length, pos⟩
        :: ((parse_packet_body ⟨1, tag, .OPS_PTAG_OF_LT_ONE_BYTE, body.length, pos⟩ body).1
          ++ (if (parse_packet_body ⟨1, tag, .OPS_PTAG_OF_LT_ONE_BYTE, body.length, pos⟩ body).2
              then packet_end_event body
                :: ops_parse_loop fuel
                    (pos + ((write_packet tag body ++ rest).length - rest.length)) rest
              else [])) := by
  obtain ⟨h7, h6, hct⟩ := new_format_tag_octet tag htag
  have hhdr : read_packet_header pos (OPS_PTAG_ALWAYS_SET + OPS_PTAG_NEW_FORMAT + tag)
      (write_length body.length ++ (body ++ rest))
      = some (⟨⟨1, tag, .OPS_PTAG_OF_LT_ONE_BYTE, body.length, pos⟩, false, false⟩,
          body ++ rest) := by
    simp only [read_packet_header, h6, ↓reduceIte, read_new_length_write_length _ _ hlen, hct]
  have hbody : read_packet_body
      ⟨⟨1, tag, .OPS_PTAG_OF_LT_ONE_BYTE, body.length, pos⟩, false, false⟩ (body ++ rest)
      = some (body, rest) := by
    simp [read_packet_body, limited_read_exact]
  have hshape : write_packet tag body ++ rest
      = (OPS_PTAG_ALWAYS_SET + OPS_PTAG_NEW_FORMAT + tag)
          :: (write_length body.length ++ (body ++ rest)) := by
    simp [write_packet]
  rw [hshape]
  simp only [ops_parse_loop, ops_parse_one_packet, h7, hhdr, hbody]
  cases hok : (parse_packet_body ⟨1, tag, .OPS_PTAG_OF_LT_ONE_BYTE, body.length, pos⟩ body).2
  · simp
  · simp

theorem split_lines_no_line_feed (text : List Char) :
    ∀ l ∈ split_lines text, ∀ c ∈ l, c ≠ '\n' := by
  induction text with
  | nil => simp [split_lines]
  | cons a t ih =>
    intro l hl c hc
    unfold split_lines at hl
    split_ifs at hl with ha
    · rcases List.mem_cons.1 hl with h | h
      · subst h; simp at hc
      · exact ih l h c hc
    · cases hs : split_lines t with
      | nil =>
        rw [hs] at hl
        simp at hl
        subst hl
        simp at hc
        subst hc
        exact ha
      | cons l0 ls =>
        rw [hs] at hl ih
        simp only [List.mem_cons] at hl
        rcases hl with h | h
        · subst h
          rcases List.mem_cons.1 hc with h2 | h2
          · subst h2; exact ha
          · exact ih l0 (by simp) c h2
        · exact ih l (by simp [h]) c hc

theorem join_lines_append (a b : List (List Char)) :
    join_lines (a ++ b) = join_lines a ++ join_lines b := by
  induction a with
  | nil => rfl
  | cons l t ih => simp [join_lines, ih]

theorem canonical_lines_spec (input : List Char) :
    ∀ l ∈ canonical_lines input,
      (∀ c ∈ l, c ≠ '\n') ∧ strip_trailing_whitespace l = l := by
  intro l hl
  simp only [canonical_lines, List.mem_map] at hl
  obtain ⟨l0, hl0, rfl⟩ := hl
  have hmem : l0 ∈ split_lines input := by
    unfold text_lines at hl0
    split_ifs at hl0
    · exact List.mem_of_mem_dropLast hl0
    · exact hl0
  constructor
  · intro c hc
    have hpre : strip_trailing_whitespace l0 <+: l0 := List.rdropWhile_prefix _ _
    exact split_lines_no_line_feed input l0 hmem c (hpre.subset hc)
  · exact List.rdropWhile_idempotent _ _

theorem strip_dash_escape (l : List Char) (h : strip_trailing_whitespace l = l) :
    strip_trailing_whitespace (dash_escape l ++ ['\r']) = dash_escape l ∧
    dash_unescape (dash_escape l) = l := by
  have hcr : is_line_space '\r' = true := by decide
  constructor
  · unfold strip_trailing_whitespace at h ⊢
    rw [List.rdropWhile_concat_pos _ _ _ hcr]
    unfold dash_escape
    split_ifs with hd
    · rw [List.rdropWhile_eq_self_iff] at h ⊢
      intro hne
      cases l with
      | nil => simp at hd
      | cons a t =>
        have := h (by simp)
        simpa using this
    · exact h
  · unfold dash_escape
    split_ifs with hd
    · simp [dash_unescape]
    · unfold dash_unescape
      rw [if_neg]
      intro hc
      exact hd hc.1

theorem read_cleartext_body_lines (lines tail : List (List Char))
    (hlines : ∀ l ∈ lines, strip_trailing_whitespace l = l) :
    read_cleartext_body
        (lines.map (fun l => dash_escape l ++ ['\r'])
          ++ armour_begin_line .PGP_SIGNATURE :: tail)
      = some (lines, armour_begin_line .PGP_SIGNATURE :: tail) := by
  induction lines with
  | nil => simp [read_cleartext_body]
  | cons l t ih =>
    have hl := hlines l (by simp)
    have ht := ih (fun x hx => hlines x (by simp [hx]))
    obtain ⟨h1, h2⟩ := strip_dash_escape l hl
    have hne : dash_escape l ++ ['\r'] ≠ armour_begin_line .PGP_SIGNATURE := by
      intro hc
      have hmem : '\r' ∈ armour_begin_line .PGP_SIGNATURE := by
        rw [← hc]; simp
      revert hmem
      decide
    rw [List.map_cons, List.cons_append, read_cleartext_body, if_neg hne, ht, h1, h2]

theorem parse_one_known_subpacket (n c : Nat) (body rest : List Nat)
    (hn : n = body.length + 1) (hn192 : n < 192) (hc : c < 128)
    (hknown : ss_known c = true) :
    parse_one_signature_subpacket (n :: c :: (body ++ rest))
      = ([⟨OPS_PTAG_SIGNATURE_SUBPACKET_BASE + c, 0, .ss_data body⟩], some rest) := by
  have hread : limited_read n (c :: (body ++ rest)) = some (c :: body, rest) := by
    have := limited_read_exact (c :: body) rest
    simpa [hn] using this
  have hc7 : c &&& 0x7f = c ∧ c >>> 7 = 0 := by
    revert hc hknown
    have : ∀ c, c < 128 → c &&& 0x7f = c ∧ c >>> 7 = 0 := by decide
    intro hc _
    exact this c hc
  simp only [parse_one_signature_subpacket, read_ss_length, hn192, ↓reduceIte, hread,
    hc7.1, hc7.2, hknown]

theorem parse_signature_hashed_region (t : Nat) (keyid : List Nat) (hk : keyid.length = 8) :
    parse_signature_subpackets ([5, 2] ++ be_bytes t 4 ++ ([9, 16] ++ keyid)).length
        ([5, 2] ++ be_bytes t 4 ++ ([9, 16] ++ keyid))
      = ([⟨OPS_PTAG_SS_CREATION_TIME, 0, .ss_data (be_bytes t 4)⟩,
          ⟨OPS_PTAG_SS_ISSUER_KEY_ID, 0, .ss_data keyid⟩], true) := by
  have h1 := parse_one_known_subpacket 5 2 (be_bytes t 4) ([9, 16] ++ keyid)
    (by simp [be_bytes_length]) (by decide) (by decide) (by decide)
  have h2 := parse_one_known_subpacket 9 16 keyid [] (by simp [hk]) (by decide) (by decide)
    (by decide)
  have e1 : [5, 2] ++ be_bytes t 4 ++ ([9, 16] ++ keyid)
      = 5 :: 2 :: (be_bytes t 4 ++ ([9, 16] ++ keyid)) := by simp
  have e2 : [9, 16] ++ keyid = 9 :: 16 :: (keyid ++ []) := by simp
  rw [e1, parse_signature_subpackets_step _ _ _ h1, e2,
    parse_signature_subpackets_step _ _ _ h2]
  simp [parse_signature_subpackets, OPS_PTAG_SS_CREATION_TIME, OPS_PTAG_SS_ISSUER_KEY_ID,
    OPS_PTAG_SIGNATURE_SUBPACKET_BASE]

theorem mpi_bits_le (n m : Nat) (h : n < 2 ^ m) : mpi_bits n ≤ m := by
  by_cases hn : n = 0
  · rw [(mpi_bits_zero_iff n).2 hn]; exact Nat.zero_le _
  · have h2 := (mpi_bits_spec n).2 hn
    by_contra hc
    have h3 : m ≤ mpi_bits n - 1 := by omega
    have := Nat.pow_le_pow_right (by decide : 0 < 2) h3
    omega

theorem write_mpi_length (n : Nat) : (write_mpi n).length = 2 + (mpi_bits n + 7) / 8 := by
  simp [write_mpi, be_bytes_length]

theorem write_mpi_lt (n : Nat) : ∀ b ∈ write_mpi n, b < 256 := by
  intro b hb
  simp only [write_mpi, List.mem_append] at hb
  rcases hb with h | h <;> exact be_bytes_lt _ _ b h

theorem parse_signature_params_dsa (r s : Nat) (hr : mpi_bits r < 65536)
    (hs : mpi_bits s < 65536) :
    parse_signature_params OPS_PKA_DSA (write_mpi r ++ write_mpi s) = some (.dsa r s) := by
  have h1 := read_mpi_write_mpi r (write_mpi s) hr
  have h2 := read_mpi_write_mpi s [] hs
  rw [List.append_nil] at h2
  simp [parse_signature_params, OPS_PKA_DSA, h1, h2]

/-- The events of the signature packet body written by `ops_write_signature`:
header, creation time, issuer key ID, footer. -/
theorem parse_signature_written (ty ha t r s d0 d1 : Nat) (keyid : List Nat)
    (hk : keyid.length = 8) (hr : mpi_bits r < 65536) (hs : mpi_bits s < 65536) :
    parse_signature
        (v4_hashed_data ⟨ty, OPS_PKA_DSA, ha, [], [5, 2] ++ be_bytes t 4 ++ ([9, 16] ++ keyid)⟩
          ++ be_bytes 0 2 ++ [d0, d1] ++ write_mpi r ++ write_mpi s)
      = ([⟨OPS_PTAG_CT_SIGNATURE_HEADER, 0,
            .signature (v4_signature_header ty OPS_PKA_DSA ha 16)⟩,
          ⟨OPS_PTAG_SS_CREATION_TIME, 0, .ss_data (be_bytes t 4)⟩,
          ⟨OPS_PTAG_SS_ISSUER_KEY_ID, 0, .ss_data keyid⟩,
          ⟨OPS_PTAG_CT_SIGNATURE_FOOTER, 0, .signature
            { v4_signature_header ty OPS_PKA_DSA ha 16 with
              hash2 := [d0, d1], signature := .dsa r s }⟩], true) := by
  have hH : ([5, 2] ++ be_bytes t 4 ++ ([9, 16] ++ keyid)).length = 16 := by
    simp [be_bytes_length, hk]
  have hshape : v4_hashed_data ⟨ty, OPS_PKA_DSA, ha, [],
        [5, 2] ++ be_bytes t 4 ++ ([9, 16] ++ keyid)⟩
        ++ be_bytes 0 2 ++ [d0, d1] ++ write_mpi r ++ write_mpi s
      = 4 :: ty :: OPS_PKA_DSA :: ha :: 0 :: 16 ::
          (([5, 2] ++ be_bytes t 4 ++ ([9, 16] ++ keyid))
            ++ (0 :: 0 :: ([] ++ (d0 :: d1 :: (write_mpi r ++ write_mpi s))))) := by
    simp only [v4_hashed_data, hH]
    simp [be_bytes]
  have hregion := parse_signature_hashed_region t keyid hk
  rw [hshape, parse_signature_v4 ty OPS_PKA_DSA ha 0 16 _ _ (by rw [hH]; rfl), hH,
    parse_v4_hashed_ok _ _ _ 0 0 [] _ hregion (by rfl)]
  simp only [parse_v4_unhashed, List.length_nil, parse_signature_subpackets,
    parse_v4_signature_footer, v4_signature_header, parse_signature_params_dsa r s hr hs]
  simp

theorem sha1_digest_lt (msg : List Nat) : ∀ b ∈ sha1_digest msg, b < 256 := by
  intro b hb
  unfold sha1_digest at hb
  simp only [List.mem_append] at hb
  rcases hb with (((h | h) | h) | h) | h <;> exact be_bytes_lt _ _ b h

theorem write_length_lt (n : Nat) : ∀ b ∈ write_length n, b < 256 := by
  intro b hb
  unfold write_length at hb
  split_ifs at hb with h1 h2
  · simp at hb; omega
  · simp at hb
    rcases hb with h | h <;> omega
  · rcases List.mem_cons.1 hb with h | h
    · omega
    · exact be_bytes_lt _ _ b h

theorem validate_written_signature (pub : ops_public_key_t) (seen keyid body : List Nat)
    (ptag : ops_ptag_t) (sig0 sig : ops_signature_t) (t : Nat)
    (hid : ops_keyid ops_hash_sha1 pub = some keyid) :
    ops_validate_signature [pub] seen
        (ptag_event ptag
          :: ([⟨OPS_PTAG_CT_SIGNATURE_HEADER, 0, .signature sig0⟩,
              ⟨OPS_PTAG_SS_CREATION_TIME, 0, .ss_data (be_bytes t 4)⟩,
              ⟨OPS_PTAG_SS_ISSUER_KEY_ID, 0, .ss_data keyid⟩,
              ⟨OPS_PTAG_CT_SIGNATURE_FOOTER, 0, .signature sig⟩]
            ++ [packet_end_event body]))
      = ops_check_signature seen sig body pub := by
  simp [ops_validate_signature, ops_validate_events, validate_cb, ptag_event, packet_end_event,
    OPS_PTAG_CT_SIGNATURE_HEADER, OPS_PTAG_CT_SIGNATURE_FOOTER, OPS_PTAG_SS_CREATION_TIME,
    OPS_PTAG_SS_ISSUER_KEY_ID, OPS_PARSER_PACKET_END, hid]

theorem v4_hashed_data_length (sig : ops_create_signature_t) :
    (v4_hashed_data sig).length = 6 + sig.hashed_subpackets.length := by
  simp [v4_hashed_data, be_bytes_length]
  omega

/-- A signature written over the octets `seen` checks against the public key of
the signer. -/
theorem ops_check_signature_written (sig : ops_create_signature_t) (seen rest : List Nat)
    (pub : ops_public_key_t) (p q g y x k : Nat)
    (hhash : sig.hash = ops_hash_sha1.add ops_hash_sha1.init seen)
    (hha : sig.hash_algorithm = OPS_HASH_SHA1)
    (hpub : pub.key = .dsa p q g y)
    (hq : q.Prime) (hg : g ^ q % p = 1 % p) (hy : y = g ^ x % p) (hk : ¬ q ∣ k)
    (hr : (ops_dsa_sign (ops_signature_digest sig) x k ⟨p, q, g, y⟩).r ≠ 0)
    (hs : (ops_dsa_sign (ops_signature_digest sig) x k ⟨p, q, g, y⟩).s ≠ 0) :
    ops_check_signature seen
        { v4_signature_header sig.type sig.key_algorithm sig.hash_algorithm
            sig.hashed_subpackets.length with
          hash2 := (ops_signature_digest sig).take 2,
          signature := .dsa (ops_dsa_sign (ops_signature_digest sig) x k ⟨p, q, g, y⟩).r
            (ops_dsa_sign (ops_signature_digest sig) x k ⟨p, q, g, y⟩).s }
        (v4_hashed_data sig ++ rest) pub
      = .ok () := by
  have hver := ops_dsa_verify_sign (ops_signature_digest sig) x k ⟨p, q, g, y⟩ hq hg hy hk hr hs
  have htake : ((v4_hashed_data sig ++ rest).drop 0).take (6 + sig.hashed_subpackets.length)
      = v4_hashed_data sig := by
    rw [List.drop_zero, ← v4_hashed_data_length sig]
    exact List.take_left' rfl
  have hdig : ops_hash_sha1.finish (ops_hash_sha1.add (ops_hash_sha1.add
        (ops_hash_sha1.add ops_hash_sha1.init seen) (v4_hashed_data sig))
        (v4_hash_trailer (6 + sig.hashed_subpackets.length)))
      = ops_signature_digest sig := by
    unfold ops_signature_digest
    rw [hhash, v4_hashed_data_length]
  simp only [ops_check_signature, v4_signature_header, hha, ops_hash_for, ↓reduceIte, htake,
    hdig, hpub, hver]

theorem armour_lines_cons (b : armour_block) :
    armour_lines b = armour_begin_line b.type ::
      (b.headers.map armour_header_line ++ [[]]
        ++ wrap_lines 64 (radix64_encode b.data).length (radix64_encode b.data)
        ++ ['=' :: radix64_encode (be_bytes (crc24 b.data) 3), armour_end_line b.type]) := by
  simp [armour_lines]

/-- The signature packet that `ops_write_signature` writes for a DSA key, its
octets, and the events the parser delivers for it. -/
theorem ops_write_signature_dsa (sig : ops_create_signature_t) (skey : ops_secret_key_t)
    (p q g y x k t : Nat) (keyid seen : List Nat)
    (hpub : skey.public_key.key = .dsa p q g y) (hsec : skey.key = .dsa x)
    (hka : sig.key_algorithm = OPS_PKA_DSA) (hha : sig.hash_algorithm = OPS_HASH_SHA1)
    (hty : sig.type < 256)
    (hsub : sig.hashed_subpackets = [5, 2] ++ be_bytes t 4 ++ ([9, 16] ++ keyid))
    (hhash : sig.hash = ops_hash_sha1.add ops_hash_sha1.init seen)
    (hid : ops_keyid ops_hash_sha1 skey.public_key = some keyid)
    (hklen : keyid.length = 8) (hkb : ∀ b ∈ keyid, b < 256)
    (hq : q.Prime) (hq2 : q < 2 ^ 65535) (hg : g ^ q % p = 1 % p) (hy : y = g ^ x % p)
    (hk : ¬ q ∣ k)
    (hr : (ops_dsa_sign (ops_signature_digest sig) x k ⟨p, q, g, y⟩).r ≠ 0)
    (hs : (ops_dsa_sign (ops_signature_digest sig) x k ⟨p, q, g, y⟩).s ≠ 0) :
    ∃ packet, ops_write_signature sig skey k = some packet ∧
      (∀ b ∈ packet, b < 256) ∧
      ∀ fuel pos, ops_validate_signature [skey.public_key] seen
          (ops_parse_loop (fuel + 1) pos packet) = .ok () := by
  set D := ops_signature_digest sig with hD
  set r := (ops_dsa_sign D x k ⟨p, q, g, y⟩).r with hrdef
  set s := (ops_dsa_sign D x k ⟨p, q, g, y⟩).s with hsdef
  have hqpos : 0 < q := hq.pos
  have hrq : r < q := Nat.mod_lt _ hqpos
  have hsq : s < q := Nat.mod_lt _ hqpos
  have hrb : mpi_bits r < 65536 := by
    have := mpi_bits_le r 65535 (by omega)
    omega
  have hsb : mpi_bits s < 65536 := by
    have := mpi_bits_le s 65535 (by omega)
    omega
  have hDlen : D.length = 20 := sha1_digest_length _
  have hDlt : ∀ b ∈ D, b < 256 := sha1_digest_lt _
  obtain ⟨d0, d1, drest, hDeq⟩ : ∃ d0 d1 drest, D = d0 :: d1 :: drest := by
    match hm : D, hDlen with
    | d0 :: d1 :: drest, _ => exact ⟨d0, d1, drest, rfl⟩
  have hD2 : D.take 2 = [d0, d1] := by rw [hDeq]; rfl
  have hsig : sig = ⟨sig.type, OPS_PKA_DSA, sig.hash_algorithm, sig.hash,
      [5, 2] ++ be_bytes t 4 ++ ([9, 16] ++ keyid)⟩ := by
    rw [← hka, ← hsub]
  have hsublen : sig.hashed_subpackets.length = 16 := by
    rw [hsub]; simp [be_bytes_length, hklen]
  have hvhd : v4_hashed_data sig = v4_hashed_data ⟨sig.type, OPS_PKA_DSA, sig.hash_algorithm, [],
      [5, 2] ++ be_bytes t 4 ++ ([9, 16] ++ keyid)⟩ := by
    simp [v4_hashed_data, hka, hsub]
  refine ⟨write_packet OPS_PTAG_CT_SIGNATURE
      (v4_hashed_data sig ++ be_bytes 0 2 ++ D.take 2 ++ write_mpi r ++ write_mpi s), ?_, ?_, ?_⟩
  · simp only [ops_write_signature, hpub, hsec, hha, ↓reduceIte]
  · intro b hb
    simp only [write_packet, List.mem_cons, List.mem_append] at hb
    rcases hb with h | h | h
    · subst h; decide
    · exact write_length_lt _ b h
    · rcases h with (((h | h) | h) | h) | h
      · simp only [v4_hashed_data, hsub, hka, hha, List.mem_append, List.mem_cons,
          List.not_mem_nil, or_false] at h
        rcases h with ((h | h | h | h) | h) | ((h | h) | h) | ((h | h) | h)
        · omega
        · omega
        · subst h; decide
        · subst h; decide
        · exact be_bytes_lt _ _ b h
        · omega
        · omega
        · exact be_bytes_lt _ _ b h
        · omega
        · omega
        · exact hkb b h
      · exact be_bytes_lt _ _ b h
      · exact hDlt b (List.mem_of_mem_take h)
      · exact write_mpi_lt _ b h
      · exact write_mpi_lt _ b h
  · have hlen : (v4_hashed_data sig ++ be_bytes 0 2 ++ D.take 2 ++ write_mpi r
        ++ write_mpi s).length < 2 ^ 32 := by
      simp only [List.length_append, v4_hashed_data_length, hsublen, be_bytes_length,
        write_mpi_length, hD2, List.length_cons, List.length_nil]
      omega
    intro fuel pos
    have hstep := ops_parse_loop_write_packet fuel pos OPS_PTAG_CT_SIGNATURE _ []
      (by decide) hlen
    rw [List.append_nil] at hstep
    rw [hstep, ops_parse_loop_nil]
    have hbody : parse_packet_body
        ⟨1, OPS_PTAG_CT_SIGNATURE, .OPS_PTAG_OF_LT_ONE_BYTE,
          (v4_hashed_data sig ++ be_bytes 0 2 ++ D.take 2 ++ write_mpi r
            ++ write_mpi s).length, pos⟩
        (v4_hashed_data sig ++ be_bytes 0 2 ++ D.take 2 ++ write_mpi r ++ write_mpi s)
        = parse_signature
          (v4_hashed_data sig ++ be_bytes 0 2 ++ D.take 2 ++ write_mpi r ++ write_mpi s) := by
      simp [parse_packet_body]
    rw [hbody, hD2, hvhd, parse_signature_written sig.type sig.hash_algorithm t r s d0 d1 keyid
      hklen hrb hsb]
    simp only [↓reduceIte]
    rw [validate_written_signature _ _ _ _ _ _ _ _ hid, ← hvhd, ← hD2]
    have := ops_check_signature_written sig seen
      (be_bytes 0 2 ++ D.take 2 ++ write_mpi r ++ write_mpi s) skey.public_key p q g y x k
      hhash hha hpub hq hg hy hk hr hs
    rw [hsublen, hka] at this
    simp only [List.append_assoc] at this ⊢
    exact this

theorem read_cleartext_body_block (lines rest : List (List Char))
    (hs : List ops_armoured_header_value_t) (data : List Nat)
    (hlines : ∀ l ∈ lines, strip_trailing_whitespace l = l) :
    read_cleartext_body
        (lines.map (fun l => dash_escape l ++ ['\r'])
          ++ (armour_lines ⟨.PGP_SIGNATURE, hs, data⟩ ++ rest))
      = some (lines, armour_lines ⟨.PGP_SIGNATURE, hs, data⟩ ++ rest) := by
  rw [armour_lines_cons]
  exact read_cleartext_body_lines lines _ hlines

/-- C7: for every plaintext and every DSA secret key, the cleartext-signed
message produced by ops_sign_buf_as_cleartext (and ops_sign_file_as_cleartext,
from the contents of a file) verifies when re-parsed: the framing is detected,
dash-escaping undone, the canonical body hashed, the trailing signature block
dearmoured and parsed, and the signature checked against the signer's public
key. -/
theorem cleartext_sign_then_verify (input : List Char) (skey : ops_secret_key_t)
    (p q g y x k t : Nat)
    (hv : skey.public_key.version = 4) (halg : skey.public_key.algorithm = OPS_PKA_DSA)
    (hpub : skey.public_key.key = .dsa p q g y) (hsec : skey.key = .dsa x)
    (hq : q.Prime) (hq2 : q < 2 ^ 65535) (hg : g ^ q % p = 1 % p) (hy : y = g ^ x % p)
    (hk : ¬ q ∣ k)
    (hr : (ops_dsa_sign (cleartext_digest input skey t) x k ⟨p, q, g, y⟩).r ≠ 0)
    (hs : (ops_dsa_sign (cleartext_digest input skey t) x k ⟨p, q, g, y⟩).s ≠ 0) :
    ∃ out, ops_sign_buf_as_cleartext input skey k t = some out ∧
      ops_sign_file_as_cleartext input skey k t = some out ∧
      ops_validate_cleartext [skey.public_key] out = .ok () := by
  obtain ⟨fp, keyid, -, hid, -, -, hfp, hkeyid, hklen⟩ :=
    keyid_is_fingerprint_tail ops_hash_sha1 skey.public_key hv
      (fun s a b => List.append_assoc s a b) sha1_digest_length
  have hkb : ∀ b ∈ keyid, b < 256 := by
    intro b hb
    rw [hkeyid, hfp] at hb
    exact sha1_digest_lt _ b (List.mem_of_mem_drop hb)
  have hdig : cleartext_digest input skey t
      = ops_signature_digest (cleartext_signature input skey keyid t) := by
    simp [cleartext_digest, hid]
  rw [hdig] at hr hs
  obtain ⟨packet, hwrite, hpb, hvalid⟩ :=
    ops_write_signature_dsa (cleartext_signature input skey keyid t) skey p q g y x k t keyid
      ((canonical_text (canonical_lines input)).map Char.toNat) hpub hsec halg rfl
      (show OPS_SIG_TEXT < 256 by decide)
      (by simp [cleartext_signature, ops_signature_add_issuer_key_id,
        ops_signature_add_creation_time, ops_signature_add_data,
        ops_signature_start_plaintext_signature])
      rfl hid hklen hkb hq hq2 hg hy hk hr hs
  have hsign : ops_sign_buf_as_cleartext input skey k t = some (join_lines
      ([cleartext_begin_line, armour_header_line cleartext_hash_header, []]
        ++ (canonical_lines input).map (fun l => dash_escape l ++ ['\r'])
        ++ armour_lines ⟨.PGP_SIGNATURE, [], packet⟩)) := by
    simp only [ops_sign_buf_as_cleartext, hid, hwrite]
  refine ⟨_, hsign, hsign, ?_⟩
  have hcanon := canonical_lines_spec input
  have hnolf : ∀ l ∈ [cleartext_begin_line, armour_header_line cleartext_hash_header, []]
      ++ (canonical_lines input).map (fun l => dash_escape l ++ ['\r'])
      ++ armour_lines ⟨.PGP_SIGNATURE, [], packet⟩, ∀ c ∈ l, c ≠ '\n' := by
    intro l hl
    simp only [List.mem_append, List.mem_cons, List.mem_map, List.not_mem_nil, or_false] at hl
    rcases hl with ((h | h | h) | ⟨l0, hl0, h⟩) | h
    · subst h; decide
    · subst h; decide
    · subst h; simp
    · subst h
      intro c hc
      simp only [List.mem_append, List.mem_singleton] at hc
      rcases hc with hc | hc
      · unfold dash_escape at hc
        split_ifs at hc
        · simp only [List.mem_cons] at hc
          rcases hc with h | h | h
          · subst h; decide
          · subst h; decide
          · exact (hcanon l0 hl0).1 c h
        · exact (hcanon l0 hl0).1 c hc
      · subst hc; decide
    · exact armour_lines_no_line_feed _ (by simp) l h
  unfold ops_validate_cleartext
  rw [split_join_lines _ hnolf]
  simp only [List.cons_append, List.nil_append, List.append_assoc, ↓reduceIte]
  have hhdr := parse_headers_headers [cleartext_hash_header]
    ((canonical_lines input).map (fun l => dash_escape l ++ ['\r'])
      ++ (armour_lines ⟨.PGP_SIGNATURE, [], packet⟩ ++ [[]]))
    (by decide)
  simp only [List.map_cons, List.map_nil, List.cons_append, List.nil_append] at hhdr
  rw [hhdr]
  simp only []
  rw [read_cleartext_body_block _ _ _ _ (fun l hl => (hcanon l hl).2)]
  simp only []
  rw [dearmour_lines_armour_lines _ _ hpb (by simp)]
  exact hvalid packet.length 0

/-- Witness of C7: the example DSA key signing a two-line text whose second
line begins with a dash and ends with a space. -/
theorem cleartext_sign_then_verify_witness :
    Nat.Prime 101 ∧ 64 ^ 101 % 607 = 1 % 607 ∧ ¬ 101 ∣ 33 ∧
    ∃ out, ops_sign_buf_as_cleartext "abc\r\n-xyz ".toList example_dsa_secret_key 33 1000
        = some out ∧
      ops_sign_file_as_cleartext "abc\r\n-xyz ".toList example_dsa_secret_key 33 1000
        = some out ∧
      ops_validate_cleartext [example_dsa_secret_key.public_key] out = .ok () :=
  ⟨by norm_num, by decide, by decide,
    cleartext_sign_then_verify "abc\r\n-xyz ".toList example_dsa_secret_key
      607 101 64 (64 ^ 57 % 607) 57 33 1000 rfl rfl rfl rfl (by norm_num) (by norm_num)
      (by decide) rfl (by decide) (by decide) (by decide)⟩

theorem write_length_pos (n : Nat) : 1 ≤ (write_length n).length := by
  unfold write_length
  split_ifs <;> simp

theorem write_partial_body_length (f : Nat) :
    ∀ d : List Nat, d.length + 1 ≤ (write_partial_body f d).length := by
  induction f with
  | zero =>
    intro d
    have := write_length_pos d.length
    simp only [write_partial_body, List.length_append]
    omega
  | succ f ih =>
    intro d
    unfold write_partial_body
    split_ifs with h
    · have := ih (d.drop 512)
      simp only [List.length_cons, List.length_append, List.length_take, List.length_drop] at this ⊢
      omega
    · have := write_length_pos d.length
      simp only [List.length_append]
      omega

theorem read_partial_body_write (f : Nat) :
    ∀ (d rest : List Nat), d.length ≤ f →
      ∃ l r2, read_new_length (write_partial_body f d ++ rest) = some (l, r2) ∧
        d.length ≤ r2.length ∧
        ∀ fr, d.length < fr → read_partial_body fr l r2 = some (d, rest) := by
  induction f with
  | zero =>
    intro d rest hd
    have hnil : d = [] := List.length_eq_zero.1 (by omega)
    subst hnil
    refine ⟨⟨0, false⟩, rest, ?_, ?_, ?_⟩
    · simpa [write_partial_body] using read_new_length_write_length 0 rest (by norm_num)
    · simp
    · intro fr hfr
      obtain ⟨fr2, rfl⟩ : ∃ n, fr = n + 1 := ⟨fr - 1, by simp at hfr; omega⟩
      simp [read_partial_body, limited_read]
  | succ f ih =>
    intro d rest hd
    by_cases h : 512 < d.length
    · obtain ⟨l, r2, h1, h3, h2⟩ := ih (d.drop 512) rest
        (by simp only [List.length_drop]; omega)
      have hlen := write_partial_body_length f (d.drop 512)
      simp only [List.length_drop] at hlen h2
      refine ⟨⟨512, true⟩, d.take 512 ++ (write_partial_body f (d.drop 512) ++ rest), ?_, ?_, ?_⟩
      · simp only [write_partial_body, h, ↓reduceIte, List.cons_append, List.append_assoc]
        rfl
      · simp only [List.length_append, List.length_take]
        omega
      · intro fr hfr
        obtain ⟨fr2, rfl⟩ : ∃ n, fr = n + 1 := ⟨fr - 1, by omega⟩
        have hlr : limited_read 512 (d.take 512 ++ (write_partial_body f (d.drop 512) ++ rest))
            = some (d.take 512, write_partial_body f (d.drop 512) ++ rest) := by
          have := limited_read_exact (d.take 512) (write_partial_body f (d.drop 512) ++ rest)
          rwa [List.length_take, min_eq_left (by omega)] at this
        simp only [read_partial_body, hlr, ↓reduceIte, h1, h2 fr2 (by omega),
          List.take_append_drop]
    · have hd32 : d.length < 2 ^ 32 := by
        have : (512 : Nat) < 2 ^ 32 := by norm_num
        omega
      refine ⟨⟨d.length, false⟩, d ++ rest, ?_, ?_, ?_⟩
      · simp only [write_partial_body, h, ↓reduceIte, List.append_assoc]
        exact read_new_length_write_length d.length (d ++ rest) hd32
      · simp
      · intro fr hfr
        obtain ⟨fr2, rfl⟩ : ∃ n, fr = n + 1 := ⟨fr - 1, by omega⟩
        simp [read_partial_body, limited_read_exact]
theorem parse_literal_data_written (format modification_time : Nat) (filename data : List Nat) :
    parse_literal_data
        ([format, filename.length] ++ filename ++ be_bytes modification_time 4 ++ data)
      = (⟨OPS_PTAG_CT_LITERAL_DATA_HEADER, 0,
            .literal_data_header
              ⟨format, filename, read_scalar (be_bytes modification_time 4)⟩⟩
          :: (body_chunks data.length data).map
              (fun chunk => ⟨OPS_PTAG_CT_LITERAL_DATA_BODY, 0,
                .literal_data_body ⟨chunk.length, chunk⟩⟩), true) := by
  have hlr := limited_read_exact filename (be_bytes modification_time 4 ++ data)
  simp only [be_bytes, List.cons_append, List.nil_append, List.append_assoc] at hlr ⊢
  simp only [parse_literal_data, hlr]

/-- One turn of the parser loop on a literal data packet written through the
partial-length layer: the chunks are put together again, and the body parser
delivers the header event and the data in body-chunk events. -/
theorem ops_parse_loop_write_literal_data (fuel pos format modification_time : Nat)
    (filename data rest : List Nat) :
    ∃ ptag pos2, ops_parse_loop (fuel + 1) pos
        (write_literal_data format filename modification_time data ++ rest)
      = ptag_event ptag
        :: ((⟨OPS_PTAG_CT_LITERAL_DATA_HEADER, 0,
              .literal_data_header
                ⟨format, filename, read_scalar (be_bytes modification_time 4)⟩⟩
            :: (body_chunks data.length data).map
                (fun chunk => ⟨OPS_PTAG_CT_LITERAL_DATA_BODY, 0,
                  .literal_data_body ⟨chunk.length, chunk⟩⟩))
          ++ packet_end_event
              ([format, filename.length] ++ filename ++ be_bytes modification_time 4 ++ data)
            :: ops_parse_loop fuel pos2 rest) := by
  obtain ⟨h7, h6, hct⟩ := new_format_tag_octet OPS_PTAG_CT_LITERAL_DATA (by decide)
  set body := [format, filename.length] ++ filename ++ be_bytes modification_time 4 ++ data
    with hbodydef
  obtain ⟨l, r2, h1, h3, h2⟩ := read_partial_body_write body.length body rest (le_refl _)
  have hhdr : read_packet_header pos
      (OPS_PTAG_ALWAYS_SET + OPS_PTAG_NEW_FORMAT + OPS_PTAG_CT_LITERAL_DATA)
      (write_partial_body body.length body ++ rest)
      = some (⟨⟨1, OPS_PTAG_CT_LITERAL_DATA, .OPS_PTAG_OF_LT_ONE_BYTE, l.length, pos⟩,
          l.is_partial, false⟩, r2) := by
    simp only [read_packet_header, h6, ↓reduceIte, h1, hct]
  have hbody : read_packet_body
      ⟨⟨1, OPS_PTAG_CT_LITERAL_DATA, .OPS_PTAG_OF_LT_ONE_BYTE, l.length, pos⟩,
        l.is_partial, false⟩ r2 = some (body, rest) := by
    have hfull := h2 (r2.length + 1) (by omega)
    cases hp : l.is_partial
    · obtain ⟨n, b⟩ := l
      simp only at hp
      subst hp
      simp only [read_partial_body] at hfull
      cases hlr : limited_read n r2 with
      | none => rw [hlr] at hfull; simp at hfull
      | some v =>
        rw [hlr] at hfull
        obtain ⟨c, r⟩ := v
        simp only [Option.some.injEq, Prod.mk.injEq] at hfull
        obtain ⟨rfl, rfl⟩ := hfull
        simpa [read_packet_body] using hlr
    · obtain ⟨n, b⟩ := l
      simp only at hp
      subst hp
      simpa [read_packet_body, is_data_packet, OPS_PTAG_CT_LITERAL_DATA, OPS_PTAG_CT_COMPRESSED,
        OPS_PTAG_CT_SK_DATA, OPS_PTAG_CT_SK_IP_DATA] using hfull
  have hparse : parse_packet_body
      ⟨1, OPS_PTAG_CT_LITERAL_DATA, .OPS_PTAG_OF_LT_ONE_BYTE, l.length, pos⟩ body
      = parse_literal_data body := by
    simp [parse_packet_body, OPS_PTAG_CT_LITERAL_DATA, OPS_PTAG_CT_SIGNATURE,
      OPS_PTAG_CT_ONE_PASS_SIGNATURE]
  refine ⟨⟨1, OPS_PTAG_CT_LITERAL_DATA, .OPS_PTAG_OF_LT_ONE_BYTE, l.length, pos⟩,
    pos + ((write_literal_data format filename modification_time data ++ rest).length
      - rest.length), ?_⟩
  have hshape : write_literal_data format filename modification_time data ++ rest
      = (OPS_PTAG_ALWAYS_SET + OPS_PTAG_NEW_FORMAT + OPS_PTAG_CT_LITERAL_DATA)
          :: (write_partial_body body.length body ++ rest) := by
    simp [write_literal_data, hbodydef]
  rw [hshape]
  simp only [ops_parse_loop, ops_parse_one_packet, h7, hhdr, hbody, hparse]
  rw [hbodydef, parse_literal_data_written]
  simp
theorem parse_one_pass_signature_written (ty ha ka : Nat) (keyid : List Nat)
    (hk : keyid.length = 8) :
    parse_one_pass_signature ([3, ty, ha, ka] ++ keyid ++ [1])
      = ([⟨OPS_PTAG_CT_ONE_PASS_SIGNATURE, 0,
            .one_pass_signature ⟨3, ty, ha, ka, keyid, 1⟩⟩], true) := by
  match keyid, hk with
  | [k0, k1, k2, k3, k4, k5, k6, k7], _ => rfl

theorem validate_one_pass_packet (keyring : List ops_public_key_t) (hash : Option (List Nat))
    (res : Option (Except ops_errcode_t Unit)) (ptag : ops_ptag_t)
    (ops : ops_one_pass_signature_t) (body : List Nat) (tail : List ops_parser_content_t) :
    List.foldl (validate_cb keyring) ⟨hash, none, none, res⟩
        (ptag_event ptag
          :: ([⟨OPS_PTAG_CT_ONE_PASS_SIGNATURE, 0, .one_pass_signature ops⟩]
            ++ packet_end_event body :: tail))
      = List.foldl (validate_cb keyring) ⟨some [], none, none, res⟩ tail := by
  simp [validate_cb, ptag_event, packet_end_event, OPS_PARSER_PACKET_END]

theorem validate_body_chunks (keyring : List ops_public_key_t)
    (res : Option (Except ops_errcode_t Unit)) (tail : List ops_parser_content_t) (f : Nat) :
    ∀ d seen : List Nat, d.length ≤ f →
      List.foldl (validate_cb keyring) ⟨some seen, none, none, res⟩
          ((body_chunks f d).map
              (fun chunk => ⟨OPS_PTAG_CT_LITERAL_DATA_BODY, 0,
                .literal_data_body ⟨chunk.length, chunk⟩⟩)
            ++ tail)
        = List.foldl (validate_cb keyring) ⟨some (seen ++ d), none, none, res⟩ tail := by
  induction f with
  | zero =>
    intro d seen hd
    have hnil : d = [] := List.length_eq_zero.1 (by omega)
    subst hnil
    simp [body_chunks]
  | succ f ih =>
    intro d seen hd
    cases d with
    | nil => simp [body_chunks]
    | cons b bs =>
      have hdrop : ((b :: bs).drop 8192).length ≤ f := by
        simp only [List.length_drop, List.length_cons] at hd ⊢
        omega
      have := ih ((b :: bs).drop 8192) (seen ++ (b :: bs).take 8192) hdrop
      rw [List.append_assoc, List.take_append_drop] at this
      rw [← this]
      simp only [body_chunks, List.map_cons, List.cons_append, List.foldl_cons, validate_cb]

theorem validate_literal_packet (keyring : List ops_public_key_t) (seen : List Nat)
    (res : Option (Except ops_errcode_t Unit)) (ptag : ops_ptag_t)
    (hdr : ops_literal_data_header_t) (data body : List Nat)
    (tail : List ops_parser_content_t) :
    List.foldl (validate_cb keyring) ⟨some seen, none, none, res⟩
        (ptag_event ptag
          :: ((⟨OPS_PTAG_CT_LITERAL_DATA_HEADER, 0, .literal_data_header hdr⟩
              :: (body_chunks data.length data).map
                  (fun chunk => ⟨OPS_PTAG_CT_LITERAL_DATA_BODY, 0,
                    .literal_data_body ⟨chunk.length, chunk⟩⟩))
            ++ packet_end_event body :: tail))
      = List.foldl (validate_cb keyring) ⟨some (seen ++ data), none, none, res⟩ tail := by
  simp only [List.cons_append, List.foldl_cons]
  have h1 : validate_cb keyring ⟨some seen, none, none, res⟩ (ptag_event ptag)
      = ⟨some seen, none, none, res⟩ := by
    simp [validate_cb, ptag_event]
  have h2 : validate_cb keyring ⟨some seen, none, none, res⟩
      ⟨OPS_PTAG_CT_LITERAL_DATA_HEADER, 0, .literal_data_header hdr⟩
      = ⟨some seen, none, none, res⟩ := by
    simp [validate_cb]
  rw [h1, h2, validate_body_chunks keyring res _ data.length data seen (le_refl _)]
  simp [validate_cb, packet_end_event, OPS_PARSER_PACKET_END]
theorem char_toNat_ofNat_octet (n : Nat) (h : n < 256) : (Char.ofNat n).toNat = n := by
  revert n
  decide

theorem split_lines_mem (text : List Char) :
    ∀ l ∈ split_lines text, ∀ c ∈ l, c ∈ text := by
  induction text with
  | nil => simp [split_lines]
  | cons a t ih =>
    intro l hl c hc
    unfold split_lines at hl
    split_ifs at hl with ha
    · rcases List.mem_cons.1 hl with h | h
      · subst h; simp at hc
      · exact List.mem_cons_of_mem _ (ih l h c hc)
    · cases hs : split_lines t with
      | nil =>
        rw [hs] at hl
        simp at hl
        subst hl
        simp at hc
        subst hc
        simp
      | cons l0 ls =>
        rw [hs] at hl ih
        simp only [List.mem_cons] at hl
        rcases hl with h | h
        · subst h
          rcases List.mem_cons.1 hc with h2 | h2
          · subst h2; simp
          · exact List.mem_cons_of_mem _ (ih l0 (by simp) c h2)
        · exact List.mem_cons_of_mem _ (ih l (by simp [h]) c hc)

theorem canonical_text_mem (ls : List (List Char)) :
    ∀ c ∈ canonical_text ls, c = '\r' ∨ c = '\n' ∨ ∃ l ∈ ls, c ∈ l := by
  induction ls with
  | nil => simp [canonical_text]
  | cons l t ih =>
    intro c hc
    cases t with
    | nil =>
      simp only [canonical_text] at hc
      exact Or.inr (Or.inr ⟨l, by simp, hc⟩)
    | cons l2 t2 =>
      simp only [canonical_text, List.mem_append, List.mem_cons] at hc
      rcases hc with h | h | h | h
      · exact Or.inr (Or.inr ⟨l, by simp, h⟩)
      · exact Or.inl h
      · exact Or.inr (Or.inl h)
      · rcases ih c h with h2 | h2 | ⟨l3, hl3, h3⟩
        · exact Or.inl h2
        · exact Or.inr (Or.inl h2)
        · exact Or.inr (Or.inr ⟨l3, List.mem_cons_of_mem _ hl3, h3⟩)

theorem signed_document_lt (input : List Nat) (sig_type : Nat) (hin : ∀ b ∈ input, b < 256) :
    ∀ b ∈ signed_document input sig_type, b < 256 := by
  intro b hb
  unfold signed_document at hb
  split_ifs at hb
  · simp only [canonical_document, List.mem_map] at hb
    obtain ⟨c, hc, rfl⟩ := hb
    rcases canonical_text_mem _ c hc with h | h | ⟨l, hl, h⟩
    · subst h; decide
    · subst h; decide
    · obtain ⟨l0, hl0, rfl⟩ := List.mem_map.1 hl
      have hpre : strip_trailing_whitespace l0 <+: l0 := List.rdropWhile_prefix _ _
      have hmem := split_lines_mem _ l0 hl0 c (hpre.subset h)
      obtain ⟨n, hn, rfl⟩ := List.mem_map.1 hmem
      rw [char_toNat_ofNat_octet n (hin n hn)]
      exact hin n hn
  · exact hin b hb

theorem write_partial_body_lt (f : Nat) :
    ∀ d : List Nat, (∀ b ∈ d, b < 256) → ∀ b ∈ write_partial_body f d, b < 256 := by
  induction f with
  | zero =>
    intro d hd b hb
    simp only [write_partial_body, List.mem_append] at hb
    rcases hb with h | h
    · exact write_length_lt _ b h
    · exact hd b h
  | succ f ih =>
    intro d hd b hb
    unfold write_partial_body at hb
    split_ifs at hb with h
    · simp only [List.mem_cons, List.mem_append] at hb
      rcases hb with h1 | h1 | h1
      · omega
      · exact hd b (List.mem_of_mem_take h1)
      · exact ih (d.drop 512) (fun x hx => hd x (List.mem_of_mem_drop hx)) b h1
    · simp only [List.mem_append] at hb
      rcases hb with h1 | h1
      · exact write_length_lt _ b h1
      · exact hd b h1

theorem signed_message_lt (input : List Nat) (sig_type : Nat) (skey : ops_secret_key_t)
    (keyid packet : List Nat) (hin : ∀ b ∈ input, b < 256) (hty : sig_type < 256)
    (halg : skey.public_key.algorithm = OPS_PKA_DSA) (hkb : ∀ b ∈ keyid, b < 256)
    (hpb : ∀ b ∈ packet, b < 256) :
    ∀ b ∈ signed_message input sig_type skey keyid packet, b < 256 := by
  intro b hb
  simp only [signed_message, List.mem_append] at hb
  rcases hb with (h | h) | h
  · simp only [write_one_pass_signature, write_packet, halg, List.mem_cons, List.mem_append,
      List.not_mem_nil, or_false] at h
    rcases h with h | h | ((h | h | h | h) | h) | h
    · subst h; decide
    · exact write_length_lt _ b h
    · subst h; decide
    · omega
    · subst h; decide
    · subst h; decide
    · exact hkb b h
    · subst h; decide
  · simp only [write_literal_data, List.mem_cons] at h
    rcases h with h | h
    · subst h; decide
    · refine write_partial_body_lt _ _ ?_ b h
      intro x hx
      simp only [List.mem_append, List.mem_cons, List.not_mem_nil, or_false] at hx
      rcases hx with ((h1 | h1) | h1) | h1
      · subst h1
        split_ifs <;> decide
      · subst h1; decide
      · exact be_bytes_lt _ _ x h1
      · exact signed_document_lt input sig_type hin x h1
  · exact hpb b h
/-- The events of an inline-signed message validate when the signature packet
does for the document the hash has seen. -/
theorem signed_message_validates (input : List Nat) (sig_type : Nat) (skey : ops_secret_key_t)
    (keyid packet : List Nat) (hklen : keyid.length = 8)
    (hvalid : ∀ fuel pos, ops_validate_signature [skey.public_key]
      (signed_document input sig_type) (ops_parse_loop (fuel + 1) pos packet) = .ok ()) :
    ops_validate_events [skey.public_key] none
        (ops_parse (signed_message input sig_type skey keyid packet)) = .ok () := by
  have hlen : (signed_message input sig_type skey keyid packet).length + 1
      = ((signed_message input sig_type skey keyid packet).length - 2) + 1 + 1 + 1 := by
    have h1 := write_length_pos ([3, sig_type, OPS_HASH_SHA1, skey.public_key.algorithm]
      ++ keyid ++ [1]).length
    simp only [signed_message, write_one_pass_signature, write_packet, write_literal_data,
      List.length_append, List.length_cons] at h1 ⊢
    omega
  unfold ops_parse
  rw [hlen]
  generalize (signed_message input sig_type skey keyid packet).length - 2 = fuel
  have hbody1 : ([3, sig_type, OPS_HASH_SHA1, skey.public_key.algorithm] ++ keyid ++ [1]).length
      < 2 ^ 32 := by
    simp [hklen]
  unfold signed_message write_one_pass_signature
  rw [List.append_assoc, ops_parse_loop_write_packet _ _ _ _ _ (by decide) hbody1]
  have hp1 : ∀ ptag : ops_ptag_t, ptag.content_tag = OPS_PTAG_CT_ONE_PASS_SIGNATURE →
      ∀ body, parse_packet_body ptag body = parse_one_pass_signature body := by
    intro ptag hct body
    simp [parse_packet_body, hct, OPS_PTAG_CT_ONE_PASS_SIGNATURE, OPS_PTAG_CT_SIGNATURE]
  rw [hp1 _ rfl, parse_one_pass_signature_written _ _ _ _ hklen]
  simp only [↓reduceIte]
  obtain ⟨ptag, pos2, hlit⟩ := ops_parse_loop_write_literal_data fuel.succ
    (0 + ((write_packet OPS_PTAG_CT_ONE_PASS_SIGNATURE
        ([3, sig_type, OPS_HASH_SHA1, skey.public_key.algorithm] ++ keyid ++ [1])
      ++ (write_literal_data (if sig_type = OPS_SIG_TEXT then OPS_LDT_TEXT else OPS_LDT_BINARY)
          [] 0 (signed_document input sig_type) ++ packet)).length
      - (write_literal_data (if sig_type = OPS_SIG_TEXT then OPS_LDT_TEXT else OPS_LDT_BINARY)
          [] 0 (signed_document input sig_type) ++ packet).length))
    (if sig_type = OPS_SIG_TEXT then OPS_LDT_TEXT else OPS_LDT_BINARY) 0 []
    (signed_document input sig_type) packet
  rw [hlit]
  unfold ops_validate_events
  rw [validate_one_pass_packet, validate_literal_packet]
  exact hvalid fuel pos2
/-- C5: for every input (file or memory buffer, the empty one included), every
DSA secret key and either armour option, the signed message produced by
ops_sign_buf (of any signature type) and by ops_sign_file (the binary signature
of the contents of a file) validates as a good signature against the public key
of the signer: the message is dearmoured if armoured, parsed, the one-pass
signature installs the hash, the literal data is put together from its partial
chunks and hashed, and the signature packet checks.  The secret key is the one
in memory, after any passphrase has been applied. -/
theorem sign_then_validate (input : List Nat) (sig_type : Nat) (skey : ops_secret_key_t)
    (use_armour : Bool) (p q g y x k t : Nat)
    (hin : ∀ b ∈ input, b < 256) (hty : sig_type < 256)
    (hv : skey.public_key.version = 4) (halg : skey.public_key.algorithm = OPS_PKA_DSA)
    (hpub : skey.public_key.key = .dsa p q g y) (hsec : skey.key = .dsa x)
    (hq : q.Prime) (hq2 : q < 2 ^ 65535) (hg : g ^ q % p = 1 % p) (hy : y = g ^ x % p)
    (hk : ¬ q ∣ k)
    (hr : (ops_dsa_sign (inline_digest input sig_type skey t) x k ⟨p, q, g, y⟩).r ≠ 0)
    (hs : (ops_dsa_sign (inline_digest input sig_type skey t) x k ⟨p, q, g, y⟩).s ≠ 0) :
    ∃ out, ops_sign_buf input sig_type skey use_armour k t = some out ∧
      (sig_type = OPS_SIG_BINARY → ops_sign_file input skey use_armour k t = some out) ∧
      check_sig_with_ops_core [skey.public_key] out use_armour = .ok () := by
  obtain ⟨fp, keyid, -, hid, -, -, hfp, hkeyid, hklen⟩ :=
    keyid_is_fingerprint_tail ops_hash_sha1 skey.public_key hv
      (fun s a b => List.append_assoc s a b) sha1_digest_length
  have hkb : ∀ b ∈ keyid, b < 256 := by
    intro b hb
    rw [hkeyid, hfp] at hb
    exact sha1_digest_lt _ b (List.mem_of_mem_drop hb)
  have hdig : inline_digest input sig_type skey t
      = ops_signature_digest (inline_signature input sig_type skey keyid t) := by
    simp [inline_digest, hid]
  rw [hdig] at hr hs
  obtain ⟨packet, hwrite, hpb, hvalid⟩ :=
    ops_write_signature_dsa (inline_signature input sig_type skey keyid t) skey p q g y x k t
      keyid (signed_document input sig_type) hpub hsec halg rfl hty
      (by simp [inline_signature, ops_signature_add_issuer_key_id,
        ops_signature_add_creation_time, ops_signature_add_data,
        ops_signature_start_plaintext_signature])
      rfl hid hklen hkb hq hq2 hg hy hk hr hs
  have hmsg := signed_message_validates input sig_type skey keyid packet hklen hvalid
  have hlt := signed_message_lt input sig_type skey keyid packet hin hty halg hkb hpb
  cases use_armour with
  | false =>
    have hsign : ops_sign_buf input sig_type skey false k t
        = some (signed_message input sig_type skey keyid packet) := by
      simp [ops_sign_buf, hid, hwrite]
    refine ⟨_, hsign, ?_, ?_⟩
    · intro hbin
      subst hbin
      exact hsign
    · simpa [check_sig_with_ops_core] using hmsg
  | true =>
    have hsign : ops_sign_buf input sig_type skey true k t
        = some ((armour ⟨.PGP_MESSAGE, [],
            signed_message input sig_type skey keyid packet⟩).map Char.toNat) := by
      simp [ops_sign_buf, hid, hwrite]
    refine ⟨_, hsign, ?_, ?_⟩
    · intro hbin
      subst hbin
      exact hsign
    · have hchars : ((armour ⟨.PGP_MESSAGE, [],
          signed_message input sig_type skey keyid packet⟩).map Char.toNat).map Char.ofNat
          = armour ⟨.PGP_MESSAGE, [], signed_message input sig_type skey keyid packet⟩ := by
        rw [List.map_map]
        have hid2 : (Char.ofNat ∘ Char.toNat) = id := funext fun c => Char.ofNat_toNat c
        rw [hid2, List.map_id]
      simp only [check_sig_with_ops_core, ↓reduceIte, hchars]
      rw [dearmour_armour _ hlt (by simp) (by simp)]
      exact hmsg

/-- Witness of C5: the example DSA key signing a two-line text, as an armoured
text signature from memory and as a binary signature of a file without
armour. -/
theorem sign_then_validate_witness :
    Nat.Prime 101 ∧ 64 ^ 101 % 607 = 1 % 607 ∧ ¬ 101 ∣ 33 ∧
    (∃ out, ops_sign_buf [97, 98, 32, 10, 99] OPS_SIG_TEXT example_dsa_secret_key true 33 1000
        = some out ∧
      (OPS_SIG_TEXT = OPS_SIG_BINARY →
        ops_sign_file [97, 98, 32, 10, 99] example_dsa_secret_key true 33 1000 = some out) ∧
      check_sig_with_ops_core [example_dsa_secret_key.public_key] out true = .ok ()) ∧
    (∃ out, ops_sign_buf [97, 98, 32, 10, 99] OPS_SIG_BINARY example_dsa_secret_key false 33 1000
        = some out ∧
      (OPS_SIG_BINARY = OPS_SIG_BINARY →
        ops_sign_file [97, 98, 32, 10, 99] example_dsa_secret_key false 33 1000 = some out) ∧
      check_sig_with_ops_core [example_dsa_secret_key.public_key] out false = .ok ()) :=
  ⟨by norm_num, by decide, by decide,
    sign_then_validate [97, 98, 32, 10, 99] OPS_SIG_TEXT example_dsa_secret_key true
      607 101 64 (64 ^ 57 % 607) 57 33 1000 (by decide) (by decide) rfl rfl rfl rfl
      (by norm_num) (by norm_num) (by decide) rfl (by decide) (by decide) (by decide),
    sign_then_validate [97, 98, 32, 10, 99] OPS_SIG_BINARY example_dsa_secret_key false
      607 101 64 (64 ^ 57 % 607) 57 33 1000 (by decide) (by decide) rfl rfl rfl rfl
      (by norm_num) (by norm_num) (by decide) rfl (by decide) (by decide) (by decide)⟩

/-- C12: every packet kind of the data model has in ops_content_tag_t the
content-tag number RFC 4880 assigns it: public-key encrypted session key 1,
signature 2, symmetric-key encrypted session key 3, one-pass signature 4,
secret key 5, public key 6, secret subkey 7, compressed data 8, symmetrically
encrypted data 9, marker 10, literal data 11, trust 12, user ID 13, public
subkey 14, user attribute 17, symmetrically encrypted integrity-protected data
18, MDC 19; the only other enumerators below the tags for internal use are the
reserved 0, 15 and 16. -/
theorem content_tag_numbers :
    ops_content_tag_t.OPS_PTAG_CT_PK_SESSION_KEY.val = 1 ∧
    ops_content_tag_t.OPS_PTAG_CT_SIGNATURE.val = 2 ∧
    ops_content_tag_t.OPS_PTAG_CT_SK_SESSION_KEY.val = 3 ∧
    ops_content_tag_t.OPS_PTAG_CT_ONE_PASS_SIGNATURE.val = 4 ∧
    ops_content_tag_t.OPS_PTAG_CT_SECRET_KEY.val = 5 ∧
    ops_content_tag_t.OPS_PTAG_CT_PUBLIC_KEY.val = 6 ∧
    ops_content_tag_t.OPS_PTAG_CT_SECRET_SUBKEY.val = 7 ∧
    ops_content_tag_t.OPS_PTAG_CT_COMPRESSED.val = 8 ∧
    ops_content_tag_t.OPS_PTAG_CT_SK_DATA.val = 9 ∧
    ops_content_tag_t.OPS_PTAG_CT_MARKER.val = 10 ∧
    ops_content_tag_t.OPS_PTAG_CT_LITERAL_DATA.val = 11 ∧
    ops_content_tag_t.OPS_PTAG_CT_TRUST.val = 12 ∧
    ops_content_tag_t.OPS_PTAG_CT_USER_ID.val = 13 ∧
    ops_content_tag_t.OPS_PTAG_CT_PUBLIC_SUBKEY.val = 14 ∧
    ops_content_tag_t.OPS_PTAG_CT_USER_ATTRIBUTE.val = 17 ∧
    ops_content_tag_t.OPS_PTAG_CT_SK_IP_DATA.val = 18 ∧
    ops_content_tag_t.OPS_PTAG_CT_MDC.val = 19 ∧
    (∀ e : ops_content_tag_t, e.val < ops_content_tag_t.OPS_PARSER_ERROR.val →
      e.val ∈ [1, 2, 3, 4, 5, 6, 7, 8, 9, 10, 11, 12, 13, 14, 17, 18, 19] ∨
      e = .OPS_PTAG_CT_RESERVED ∨ e = .OPS_PTAG_CT_RESERVED2 ∨ e = .OPS_PTAG_CT_RESERVED3) := by
  decide

/-- The content tags that the parser model uses as numbers are the values of
the enumerators of the same name. -/
theorem content_tag_constants :
    OPS_PTAG_CT_SIGNATURE = ops_content_tag_t.OPS_PTAG_CT_SIGNATURE.val ∧
    OPS_PTAG_CT_ONE_PASS_SIGNATURE = ops_content_tag_t.OPS_PTAG_CT_ONE_PASS_SIGNATURE.val ∧
    OPS_PTAG_CT_COMPRESSED = ops_content_tag_t.OPS_PTAG_CT_COMPRESSED.val ∧
    OPS_PTAG_CT_SK_DATA = ops_content_tag_t.OPS_PTAG_CT_SK_DATA.val ∧
    OPS_PTAG_CT_LITERAL_DATA = ops_content_tag_t.OPS_PTAG_CT_LITERAL_DATA.val ∧
    OPS_PTAG_CT_SK_IP_DATA = ops_content_tag_t.OPS_PTAG_CT_SK_IP_DATA.val ∧
    OPS_PARSER_ERROR = ops_content_tag_t.OPS_PARSER_ERROR.val ∧
    OPS_PARSER_PTAG = ops_content_tag_t.OPS_PARSER_PTAG.val ∧
    OPS_PTAG_RAW_SS = ops_content_tag_t.OPS_PTAG_RAW_SS.val ∧
    OPS_PARSER_PACKET_END = ops_content_tag_t.OPS_PARSER_PACKET_END.val ∧
    OPS_PARSER_ERRCODE = ops_content_tag_t.OPS_PARSER_ERRCODE.val ∧
    OPS_PTAG_SIGNATURE_SUBPACKET_BASE
      = ops_content_tag_t.OPS_PTAG_SIGNATURE_SUBPACKET_BASE.val ∧
    OPS_PTAG_CT_LITERAL_DATA_HEADER = ops_content_tag_t.OPS_PTAG_CT_LITERAL_DATA_HEADER.val ∧
    OPS_PTAG_CT_LITERAL_DATA_BODY = ops_content_tag_t.OPS_PTAG_CT_LITERAL_DATA_BODY.val ∧
    OPS_PTAG_CT_SIGNATURE_HEADER = ops_content_tag_t.OPS_PTAG_CT_SIGNATURE_HEADER.val ∧
    OPS_PTAG_CT_SIGNATURE_FOOTER = ops_content_tag_t.OPS_PTAG_CT_SIGNATURE_FOOTER.val ∧
    OPS_PTAG_SS_CREATION_TIME = ops_content_tag_t.OPS_PTAG_SS_CREATION_TIME.val ∧
    OPS_PTAG_SS_ISSUER_KEY_ID = ops_content_tag_t.OPS_PTAG_SS_ISSUER_KEY_ID.val ∧
    OPS_PTAG_CT_SIGNED_CLEARTEXT_HEADER
      = ops_content_tag_t.OPS_PTAG_CT_SIGNED_CLEARTEXT_HEADER.val ∧
    OPS_PTAG_CT_SIGNED_CLEARTEXT_BODY
      = ops_content_tag_t.OPS_PTAG_CT_SIGNED_CLEARTEXT_BODY.val ∧
    OPS_PTAG_CT_SIGNED_CLEARTEXT_TRAILER
      = ops_content_tag_t.OPS_PTAG_CT_SIGNED_CLEARTEXT_TRAILER.val := by
  decide

/-- C13: every signature-subpacket event tag in ops_content_tag_t equals
OPS_PTAG_SIGNATURE_SUBPACKET_BASE (0x200) plus the RFC 4880 subpacket type
number (creation time 2, expiration time 3, trust 5, regexp 6, revocable 7, key
expiration 9, preferred symmetric algorithms 11, revocation key 12, issuer key
ID 16, notation data 20, preferred hash 21, preferred compression 22, key
server preferences 23, preferred key server 24, primary user ID 25, policy URL
26, key flags 27, signer user ID 28, revocation reason 29, features 30), and the
user-defined tags OPS_PTAG_SS_USERDEFINED00..10 are exactly 0x200+100 ..
0x200+110, one per k in 0..10.  The only further enumerator above the base and
below the pseudo content types is the reserved type 10. -/
theorem subpacket_tag_numbers :
    ops_content_tag_t.OPS_PTAG_SIGNATURE_SUBPACKET_BASE.val = 0x200 ∧
    ([ops_content_tag_t.OPS_PTAG_SS_CREATION_TIME, .OPS_PTAG_SS_EXPIRATION_TIME,
        .OPS_PTAG_SS_TRUST, .OPS_PTAG_SS_REGEXP, .OPS_PTAG_SS_REVOCABLE,
        .OPS_PTAG_SS_KEY_EXPIRATION_TIME, .OPS_PTAG_SS_PREFERRED_SKA,
        .OPS_PTAG_SS_REVOCATION_KEY, .OPS_PTAG_SS_ISSUER_KEY_ID,
        .OPS_PTAG_SS_NOTATION_DATA, .OPS_PTAG_SS_PREFERRED_HASH,
        .OPS_PTAG_SS_PREFERRED_COMPRESSION, .OPS_PTAG_SS_KEY_SERVER_PREFS,
        .OPS_PTAG_SS_PREFERRED_KEY_SERVER, .OPS_PTAG_SS_PRIMARY_USER_ID,
        .OPS_PTAG_SS_POLICY_URL, .OPS_PTAG_SS_KEY_FLAGS, .OPS_PTAG_SS_SIGNERS_USER_ID,
        .OPS_PTAG_SS_REVOCATION_REASON, .OPS_PTAG_SS_FEATURES].map ops_content_tag_t.val
      = [2, 3, 5, 6, 7, 9, 11, 12, 16, 20, 21, 22, 23, 24, 25, 26, 27, 28, 29, 30].map
          (fun t => ops_content_tag_t.OPS_PTAG_SIGNATURE_SUBPACKET_BASE.val + t)) ∧
    ([ops_content_tag_t.OPS_PTAG_SS_USERDEFINED00, .OPS_PTAG_SS_USERDEFINED01,
        .OPS_PTAG_SS_USERDEFINED02, .OPS_PTAG_SS_USERDEFINED03, .OPS_PTAG_SS_USERDEFINED04,
        .OPS_PTAG_SS_USERDEFINED05, .OPS_PTAG_SS_USERDEFINED06, .OPS_PTAG_SS_USERDEFINED07,
        .OPS_PTAG_SS_USERDEFINED08, .OPS_PTAG_SS_USERDEFINED09,
        .OPS_PTAG_SS_USERDEFINED10].map ops_content_tag_t.val
      = (List.range 11).map
          (fun k => ops_content_tag_t.OPS_PTAG_SIGNATURE_SUBPACKET_BASE.val + 100 + k)) ∧
    (∀ e : ops_content_tag_t,
      ops_content_tag_t.OPS_PTAG_SIGNATURE_SUBPACKET_BASE.val < e.val →
      e.val < ops_content_tag_t.OPS_PTAG_CT_LITERAL_DATA_HEADER.val →
      e.val - ops_content_tag_t.OPS_PTAG_SIGNATURE_SUBPACKET_BASE.val
          ∈ [2, 3, 5, 6, 7, 9, 11, 12, 16, 20, 21, 22, 23, 24, 25, 26, 27, 28, 29, 30]
        ∨ (100 ≤ e.val - ops_content_tag_t.OPS_PTAG_SIGNATURE_SUBPACKET_BASE.val ∧
            e.val - ops_content_tag_t.OPS_PTAG_SIGNATURE_SUBPACKET_BASE.val ≤ 110)
        ∨ e = .OPS_PTAG_SS_RESERVED) ∧
    (∀ e : ops_content_tag_t,
      ops_content_tag_t.OPS_PTAG_SIGNATURE_SUBPACKET_BASE.val < e.val →
      e.val < ops_content_tag_t.OPS_PTAG_CT_LITERAL_DATA_HEADER.val →
      ss_known (e.val - OPS_PTAG_SIGNATURE_SUBPACKET_BASE) = true) := by
  decide

/-- C14: every algorithm the primitives facade names has in packet.h the
identifier RFC 4880 section 9 assigns it: hashes MD5 1, SHA-1 2, RIPEMD-160 3,
SHA-256 8, SHA-384 9, SHA-512 10; symmetric ciphers IDEA 1, 3DES 2, CAST5 3,
Blowfish 4, AES-128 7, AES-192 8, AES-256 9, Twofish 10; public-key algorithms
RSA 1, ElGamal 16, DSA 17. -/
theorem algorithm_numbers :
    (ops_hash_algorithm_t.OPS_HASH_MD5.val = 1 ∧
      ops_hash_algorithm_t.OPS_HASH_SHA1.val = 2 ∧
      ops_hash_algorithm_t.OPS_HASH_RIPEMD.val = 3 ∧
      ops_hash_algorithm_t.OPS_HASH_SHA256.val = 8 ∧
      ops_hash_algorithm_t.OPS_HASH_SHA384.val = 9 ∧
      ops_hash_algorithm_t.OPS_HASH_SHA512.val = 10) ∧
    (ops_symmetric_key_algorithm_t.OPS_SKA_IDEA.val = 1 ∧
      ops_symmetric_key_algorithm_t.OPS_SKA_TRIPLEDES.val = 2 ∧
      ops_symmetric_key_algorithm_t.OPS_SKA_CAST5.val = 3 ∧
      ops_symmetric_key_algorithm_t.OPS_SKA_BLOWFISH.val = 4 ∧
      ops_symmetric_key_algorithm_t.OPS_SKA_AES_128.val = 7 ∧
      ops_symmetric_key_algorithm_t.OPS_SKA_AES_192.val = 8 ∧
      ops_symmetric_key_algorithm_t.OPS_SKA_AES_256.val = 9 ∧
      ops_symmetric_key_algorithm_t.OPS_SKA_TWOFISH.val = 10) ∧
    (ops_public_key_algorithm_t.OPS_PKA_RSA.val = 1 ∧
      ops_public_key_algorithm_t.OPS_PKA_ELGAMAL.val = 16 ∧
      ops_public_key_algorithm_t.OPS_PKA_DSA.val = 17) ∧
    ((OPS_HASH_SHA1 : Int) = ops_hash_algorithm_t.OPS_HASH_SHA1.val ∧
      OPS_PKA_DSA = ops_public_key_algorithm_t.OPS_PKA_DSA.val) := by
  decide
/-- C16: the packet-tag bit fields partition the octet, so decoding loses
nothing: the masks 0x80, 0x40, 0x3c and 0x03 (old format) are pairwise disjoint
and OR to 0xff, as are 0x80, 0x40 and 0x3f (new format); for every content tag
c in 0..15 and length type lt in 0..3 the octet 0x80 | (c << 2) | lt decodes
back to old-format (c, lt); for every c in 0..63 the octet 0xC0 | c decodes back
to new-format c; and every octet with bit 7 set is rebuilt exactly from its
decoded fields. -/
theorem ptag_fields_partition (c lt c6 b : Nat) (hc : c < 16) (hlt : lt < 4) (hc6 : c6 < 64)
    (hb : b < 256) (h7 : ptag_always_set b = true) :
    (OPS_PTAG_ALWAYS_SET &&& OPS_PTAG_NEW_FORMAT = 0 ∧
      OPS_PTAG_ALWAYS_SET &&& OPS_PTAG_OF_CONTENT_TAG_MASK = 0 ∧
      OPS_PTAG_ALWAYS_SET &&& OPS_PTAG_OF_LENGTH_TYPE_MASK = 0 ∧
      OPS_PTAG_NEW_FORMAT &&& OPS_PTAG_OF_CONTENT_TAG_MASK = 0 ∧
      OPS_PTAG_NEW_FORMAT &&& OPS_PTAG_OF_LENGTH_TYPE_MASK = 0 ∧
      OPS_PTAG_OF_CONTENT_TAG_MASK &&& OPS_PTAG_OF_LENGTH_TYPE_MASK = 0 ∧
      OPS_PTAG_ALWAYS_SET ||| OPS_PTAG_NEW_FORMAT ||| OPS_PTAG_OF_CONTENT_TAG_MASK
        ||| OPS_PTAG_OF_LENGTH_TYPE_MASK = 0xff) ∧
    (OPS_PTAG_ALWAYS_SET &&& OPS_PTAG_NF_CONTENT_TAG_MASK = 0 ∧
      OPS_PTAG_NEW_FORMAT &&& OPS_PTAG_NF_CONTENT_TAG_MASK = 0 ∧
      OPS_PTAG_ALWAYS_SET ||| OPS_PTAG_NEW_FORMAT ||| OPS_PTAG_NF_CONTENT_TAG_MASK = 0xff) ∧
    (ptag_always_set
        (OPS_PTAG_ALWAYS_SET ||| (c <<< OPS_PTAG_OF_CONTENT_TAG_SHIFT) ||| lt) = true ∧
      ptag_new_format
        (OPS_PTAG_ALWAYS_SET ||| (c <<< OPS_PTAG_OF_CONTENT_TAG_SHIFT) ||| lt) = false ∧
      ptag_of_content_tag
        (OPS_PTAG_ALWAYS_SET ||| (c <<< OPS_PTAG_OF_CONTENT_TAG_SHIFT) ||| lt) = c ∧
      ptag_of_length_type
        (OPS_PTAG_ALWAYS_SET ||| (c <<< OPS_PTAG_OF_CONTENT_TAG_SHIFT) ||| lt) = lt) ∧
    (ptag_always_set (OPS_PTAG_ALWAYS_SET ||| OPS_PTAG_NEW_FORMAT
        ||| (c6 <<< OPS_PTAG_NF_CONTENT_TAG_SHIFT)) = true ∧
      ptag_new_format (OPS_PTAG_ALWAYS_SET ||| OPS_PTAG_NEW_FORMAT
        ||| (c6 <<< OPS_PTAG_NF_CONTENT_TAG_SHIFT)) = true ∧
      ptag_nf_content_tag (OPS_PTAG_ALWAYS_SET ||| OPS_PTAG_NEW_FORMAT
        ||| (c6 <<< OPS_PTAG_NF_CONTENT_TAG_SHIFT)) = c6) ∧
    (if ptag_new_format b then
        OPS_PTAG_ALWAYS_SET ||| OPS_PTAG_NEW_FORMAT
          ||| (ptag_nf_content_tag b <<< OPS_PTAG_NF_CONTENT_TAG_SHIFT) = b
      else
        OPS_PTAG_ALWAYS_SET ||| (ptag_of_content_tag b <<< OPS_PTAG_OF_CONTENT_TAG_SHIFT)
          ||| ptag_of_length_type b = b) := by
  refine ⟨by decide, by decide, ?_, ?_, ?_⟩
  · revert lt
    revert c
    decide
  · revert c6
    decide
  · revert b
    decide

/-- Witness of C16: the old-format tag of a public key packet with a two-byte
length, the new-format tag of a literal data packet, and the octet 0x99. -/
theorem ptag_fields_partition_witness :
    ptag_of_content_tag
        (OPS_PTAG_ALWAYS_SET ||| (6 <<< OPS_PTAG_OF_CONTENT_TAG_SHIFT) ||| 1) = 6 ∧
    ptag_of_length_type
        (OPS_PTAG_ALWAYS_SET ||| (6 <<< OPS_PTAG_OF_CONTENT_TAG_SHIFT) ||| 1) = 1 ∧
    ptag_nf_content_tag (OPS_PTAG_ALWAYS_SET ||| OPS_PTAG_NEW_FORMAT
        ||| (11 <<< OPS_PTAG_NF_CONTENT_TAG_SHIFT)) = 11 ∧
    OPS_PTAG_ALWAYS_SET ||| (ptag_of_content_tag 0x99 <<< OPS_PTAG_OF_CONTENT_TAG_SHIFT)
        ||| ptag_of_length_type 0x99 = 0x99 :=
  have h := ptag_fields_partition 6 1 11 0x99 (by decide) (by decide) (by decide) (by decide)
    (by decide)
  ⟨h.2.2.1.2.2.1, h.2.2.1.2.2.2, h.2.2.2.1.2.2, by simpa using h.2.2.2.2⟩

/-- C17: no old-format packet-tag octet decodes to a content tag above 15: for
every octet b, (b & 0x3c) >> 2 <= 15, so the User Attribute (17), Symmetrically
Encrypted Integrity Protected Data (18) and MDC (19) packets of
ops_content_tag_t can only be carried by new-format packet tags, while every
RFC content tag 0..19 fits the 6-bit new-format field. -/
theorem old_format_content_tag_le_15 (b : Nat) :
    ptag_of_content_tag b ≤ 15 ∧
    ptag_of_content_tag b ≠ ops_content_tag_t.OPS_PTAG_CT_USER_ATTRIBUTE.val ∧
    ptag_of_content_tag b ≠ ops_content_tag_t.OPS_PTAG_CT_SK_IP_DATA.val ∧
    ptag_of_content_tag b ≠ ops_content_tag_t.OPS_PTAG_CT_MDC.val ∧
    (∀ e : ops_content_tag_t, e.val ≤ 19 →
      e.val ≤ OPS_PTAG_NF_CONTENT_TAG_MASK ∧
      ptag_new_format (OPS_PTAG_ALWAYS_SET ||| OPS_PTAG_NEW_FORMAT ||| e.val) = true ∧
      ptag_nf_content_tag (OPS_PTAG_ALWAYS_SET ||| OPS_PTAG_NEW_FORMAT ||| e.val) = e.val) := by
  have hle : ptag_of_content_tag b ≤ 15 := by
    unfold ptag_of_content_tag
    have h1 : b &&& OPS_PTAG_OF_CONTENT_TAG_MASK ≤ OPS_PTAG_OF_CONTENT_TAG_MASK :=
      Nat.and_le_right
    rw [Nat.shiftRight_eq_div_pow]
    calc (b &&& OPS_PTAG_OF_CONTENT_TAG_MASK) / 2 ^ OPS_PTAG_OF_CONTENT_TAG_SHIFT
        ≤ OPS_PTAG_OF_CONTENT_TAG_MASK / 2 ^ OPS_PTAG_OF_CONTENT_TAG_SHIFT :=
          Nat.div_le_div_right h1
      _ = 15 := by decide
  have h17 : ops_content_tag_t.OPS_PTAG_CT_USER_ATTRIBUTE.val = 17 := rfl
  have h18 : ops_content_tag_t.OPS_PTAG_CT_SK_IP_DATA.val = 18 := rfl
  have h19 : ops_content_tag_t.OPS_PTAG_CT_MDC.val = 19 := rfl
  refine ⟨hle, by omega, by omega, by omega, by decide⟩

/-- C18: the event tag discriminates the event union unambiguously: all
enumerators of ops_content_tag_t have pairwise distinct values; every content
tag decodable from a packet-tag octet (0..63) is below every internal parser
tag (0x100..0x105); and for every subpacket type octet t the tag
OPS_PTAG_SIGNATURE_SUBPACKET_BASE + (t & 0x7f) lies in 0x200..0x27f, so it never
equals a packet content tag, an internal parser tag or a pseudo content type
(0x300..0x309), and t and t | 0x80 (critical bit set) give the same tag. -/
theorem event_tag_discriminates (b t : Nat) (hb : b < 256) (ht : t < 256) :
    (∀ e1 e2 : ops_content_tag_t, e1.val = e2.val → e1 = e2) ∧
    (∀ e : ops_content_tag_t,
      0x100 ≤ e.val → e.val ≤ 0x105 →
      ptag_nf_content_tag b < e.val ∧ ptag_of_content_tag b < e.val) ∧
    (ptag_nf_content_tag b ≤ 63 ∧ ptag_of_content_tag b ≤ 63) ∧
    (0x200 ≤ OPS_PTAG_SIGNATURE_SUBPACKET_BASE + (t &&& 0x7f) ∧
      OPS_PTAG_SIGNATURE_SUBPACKET_BASE + (t &&& 0x7f) ≤ 0x27f) ∧
    (∀ e : ops_content_tag_t,
      e.val = OPS_PTAG_SIGNATURE_SUBPACKET_BASE + (t &&& 0x7f) →
      ops_content_tag_t.OPS_PTAG_SIGNATURE_SUBPACKET_BASE.val ≤ e.val ∧
      e.val ≤ ops_content_tag_t.OPS_PTAG_SS_USERDEFINED10.val) ∧
    (∀ e : ops_content_tag_t,
      e.val ≤ 63 ∨ (0x100 ≤ e.val ∧ e.val ≤ 0x105) ∨ (0x300 ≤ e.val ∧ e.val ≤ 0x309) →
      e.val ≠ OPS_PTAG_SIGNATURE_SUBPACKET_BASE + (t &&& 0x7f)) ∧
    OPS_PTAG_SIGNATURE_SUBPACKET_BASE + ((t ||| 0x80) &&& 0x7f)
      = OPS_PTAG_SIGNATURE_SUBPACKET_BASE + (t &&& 0x7f) := by
  have hinj : ∀ e1 e2 : ops_content_tag_t, e1.val = e2.val → e1 = e2 := by decide
  have hrange : ∀ t, t < 256 →
      0x200 ≤ OPS_PTAG_SIGNATURE_SUBPACKET_BASE + (t &&& 0x7f) ∧
      OPS_PTAG_SIGNATURE_SUBPACKET_BASE + (t &&& 0x7f) ≤ 0x27f ∧
      OPS_PTAG_SIGNATURE_SUBPACKET_BASE + ((t ||| 0x80) &&& 0x7f)
        = OPS_PTAG_SIGNATURE_SUBPACKET_BASE + (t &&& 0x7f) := by decide
  have hdec : ∀ b, b < 256 → ptag_nf_content_tag b ≤ 63 ∧ ptag_of_content_tag b ≤ 63 := by
    decide
  obtain ⟨hlo, hhi, hcrit⟩ := hrange t ht
  obtain ⟨hnf, hof⟩ := hdec b hb
  refine ⟨hinj, ?_, ⟨hnf, hof⟩, ⟨hlo, hhi⟩, ?_, ?_, hcrit⟩
  · intro e h1 _
    omega
  · intro e he
    have hss : ∀ e : ops_content_tag_t, 0x200 ≤ e.val → e.val ≤ 0x27f →
        ops_content_tag_t.OPS_PTAG_SIGNATURE_SUBPACKET_BASE.val ≤ e.val ∧
        e.val ≤ ops_content_tag_t.OPS_PTAG_SS_USERDEFINED10.val := by decide
    exact hss e (by omega) (by omega)
  · intro e he
    omega

/-- Witness of C18: the literal-data tag 0xCB and the critical issuer key ID
subpacket type 0x90. -/
theorem event_tag_discriminates_witness :
    OPS_PTAG_SIGNATURE_SUBPACKET_BASE + (0x90 &&& 0x7f)
      = ops_content_tag_t.OPS_PTAG_SS_ISSUER_KEY_ID.val ∧
    OPS_PTAG_SIGNATURE_SUBPACKET_BASE + ((0x10 ||| 0x80) &&& 0x7f)
      = OPS_PTAG_SIGNATURE_SUBPACKET_BASE + (0x10 &&& 0x7f) ∧
    ptag_nf_content_tag 0xCB < ops_content_tag_t.OPS_PARSER_ERROR.val :=
  have h := event_tag_discriminates 0xCB 0x10 (by decide) (by decide)
  ⟨by decide, h.2.2.2.2.2.2,
    (h.2.1 .OPS_PARSER_ERROR (by decide) (by decide)).1⟩

theorem copy_loop_calls (α : Type) (fd : Int) (rs : List read_result) :
    ∀ c ∈ (copy_loop α fd rs).1,
      c = .sys_read fd ∨ ∃ r ∈ rs, 0 < r.n ∧ c = .ops_write r.buf r.n := by
  induction rs with
  | nil => simp [copy_loop]
  | cons r rs ih =>
    intro c hc
    unfold copy_loop at hc
    split_ifs at hc with h0 hneg
    · simp at hc; exact Or.inl hc
    · simp at hc; exact Or.inl hc
    · simp only [List.mem_cons] at hc
      rcases hc with h | h | h
      · exact Or.inl h
      · exact Or.inr ⟨r, by simp, by omega, h⟩
      · rcases ih c h with h2 | ⟨r2, hr2, hpos, h2⟩
        · exact Or.inl h2
        · exact Or.inr ⟨r2, List.mem_cons_of_mem _ hr2, hpos, h2⟩

/-- The copy loop ends in `exit(4)` exactly when the first read result that is
not positive is negative. -/
theorem copy_loop_ok (α : Type) (fd : Int) (rs : List read_result) :
    (copy_loop α fd rs).2 = true ↔
      ∀ r, rs.find? (fun r => decide (r.n ≤ 0)) = some r → r.n = 0 := by
  induction rs with
  | nil => simp [copy_loop]
  | cons r rs ih =>
    unfold copy_loop
    split_ifs with h0 hneg
    · simp [List.find?, h0]
    · have hle : r.n ≤ 0 := by omega
      simp only [List.find?, hle, decide_True, Option.some.injEq, forall_eq', Bool.false_eq_true,
        false_iff]
      exact h0
    · have hle : ¬ r.n ≤ 0 := by omega
      simp only [List.find?, hle, decide_False]
      exact ih
/-- C19 (the code differs): sign-inline, which pushes the dash-escaped writer,
starts its plaintext signature with OPS_SIG_BINARY (0x00) and not with the
canonical-text signature type OPS_SIG_TEXT (0x01): in every run, every call of
ops_signature_start_plaintext_signature has the type OPS_SIG_BINARY; in the
example run the call is made, with that type, before
ops_writer_push_dash_escaped. -/
theorem sign_inline_signature_type :
    (∀ (κ δ : Type) (w : example_world κ δ) (skey : ops_secret_key_t)
        (alg : ops_hash_algorithm_t) (ty : ops_sig_type_t),
      sdk_call.ops_signature_start_plaintext_signature skey alg ty ∈ (sign_inline_main w).1 →
      ty = .OPS_SIG_BINARY ∧ ty.val = 0x00 ∧ ty ≠ .OPS_SIG_TEXT) ∧
    ops_sig_type_t.OPS_SIG_TEXT.val = 0x01 ∧
    (sign_inline_main example_run).1.take 9
      = [.ops_init, .get_secret_key "sec.gpg", .ops_hash_algorithm_from_text "SHA1",
          .ops_create_signature_new,
          .ops_signature_start_plaintext_signature example_dsa_secret_key .OPS_HASH_SHA1
            .OPS_SIG_BINARY,
          .sys_open "plain.txt.asc", .ops_create_info_new, .ops_writer_set_fd 3,
          .ops_writer_push_dash_escaped] := by
  refine ⟨?_, rfl, by decide⟩
  intro κ δ w skey alg ty h
  have hloop := copy_loop_calls ops_secret_key_t
  suffices hty : ty = .OPS_SIG_BINARY by
    subst hty
    exact ⟨rfl, rfl, by decide⟩
  unfold sign_inline_main at h
  split at h
  · split at h
    · simp at h
    · split_ifs at h
      · simp at h
      · simp at h
        exact h.2.2
      · simp at h
        exact h.2.2
      · simp only [List.mem_append, List.mem_cons, List.not_mem_nil, or_false] at h
        rcases h with (h | h) | h
        · simp at h
          exact h.2.2
        · rcases hloop _ _ _ h with h2 | ⟨r, -, -, h2⟩ <;> simp at h2
        · simp at h
      · simp only [List.mem_append, List.mem_cons, List.not_mem_nil, or_false] at h
        rcases h with h | h
        · simp at h
          exact h.2.2
        · rcases hloop _ _ _ h with h2 | ⟨r, -, -, h2⟩ <;> simp at h2
  · simp at h

/-- C20 (the code differs): the key sign-inline signs with does not depend on
its user_id argument (argv[2]): two runs that differ in that argument only make
the same calls and end the same way, the key being the one that
get_secret_key gives for the key file (argv[1]); encrypt does select its key
with ops_keyring_find_key_by_userid.  In the example run, whose key file holds
the keys of alice and bob, sign-inline called for bob signs with the key of
alice, while encrypt called for bob takes the key of bob. -/
theorem sign_inline_ignores_user_id :
    (∀ (κ δ : Type) (w : example_world κ δ) (a0 keyfile u1 u2 hashstr plainfile sigfile : String),
      sign_inline_main { w with argv := [a0, keyfile, u1, hashstr, plainfile, sigfile] }
        = sign_inline_main { w with argv := [a0, keyfile, u2, hashstr, plainfile, sigfile] }) ∧
    example_run.argv.get? 2 = some "bob" ∧
    example_run.ops_keyring_find_key_by_userid (example_run.ops_keyring_read "sec.gpg") "bob"
      = some { example_dsa_secret_key with checksum := 1 } ∧
    sdk_call.ops_write_signature example_dsa_secret_key ∈ (sign_inline_main example_run).1 ∧
    sdk_call.ops_write_signature { example_dsa_secret_key with checksum := 1 }
      ∉ (sign_inline_main example_run).1 ∧
    sdk_call.ops_writer_push_encrypt { example_dsa_secret_key with checksum := 1 }
      ∈ (encrypt_main { example_run with argv := ["encrypt", "sec.gpg", "bob"] }).1 := by
  refine ⟨?_, rfl, by decide, by decide, by decide, by decide⟩
  intro κ δ w a0 keyfile u1 u2 hashstr plainfile sigfile
  rfl

/-- C15, as stated, fails: in the example run every ops_write and
ops_write_signature fails, the calls are made, and sign-inline returns 0; so
does encrypt on the same input. -/
theorem example_exit_status_counterexample :
    count_ops_write (sign_inline_main example_run).1 = 1 ∧
    example_run.ops_write_result 0 = false ∧
    sdk_call.ops_write_signature example_dsa_secret_key ∈ (sign_inline_main example_run).1 ∧
    example_run.ops_write_signature_result = false ∧
    (sign_inline_main example_run).2 = .returned 0 ∧
    count_ops_write
      (encrypt_main { example_run with argv := ["encrypt", "sec.gpg", "bob"] }).1 = 1 ∧
    (encrypt_main { example_run with argv := ["encrypt", "sec.gpg", "bob"] }).2
      = .returned 0 := by
  decide

theorem copy_loop_failed (α : Type) (fd : Int) (rs : List read_result) :
    (copy_loop α fd rs).2 = false ↔
      ∃ r, rs.find? (fun r => decide (r.n ≤ 0)) = some r ∧ r.n < 0 := by
  have h := copy_loop_ok α fd rs
  constructor
  · intro hf
    by_contra hne
    have : (copy_loop α fd rs).2 = true := by
      rw [h]
      intro r hr
      have hle : r.n ≤ 0 := by simpa using List.find?_some hr
      by_contra h0
      exact hne ⟨r, hr, by omega⟩
    rw [this] at hf
    exact Bool.noConfusion hf
  · rintro ⟨r, hr, hneg⟩
    cases hc : (copy_loop α fd rs).2 with
    | false => rfl
    | true =>
      have := (h.1 hc) r hr
      omega

/-- The way sign-inline ends, cause by cause in the order of its tests. -/
theorem sign_inline_status {κ δ : Type} (w : example_world κ δ)
    (a0 keyfile user_id hashstr plainfile sigfile : String)
    (hargv : w.argv = [a0, keyfile, user_id, hashstr, plainfile, sigfile]) :
    (sign_inline_main w).2
      = if w.get_secret_key keyfile = none then .aborted
        else if w.ops_hash_algorithm_from_text hashstr = .OPS_HASH_UNKNOWN then .exited 2
        else if w.sys_open sigfile .O_CREAT_O_TRUNC_O_WRONLY < 0 then .exited 5
        else if w.sys_open plainfile .O_RDONLY < 0 then .exited 3
        else if (copy_loop ops_secret_key_t (w.sys_open plainfile .O_RDONLY) w.reads).2 then
          .returned 0
        else .exited 4 := by
  unfold sign_inline_main
  rw [hargv]
  simp only
  cases hk : w.get_secret_key keyfile with
  | none => simp
  | some skey =>
    simp only [reduceCtorEq, ↓reduceIte]
    split_ifs <;> rfl

/-- The way encrypt ends, cause by cause in the order of its tests. -/
theorem encrypt_status {κ δ : Type} (w : example_world κ δ) (a0 keyfile user_id : String)
    (hargv : w.argv = [a0, keyfile, user_id]) :
    (encrypt_main w).2
      = match w.ops_keyring_find_key_by_userid (w.ops_keyring_read keyfile) user_id with
        | none => .aborted
        | some _ => if (copy_loop δ 0 w.reads).2 then .returned 0 else .exited 4 := by
  unfold encrypt_main
  rw [hargv]
  simp only
  cases hk : w.ops_keyring_find_key_by_userid (w.ops_keyring_read keyfile) user_id with
  | none => rfl
  | some key =>
    simp only
    split_ifs <;> rfl

theorem sign_inline_usage {κ δ : Type} (w : example_world κ δ) :
    (sign_inline_main w).2 = .exited 1 ↔ w.argv.length ≠ 6 := by
  by_cases hlen : w.argv.length = 6
  · obtain ⟨a0, keyfile, user_id, hashstr, plainfile, sigfile, hargv⟩ :
        ∃ a0 keyfile user_id hashstr plainfile sigfile,
          w.argv = [a0, keyfile, user_id, hashstr, plainfile, sigfile] := by
      match hw : w.argv, hlen with
      | [a0, keyfile, user_id, hashstr, plainfile, sigfile], _ =>
        exact ⟨a0, keyfile, user_id, hashstr, plainfile, sigfile, rfl⟩
    rw [sign_inline_status w _ _ _ _ _ _ hargv]
    simp only [hlen, ne_eq, not_true_eq_false, iff_false]
    split_ifs <;> simp
  · simp only [ne_eq, hlen, not_false_eq_true, iff_true]
    unfold sign_inline_main
    split
    · rename_i hw
      rw [hw] at hlen
      simp at hlen
    · rfl

theorem encrypt_usage {κ δ : Type} (w : example_world κ δ) :
    (encrypt_main w).2 = .exited 1 ↔ w.argv.length ≠ 3 := by
  by_cases hlen : w.argv.length = 3
  · obtain ⟨a0, keyfile, user_id, hargv⟩ :
        ∃ a0 keyfile user_id, w.argv = [a0, keyfile, user_id] := by
      match hw : w.argv, hlen with
      | [a0, keyfile, user_id], _ => exact ⟨a0, keyfile, user_id, rfl⟩
    rw [encrypt_status w _ _ _ hargv]
    simp only [hlen, ne_eq, not_true_eq_false, iff_false]
    split
    · simp
    · split_ifs <;> simp
  · simp only [ne_eq, hlen, not_false_eq_true, iff_true]
    unfold encrypt_main
    split
    · rename_i hw
      rw [hw] at hlen
      simp at hlen
    · rfl

/-- When the examples return 0, which statuses they can end with, and that the
results of ops_write and ops_write_signature do not enter. -/
theorem example_returns_zero (κ δ : Type) (w : example_world κ δ) :
    ((sign_inline_main w).2 = .returned 0 ↔
      ∃ a0 keyfile user_id hashstr plainfile sigfile,
        w.argv = [a0, keyfile, user_id, hashstr, plainfile, sigfile] ∧
        w.get_secret_key keyfile ≠ none ∧
        w.ops_hash_algorithm_from_text hashstr ≠ .OPS_HASH_UNKNOWN ∧
        0 ≤ w.sys_open sigfile .O_CREAT_O_TRUNC_O_WRONLY ∧ 0 ≤ w.sys_open plainfile .O_RDONLY ∧
        ∀ r, w.reads.find? (fun r => decide (r.n ≤ 0)) = some r → r.n = 0) ∧
    ((sign_inline_main w).2 = .returned 0 ∨ (sign_inline_main w).2 = .aborted ∨
      (sign_inline_main w).2 = .exited 1 ∨ (sign_inline_main w).2 = .exited 2 ∨
      (sign_inline_main w).2 = .exited 3 ∨ (sign_inline_main w).2 = .exited 4 ∨
      (sign_inline_main w).2 = .exited 5) ∧
    ((encrypt_main w).2 = .returned 0 ↔
      ∃ a0 keyfile user_id,
        w.argv = [a0, keyfile, user_id] ∧
        w.ops_keyring_find_key_by_userid (w.ops_keyring_read keyfile) user_id ≠ none ∧
        ∀ r, w.reads.find? (fun r => decide (r.n ≤ 0)) = some r → r.n = 0) ∧
    ((encrypt_main w).2 = .returned 0 ∨ (encrypt_main w).2 = .aborted ∨
      (encrypt_main w).2 = .exited 1 ∨ (encrypt_main w).2 = .exited 4) ∧
    (∀ (f : Nat → Bool) (b : Bool),
      sign_inline_main { w with ops_write_result := f, ops_write_signature_result := b }
        = sign_inline_main w ∧
      encrypt_main { w with ops_write_result := f, ops_write_signature_result := b }
        = encrypt_main w) := by
  refine ⟨?_, ?_, ?_, ?_, fun f b => ⟨rfl, rfl⟩⟩
  · unfold sign_inline_main
    split
    · rename_i a0 keyfile user_id hashstr plainfile sigfile hargv
      split
      · rename_i hkey
        simp only [false_iff, reduceCtorEq]
        rintro ⟨b0, k, u, h, pf, sf, heq, hk, -⟩
        rw [hargv] at heq
        simp only [List.cons.injEq, and_true] at heq
        obtain ⟨-, rfl, -, -, -, -⟩ := heq
        exact hk hkey
      · rename_i skey hkey
        have hloop := copy_loop_ok ops_secret_key_t (w.sys_open plainfile .O_RDONLY) w.reads
        split_ifs with h1 h2 h3 h4
        · simp only [exit_status.returned.injEq, reduceCtorEq, false_iff]
          rintro ⟨b0, k, u, h, pf, sf, heq, -, hh, -⟩
          rw [hargv] at heq
          simp only [List.cons.injEq, and_true] at heq
          obtain ⟨-, -, -, rfl, -, -⟩ := heq
          exact hh h1
        · simp only [reduceCtorEq, false_iff]
          rintro ⟨b0, k, u, h, pf, sf, heq, -, -, hs, -⟩
          rw [hargv] at heq
          simp only [List.cons.injEq, and_true] at heq
          obtain ⟨-, -, -, -, -, rfl⟩ := heq
          omega
        · simp only [reduceCtorEq, false_iff]
          rintro ⟨b0, k, u, h, pf, sf, heq, -, -, -, hp, -⟩
          rw [hargv] at heq
          simp only [List.cons.injEq, and_true] at heq
          obtain ⟨-, -, -, -, rfl, -⟩ := heq
          omega
        · simp only [true_iff]
          exact ⟨a0, keyfile, user_id, hashstr, plainfile, sigfile, hargv, by simp [hkey], h1,
            by omega, by omega, hloop.1 h4⟩
        · simp only [reduceCtorEq, false_iff]
          rintro ⟨b0, k, u, h, pf, sf, -, -, -, -, -, hr⟩
          exact h4 (hloop.2 hr)
    · rename_i hargv
      simp only [reduceCtorEq, false_iff]
      rintro ⟨b0, k, u, h, pf, sf, heq, -⟩
      exact hargv _ _ _ _ _ _ heq
  · unfold sign_inline_main
    split
    · split
      · simp
      · split_ifs <;> simp
    · simp
  · unfold encrypt_main
    split
    · rename_i a0 keyfile user_id hargv
      split
      · rename_i hkey
        simp only [reduceCtorEq, false_iff]
        rintro ⟨b0, k, u, heq, hk, -⟩
        rw [hargv] at heq
        simp only [List.cons.injEq, and_true] at heq
        obtain ⟨-, rfl, rfl⟩ := heq
        exact hk hkey
      · rename_i key hkey
        have hloop := copy_loop_ok δ 0 w.reads
        split_ifs with h4
        · simp only [true_iff]
          exact ⟨a0, keyfile, user_id, hargv, by simp [hkey], hloop.1 h4⟩
        · simp only [reduceCtorEq, false_iff]
          rintro ⟨b0, k, u, -, -, hr⟩
          exact h4 (hloop.2 hr)
    · rename_i hargv
      simp only [reduceCtorEq, false_iff]
      rintro ⟨b0, k, u, heq, -⟩
      exact hargv _ _ _ heq
  · unfold encrypt_main
    split
    · split
      · simp
      · split_ifs <;> simp
    · simp

/-- Every way of ending is reached: variations of the example run that end in
each status of the two programs.  In the run that exits with 3 the plaintext
file and the signature file are the same path: it is opened for writing, and
not for reading. -/
theorem example_statuses_reached :
    (sign_inline_main { example_run with argv := ["sign-inline"] }).2 = .exited 1 ∧
    (sign_inline_main { example_run with get_secret_key := fun _ => none }).2 = .aborted ∧
    (sign_inline_main
      { example_run with
        argv := ["sign-inline", "sec.gpg", "bob", "SHA3", "plain.txt", "plain.txt.asc"] }).2
      = .exited 2 ∧
    (sign_inline_main
      { example_run with
        sys_open := fun _ fl => if fl = .O_RDONLY then 4 else -1 }).2 = .exited 5 ∧
    (sign_inline_main
      { example_run with
        argv := ["sign-inline", "sec.gpg", "bob", "SHA1", "plain.txt", "plain.txt"],
        sys_open := fun _ fl => if fl = .O_RDONLY then -1 else 3 }).2 = .exited 3 ∧
    (sign_inline_main
      { example_run with reads := [⟨6, [104, 101, 108, 108, 111, 10]⟩, ⟨-1, []⟩] }).2
      = .exited 4 ∧
    (sign_inline_main example_run).2 = .returned 0 ∧
    (encrypt_main example_run).2 = .exited 1 ∧
    (encrypt_main { example_run with argv := ["encrypt", "sec.gpg", "carol"] }).2 = .aborted ∧
    (encrypt_main
      { example_run with argv := ["encrypt", "sec.gpg", "bob"], reads := [⟨-1, []⟩] }).2
      = .exited 4 ∧
    (encrypt_main { example_run with argv := ["encrypt", "sec.gpg", "bob"] }).2
      = .returned 0 := by
  decide

/-- C15, amended: each example program ends with a non-zero exit status on
wrong usage (exit 1), an unknown hash name (exit 2, sign-inline), a failure to
open the signature file (exit 5) or the plaintext file (exit 3) and a failed
read (exit 4), and is aborted by a failed assert when no key is obtained; in
every other run it returns 0, whatever ops_write and ops_write_signature
report: their results are not examined.  Each way of ending is tied to its
cause: the status is the one of the first test, in the order of the program,
that fails. -/
theorem example_exit_status (κ δ : Type) (w : example_world κ δ) :
    (((sign_inline_main w).2 = .exited 1 ↔ w.argv.length ≠ 6) ∧
      ∀ a0 keyfile user_id hashstr plainfile sigfile,
        w.argv = [a0, keyfile, user_id, hashstr, plainfile, sigfile] →
        ((sign_inline_main w).2 = .aborted ↔ w.get_secret_key keyfile = none) ∧
        ((sign_inline_main w).2 = .exited 2 ↔
          w.get_secret_key keyfile ≠ none ∧
          w.ops_hash_algorithm_from_text hashstr = .OPS_HASH_UNKNOWN) ∧
        ((sign_inline_main w).2 = .exited 5 ↔
          w.get_secret_key keyfile ≠ none ∧
          w.ops_hash_algorithm_from_text hashstr ≠ .OPS_HASH_UNKNOWN ∧
          w.sys_open sigfile .O_CREAT_O_TRUNC_O_WRONLY < 0) ∧
        ((sign_inline_main w).2 = .exited 3 ↔
          w.get_secret_key keyfile ≠ none ∧
          w.ops_hash_algorithm_from_text hashstr ≠ .OPS_HASH_UNKNOWN ∧
          0 ≤ w.sys_open sigfile .O_CREAT_O_TRUNC_O_WRONLY ∧
          w.sys_open plainfile .O_RDONLY < 0) ∧
        ((sign_inline_main w).2 = .exited 4 ↔
          w.get_secret_key keyfile ≠ none ∧
          w.ops_hash_algorithm_from_text hashstr ≠ .OPS_HASH_UNKNOWN ∧
          0 ≤ w.sys_open sigfile .O_CREAT_O_TRUNC_O_WRONLY ∧
          0 ≤ w.sys_open plainfile .O_RDONLY ∧
          ∃ r, w.reads.find? (fun r => decide (r.n ≤ 0)) = some r ∧ r.n < 0) ∧
        ((sign_inline_main w).2 = .returned 0 ↔
          w.get_secret_key keyfile ≠ none ∧
          w.ops_hash_algorithm_from_text hashstr ≠ .OPS_HASH_UNKNOWN ∧
          0 ≤ w.sys_open sigfile .O_CREAT_O_TRUNC_O_WRONLY ∧
          0 ≤ w.sys_open plainfile .O_RDONLY ∧
          ∀ r, w.reads.find? (fun r => decide (r.n ≤ 0)) = some r → r.n = 0)) ∧
    (((encrypt_main w).2 = .exited 1 ↔ w.argv.length ≠ 3) ∧
      ∀ a0 keyfile user_id, w.argv = [a0, keyfile, user_id] →
        ((encrypt_main w).2 = .aborted ↔
          w.ops_keyring_find_key_by_userid (w.ops_keyring_read keyfile) user_id = none) ∧
        ((encrypt_main w).2 = .exited 4 ↔
          w.ops_keyring_find_key_by_userid (w.ops_keyring_read keyfile) user_id ≠ none ∧
          ∃ r, w.reads.find? (fun r => decide (r.n ≤ 0)) = some r ∧ r.n < 0) ∧
        ((encrypt_main w).2 = .returned 0 ↔
          w.ops_keyring_find_key_by_userid (w.ops_keyring_read keyfile) user_id ≠ none ∧
          ∀ r, w.reads.find? (fun r => decide (r.n ≤ 0)) = some r → r.n = 0)) ∧
    (((sign_inline_main w).2 = .returned 0 ↔
      ∃ a0 keyfile user_id hashstr plainfile sigfile,
        w.argv = [a0, keyfile, user_id, hashstr, plainfile, sigfile] ∧
        w.get_secret_key keyfile ≠ none ∧
        w.ops_hash_algorithm_from_text hashstr ≠ .OPS_HASH_UNKNOWN ∧
        0 ≤ w.sys_open sigfile .O_CREAT_O_TRUNC_O_WRONLY ∧ 0 ≤ w.sys_open plainfile .O_RDONLY ∧
        ∀ r, w.reads.find? (fun r => decide (r.n ≤ 0)) = some r → r.n = 0) ∧
    ((sign_inline_main w).2 = .returned 0 ∨ (sign_inline_main w).2 = .aborted ∨
      (sign_inline_main w).2 = .exited 1 ∨ (sign_inline_main w).2 = .exited 2 ∨
      (sign_inline_main w).2 = .exited 3 ∨ (sign_inline_main w).2 = .exited 4 ∨
      (sign_inline_main w).2 = .exited 5) ∧
    ((encrypt_main w).2 = .returned 0 ↔
      ∃ a0 keyfile user_id,
        w.argv = [a0, keyfile, user_id] ∧
        w.ops_keyring_find_key_by_userid (w.ops_keyring_read keyfile) user_id ≠ none ∧
        ∀ r, w.reads.find? (fun r => decide (r.n ≤ 0)) = some r → r.n = 0) ∧
    ((encrypt_main w).2 = .returned 0 ∨ (encrypt_main w).2 = .aborted ∨
      (encrypt_main w).2 = .exited 1 ∨ (encrypt_main w).2 = .exited 4) ∧
    (∀ (f : Nat → Bool) (b : Bool),
      sign_inline_main { w with ops_write_result := f, ops_write_signature_result := b }
        = sign_inline_main w ∧
      encrypt_main { w with ops_write_result := f, ops_write_signature_result := b }
        = encrypt_main w)) := by
  refine ⟨⟨sign_inline_usage w, ?_⟩, ⟨encrypt_usage w, ?_⟩, example_returns_zero κ δ w⟩
  · intro a0 keyfile user_id hashstr plainfile sigfile hargv
    have hok := copy_loop_ok ops_secret_key_t (w.sys_open plainfile .O_RDONLY) w.reads
    have hfail := copy_loop_failed ops_secret_key_t (w.sys_open plainfile .O_RDONLY) w.reads
    rw [sign_inline_status w _ _ _ _ _ _ hargv]
    by_cases hk : w.get_secret_key keyfile = none
    · simp [hk]
    by_cases hh : w.ops_hash_algorithm_from_text hashstr = .OPS_HASH_UNKNOWN
    · simp [hk, hh]
    by_cases hs : w.sys_open sigfile .O_CREAT_O_TRUNC_O_WRONLY < 0
    · simp [hk, hh, hs]
    by_cases hp : w.sys_open plainfile .O_RDONLY < 0
    · have hs2 : 0 ≤ w.sys_open sigfile .O_CREAT_O_TRUNC_O_WRONLY := by omega
      simp [hk, hh, hs, hp, hs2]
    have hs2 : 0 ≤ w.sys_open sigfile .O_CREAT_O_TRUNC_O_WRONLY := by omega
    have hp2 : 0 ≤ w.sys_open plainfile .O_RDONLY := by omega
    cases hc : (copy_loop ops_secret_key_t (w.sys_open plainfile .O_RDONLY) w.reads).2 with
    | true =>
      have h1 := hok.1 hc
      have h2 : ¬ ∃ r, w.reads.find? (fun r => decide (r.n ≤ 0)) = some r ∧ r.n < 0 := by
        intro hex
        have := hfail.2 hex
        rw [hc] at this
        exact Bool.noConfusion this
      simp only [hk, hh, hs, hp, ↓reduceIte]
      refine ⟨by simp, by simp, by simp, by simp, ?_, ?_⟩
      · exact ⟨fun h => by simp at h, fun h => absurd h.2.2.2.2 h2⟩
      · exact ⟨fun _ => ⟨hk, hh, hs2, hp2, h1⟩, fun _ => by simp⟩
    | false =>
      have h1 := hfail.1 hc
      have h2 : ¬ ∀ r, w.reads.find? (fun r => decide (r.n ≤ 0)) = some r → r.n = 0 := by
        intro hall
        have := hok.2 hall
        rw [hc] at this
        exact Bool.noConfusion this
      simp only [hk, hh, hs, hp, ↓reduceIte, Bool.false_eq_true]
      refine ⟨by simp, by simp, by simp, by simp, ?_, ?_⟩
      · exact ⟨fun _ => ⟨hk, hh, hs2, hp2, h1⟩, fun _ => by simp⟩
      · exact ⟨fun h => by simp at h, fun h => absurd h.2.2.2.2 h2⟩
  · intro a0 keyfile user_id hargv
    have hok := copy_loop_ok δ 0 w.reads
    have hfail := copy_loop_failed δ 0 w.reads
    rw [encrypt_status w _ _ _ hargv]
    cases hk : w.ops_keyring_find_key_by_userid (w.ops_keyring_read keyfile) user_id with
    | none => simp
    | some key =>
      simp only
      cases hc : (copy_loop δ 0 w.reads).2 with
      | true =>
        have h1 := hok.1 hc
        have h2 : ¬ ∃ r, w.reads.find? (fun r => decide (r.n ≤ 0)) = some r ∧ r.n < 0 := by
          intro hex
          have := hfail.2 hex
          rw [hc] at this
          exact Bool.noConfusion this
        simp only [↓reduceIte]
        refine ⟨by simp, ?_, ?_⟩
        · exact ⟨fun h => by simp at h, fun h => absurd h.2 h2⟩
        · exact ⟨fun _ => ⟨by simp, h1⟩, fun _ => by simp⟩
      | false =>
        have h1 := hfail.1 hc
        have h2 : ¬ ∀ r, w.reads.find? (fun r => decide (r.n ≤ 0)) = some r → r.n = 0 := by
          intro hall
          have := hok.2 hall
          rw [hc] at this
          exact Bool.noConfusion this
        simp only [↓reduceIte, Bool.false_eq_true]
        refine ⟨by simp, ?_, ?_⟩
        · exact ⟨fun _ => ⟨by simp, h1⟩, fun _ => by simp⟩
        · exact ⟨fun h => by simp at h, fun h => absurd h.2 h2⟩

theorem body_chunks_le (f : Nat) : ∀ d : List Nat, ∀ c ∈ body_chunks f d, c.length ≤ 8192 := by
  induction f with
  | zero => intro d c hc; simp [body_chunks] at hc
  | succ f ih =>
    intro d c hc
    cases d with
    | nil => simp [body_chunks] at hc
    | cons b bs =>
      simp only [body_chunks, List.mem_cons] at hc
      rcases hc with h | h
      · subst h
        simp only [List.length_take]
        omega
      · exact ih _ c h

theorem body_chunks_flatten (f : Nat) : ∀ d : List Nat, d.length ≤ f →
    (body_chunks f d).flatten = d := by
  induction f with
  | zero =>
    intro d hd
    have hnil : d = [] := List.length_eq_zero.1 (by omega)
    subst hnil
    rfl
  | succ f ih =>
    intro d hd
    cases d with
    | nil => rfl
    | cons b bs =>
      have hdrop : ((b :: bs).drop 8192).length ≤ f := by
        simp only [List.length_drop, List.length_cons] at hd ⊢
        omega
      simp only [body_chunks, List.flatten_cons, ih _ hdrop, List.take_append_drop]

theorem fits_errcode (e : ops_errcode_t) : body_chunk_fits (errcode_event e) = true := rfl

theorem fits_one_subpacket (region : List Nat) :
    ∀ ev ∈ (parse_one_signature_subpacket region).1, body_chunk_fits ev = true := by
  intro ev hev
  unfold parse_one_signature_subpacket at hev
  split at hev
  · simp at hev; subst hev; rfl
  · split at hev
    · simp at hev; subst hev; rfl
    · simp at hev; subst hev; rfl
    · simp only at hev
      split_ifs at hev <;> simp at hev <;> subst hev <;> rfl

theorem fits_subpackets (f : Nat) : ∀ region : List Nat,
    ∀ ev ∈ (parse_signature_subpackets f region).1, body_chunk_fits ev = true := by
  induction f with
  | zero =>
    intro region ev hev
    cases region with
    | nil => simp [parse_signature_subpackets] at hev
    | cons b r => simp [parse_signature_subpackets] at hev; subst hev; rfl
  | succ f ih =>
    intro region ev hev
    cases region with
    | nil => simp [parse_signature_subpackets] at hev
    | cons b r =>
      have h1 := fits_one_subpacket (b :: r)
      unfold parse_signature_subpackets at hev
      split at hev
      · rename_i evs heq
        rw [heq] at h1
        exact h1 ev hev
      · rename_i evs rest heq
        rw [heq] at h1
        simp only [List.mem_append] at hev
        rcases hev with h | h
        · exact h1 ev h
        · exact ih rest ev h

theorem fits_v4_footer (sig : ops_signature_t) (input : List Nat) :
    ∀ ev ∈ (parse_v4_signature_footer sig input).1, body_chunk_fits ev = true := by
  intro ev hev
  unfold parse_v4_signature_footer at hev
  split at hev
  · split at hev <;> simp at hev <;> subst hev <;> rfl
  · simp at hev; subst hev; rfl

theorem fits_v4_unhashed (sig : ops_signature_t) (region after : List Nat) :
    ∀ ev ∈ (parse_v4_unhashed sig region after).1, body_chunk_fits ev = true := by
  intro ev hev
  have h1 := fits_subpackets region.length region
  unfold parse_v4_unhashed at hev
  split at hev
  · rename_i evs heq
    rw [heq] at h1
    exact h1 ev hev
  · rename_i evs heq
    rw [heq] at h1
    simp only [List.mem_append] at hev
    rcases hev with h | h
    · exact h1 ev h
    · exact fits_v4_footer sig after ev h

theorem fits_v4_after_hashed (sig : ops_signature_t) (input : List Nat) :
    ∀ ev ∈ (parse_v4_after_hashed sig input).1, body_chunk_fits ev = true := by
  intro ev hev
  unfold parse_v4_after_hashed at hev
  split at hev
  · split at hev
    · simp at hev; subst hev; rfl
    · exact fits_v4_unhashed _ _ _ ev hev
  · simp at hev; subst hev; rfl

theorem fits_v4_hashed (sig : ops_signature_t) (region after : List Nat) :
    ∀ ev ∈ (parse_v4_hashed sig region after).1, body_chunk_fits ev = true := by
  intro ev hev
  have h1 := fits_subpackets region.length region
  unfold parse_v4_hashed at hev
  split at hev
  · rename_i evs heq
    rw [heq] at h1
    exact h1 ev hev
  · rename_i evs heq
    rw [heq] at h1
    simp only [List.mem_append] at hev
    rcases hev with h | h
    · exact h1 ev h
    · exact fits_v4_after_hashed sig after ev h

theorem fits_signature (body : List Nat) :
    ∀ ev ∈ (parse_signature body).1, body_chunk_fits ev = true := by
  intro ev hev
  unfold parse_signature at hev
  split at hev
  · unfold parse_v3_signature at hev
    split at hev
    · split at hev <;> simp at hev <;> subst hev <;> rfl
    · simp at hev; subst hev; rfl
  · unfold parse_v4_signature at hev
    split at hev
    · split at hev
      · simp at hev; subst hev; rfl
      · simp only [List.mem_cons] at hev
        rcases hev with h | h
        · subst h; rfl
        · exact fits_v4_hashed _ _ _ ev h
    · simp at hev; subst hev; rfl
  · simp at hev; subst hev; rfl

theorem fits_one_pass (body : List Nat) :
    ∀ ev ∈ (parse_one_pass_signature body).1, body_chunk_fits ev = true := by
  intro ev hev
  unfold parse_one_pass_signature at hev
  split at hev <;> simp at hev <;> subst hev <;> rfl

theorem fits_literal_data (body : List Nat) :
    ∀ ev ∈ (parse_literal_data body).1, body_chunk_fits ev = true := by
  intro ev hev
  unfold parse_literal_data at hev
  split at hev
  · split at hev
    · simp only [List.mem_cons, List.mem_map] at hev
      rcases hev with h | ⟨c, hc, h⟩
      · subst h; rfl
      · subst h
        simp [body_chunk_fits, body_chunks_le _ _ c hc]
    · simp at hev; subst hev; rfl
  · simp at hev; subst hev; rfl

theorem fits_packet_body (ptag : ops_ptag_t) (body : List Nat) :
    ∀ ev ∈ (parse_packet_body ptag body).1, body_chunk_fits ev = true := by
  intro ev hev
  unfold parse_packet_body at hev
  split_ifs at hev
  · exact fits_signature body ev hev
  · exact fits_one_pass body ev hev
  · exact fits_literal_data body ev hev
  · simp at hev; subst hev; rfl

theorem fits_one_packet (pos : Nat) (input : List Nat) :
    ∀ ev ∈ (ops_parse_one_packet pos input).1, body_chunk_fits ev = true := by
  intro ev hev
  unfold ops_parse_one_packet at hev
  split at hev
  · simp at hev
  · split_ifs at hev
    · simp at hev; subst hev; rfl
    · split at hev
      · simp at hev; subst hev; rfl
      · split at hev
        · simp at hev
          rcases hev with h | h <;> subst h <;> rfl
        · split_ifs at hev
          · simp only [List.mem_cons, List.mem_append, List.not_mem_nil, or_false] at hev
            rcases hev with h | h | h
            · subst h; rfl
            · exact fits_packet_body _ _ ev h
            · subst h; rfl
          · simp only [List.mem_cons] at hev
            rcases hev with h | h
            · subst h; rfl
            · exact fits_packet_body _ _ ev h

theorem fits_parse_loop (fuel : Nat) : ∀ (pos : Nat) (input : List Nat),
    ∀ ev ∈ ops_parse_loop fuel pos input, body_chunk_fits ev = true := by
  induction fuel with
  | zero => intro pos input ev hev; simp [ops_parse_loop] at hev
  | succ fuel ih =>
    intro pos input ev hev
    have h1 := fits_one_packet pos input
    unfold ops_parse_loop at hev
    split at hev
    · rename_i evs heq
      rw [heq] at h1
      exact h1 ev hev
    · rename_i evs rest heq
      rw [heq] at h1
      simp only [List.mem_append] at hev
      rcases hev with h | h
      · exact h1 ev h
      · exact ih _ _ ev h
/-- C11: every literal-data body chunk event and every signed-cleartext body
chunk event delivered to the callback has length <= 8192, the capacity of its
data array, whatever the total size of the body: for every input of the
parser and every cleartext-signed message, each such event holds as many octets
as its length says, at most 8192; and whatever its size, a body comes in chunks
of at most 8192 octets that put together give the body. -/
theorem body_chunk_events_fit (input : List Nat) (text : List Char) (data : List Nat) :
    (∀ ev ∈ ops_parse input, ∀ b, ev.content = .literal_data_body b →
      b.length ≤ 8192 ∧ b.data.length = b.length) ∧
    (∀ evs, read_signed_cleartext text = .ok evs → ∀ ev ∈ evs,
      (∀ b, ev.content = .signed_cleartext_body b →
        b.length ≤ 8192 ∧ b.data.length = b.length) ∧
      (∀ b, ev.content = .literal_data_body b →
        b.length ≤ 8192 ∧ b.data.length = b.length)) ∧
    ((∀ chunk ∈ body_chunks data.length data, chunk.length ≤ 8192) ∧
      (body_chunks data.length data).flatten = data) := by
  have hfit : ∀ ev : ops_parser_content_t, body_chunk_fits ev = true →
      (∀ b, ev.content = .signed_cleartext_body b →
        b.length ≤ 8192 ∧ b.data.length = b.length) ∧
      (∀ b, ev.content = .literal_data_body b →
        b.length ≤ 8192 ∧ b.data.length = b.length) := by
    intro ev hev
    constructor
    · intro b hb
      simpa [body_chunk_fits, hb] using hev
    · intro b hb
      simpa [body_chunk_fits, hb] using hev
  refine ⟨?_, ?_, body_chunks_le _ _, body_chunks_flatten _ _ (le_refl _)⟩
  · intro ev hev
    exact (hfit ev (fits_parse_loop _ _ _ ev hev)).2
  · intro evs hevs ev hev
    apply hfit
    unfold read_signed_cleartext at hevs
    split at hevs
    · simp at hevs
    · split_ifs at hevs
      · split at hevs
        · simp at hevs
        · split at hevs
          · simp at hevs
          · split at hevs
            · simp at hevs
            · simp only [Except.ok.injEq] at hevs
              subst hevs
              simp only [List.mem_append, List.mem_cons, List.mem_map, List.not_mem_nil,
                or_false] at hev
              rcases hev with ((h | ⟨c, hc, h⟩) | h) | h
              · subst h; rfl
              · subst h
                simp [body_chunk_fits, body_chunks_le _ _ c hc]
              · subst h; rfl
              · exact fits_parse_loop _ _ _ ev h

theorem body_chunks_two (f : Nat) (d : List Nat) (h1 : 8192 < d.length)
    (h2 : d.length ≤ 2 * 8192) :
    body_chunks (f + 2) d = [d.take 8192, d.drop 8192] := by
  cases d with
  | nil => simp at h1
  | cons b bs =>
    cases hd : (b :: bs).drop 8192 with
    | nil =>
      have := congrArg List.length hd
      simp only [List.length_drop, List.length_nil] at this
      omega
    | cons c cs =>
      have hlen : (c :: cs).length ≤ 8192 := by
        rw [← hd, List.length_drop]
        omega
      simp only [body_chunks, hd, List.take_of_length_le hlen, List.drop_of_length_le hlen]
      cases f <;> rfl

/-- An example for C11: a body of 9000 octets comes in two chunks, of 8192 and
808 octets. -/
theorem body_chunks_example (d : List Nat) (h : d.length = 9000) :
    (body_chunks d.length d).map List.length = [8192, 808] := by
  have h2 := body_chunks_two 8998 d (by omega) (by omega)
  rw [h, h2]
  simp only [List.map_cons, List.map_nil, List.length_take, List.length_drop, h]
  rfl

/-- The calls of the copy loop: for every read with a positive result, in
order, the read and the `ops_write` of what it gave; then the read that ends
the loop. -/
theorem copy_loop_trace (α : Type) (fd : Int) (rs : List read_result) :
    (copy_loop α fd rs).1
      = ((rs.takeWhile (fun r => decide (0 < r.n))).map
            (fun r => [sdk_call.sys_read fd, .ops_write r.buf r.n])).flatten
          ++ [.sys_read fd] := by
  induction rs with
  | nil => rfl
  | cons r rs ih =>
    unfold copy_loop
    split_ifs with h0 hneg
    · have : ¬ 0 < r.n := by omega
      simp [List.takeWhile, this]
    · have : ¬ 0 < r.n := by omega
      simp [List.takeWhile, this]
    · have : 0 < r.n := by omega
      simp [List.takeWhile, this, ih]

theorem copy_loop_write_calls (α : Type) (fd : Int) (rs : List read_result) :
    ops_write_calls (copy_loop α fd rs).1
      = (rs.takeWhile (fun r => decide (0 < r.n))).map (fun r => (r.buf, r.n)) := by
  induction rs with
  | nil => rfl
  | cons r rs ih =>
    unfold copy_loop
    split_ifs with h0 hneg
    · have : ¬ 0 < r.n := by omega
      simp [List.takeWhile, this, ops_write_calls]
    · have : ¬ 0 < r.n := by omega
      simp [List.takeWhile, this, ops_write_calls]
    · have : 0 < r.n := by omega
      simp only [List.takeWhile, this, decide_True, List.map_cons]
      rw [← ih]
      simp [ops_write_calls]

theorem copy_loop_bytes (α : Type) (fd : Int) (rs : List read_result) :
    ((copy_loop α fd rs).1.map ops_write_bytes).flatten = input_consumed rs := by
  induction rs with
  | nil => rfl
  | cons r rs ih =>
    unfold copy_loop
    split_ifs with h0 hneg
    · have : ¬ 0 < r.n := by omega
      simp [input_consumed, this, ops_write_bytes]
    · have : ¬ 0 < r.n := by omega
      simp [input_consumed, this, ops_write_bytes]
    · have : 0 < r.n := by omega
      simp only [input_consumed, this, ↓reduceIte, List.map_cons, List.flatten_cons, ih]
      simp [ops_write_bytes]
/-- C21: in the copy loop of both examples, for every sequence of read results
within the bounds of `read` (at most 8192 octets, all of them in the buffer):
each ops_write call passes exactly the n bytes just read, with 1 <= n <= 8192,
in the order read; no ops_write happens after a read returns 0 (EOF) or a
negative value; so the concatenation of the buffers passed to ops_write equals
the input consumed up to EOF.  A run that ends before the loop makes no
ops_write. -/
theorem copy_loop_writes_input (κ δ : Type) (w : example_world κ δ)
    (hread : ∀ r ∈ w.reads, r.n ≤ 8192 ∧ r.n.toNat ≤ r.buf.length) :
    (∀ (α : Type) (fd : Int),
      (copy_loop α fd w.reads).1
        = ((w.reads.takeWhile (fun r => decide (0 < r.n))).map
              (fun r => [sdk_call.sys_read fd, .ops_write r.buf r.n])).flatten
            ++ [.sys_read fd]) ∧
    (∀ buf n, (buf, n) ∈ (w.reads.takeWhile (fun r => decide (0 < r.n))).map
        (fun r => (r.buf, r.n)) →
      1 ≤ n ∧ n ≤ 8192 ∧ ((buf.take n.toNat).length : Int) = n) ∧
    (ops_write_calls (sign_inline_main w).1
        = (if (sign_inline_main w).2 = .returned 0 ∨ (sign_inline_main w).2 = .exited 4 then
            (w.reads.takeWhile (fun r => decide (0 < r.n))).map (fun r => (r.buf, r.n))
          else []) ∧
      ((sign_inline_main w).1.map ops_write_bytes).flatten
        = (if (sign_inline_main w).2 = .returned 0 ∨ (sign_inline_main w).2 = .exited 4 then
            input_consumed w.reads
          else [])) ∧
    (ops_write_calls (encrypt_main w).1
        = (if (encrypt_main w).2 = .returned 0 ∨ (encrypt_main w).2 = .exited 4 then
            (w.reads.takeWhile (fun r => decide (0 < r.n))).map (fun r => (r.buf, r.n))
          else []) ∧
      ((encrypt_main w).1.map ops_write_bytes).flatten
        = (if (encrypt_main w).2 = .returned 0 ∨ (encrypt_main w).2 = .exited 4 then
            input_consumed w.reads
          else [])) := by
  refine ⟨fun α fd => copy_loop_trace α fd w.reads, ?_, ?_, ?_⟩
  · intro buf n h
    obtain ⟨r, hr, heq⟩ := List.mem_map.1 h
    simp only [Prod.mk.injEq] at heq
    obtain ⟨rfl, rfl⟩ := heq
    have hpos : 0 < r.n := by
      have := List.mem_takeWhile_imp hr
      simpa using this
    obtain ⟨h1, h2⟩ := hread r (List.takeWhile_subset _ hr)
    refine ⟨by omega, h1, ?_⟩
    rw [List.length_take, min_eq_left h2]
    exact Int.toNat_of_nonneg (by omega)
  · have key : ∀ m, sign_inline_main w = m →
        ops_write_calls m.1
          = (if m.2 = .returned 0 ∨ m.2 = .exited 4 then
              (w.reads.takeWhile (fun r => decide (0 < r.n))).map (fun r => (r.buf, r.n))
            else []) ∧
        (m.1.map ops_write_bytes).flatten
          = (if m.2 = .returned 0 ∨ m.2 = .exited 4 then input_consumed w.reads else []) := by
      intro m hm
      unfold sign_inline_main at hm
      split at hm
      · rename_i a0 keyfile user_id hashstr plainfile sigfile hargv
        have hc := copy_loop_write_calls ops_secret_key_t (w.sys_open plainfile .O_RDONLY) w.reads
        have hb := copy_loop_bytes ops_secret_key_t (w.sys_open plainfile .O_RDONLY) w.reads
        unfold ops_write_calls at hc
        split at hm
        · subst hm
          simp [ops_write_calls, ops_write_bytes]
        · split_ifs at hm <;> subst hm
          · simp [ops_write_calls, ops_write_bytes]
          · simp [ops_write_calls, ops_write_bytes]
          · simp [ops_write_calls, ops_write_bytes]
          · simp [ops_write_calls, ops_write_bytes, List.filterMap_append, hc, hb]
          · simp [ops_write_calls, ops_write_bytes, List.filterMap_append, hc, hb]
      · subst hm
        simp [ops_write_calls, ops_write_bytes]
    exact key _ rfl
  · have key : ∀ m, encrypt_main w = m →
        ops_write_calls m.1
          = (if m.2 = .returned 0 ∨ m.2 = .exited 4 then
              (w.reads.takeWhile (fun r => decide (0 < r.n))).map (fun r => (r.buf, r.n))
            else []) ∧
        (m.1.map ops_write_bytes).flatten
          = (if m.2 = .returned 0 ∨ m.2 = .exited 4 then input_consumed w.reads else []) := by
      intro m hm
      unfold encrypt_main at hm
      split at hm
      · have hc := copy_loop_write_calls δ 0 w.reads
        have hb := copy_loop_bytes δ 0 w.reads
        unfold ops_write_calls at hc
        split at hm
        · subst hm
          simp [ops_write_calls, ops_write_bytes]
        · split_ifs at hm <;> subst hm
          · simp [ops_write_calls, ops_write_bytes, List.filterMap_append, hc, hb]
          · simp [ops_write_calls, ops_write_bytes, List.filterMap_append, hc, hb]
      · subst hm
        simp [ops_write_calls, ops_write_bytes]
    exact key _ rfl

/-- Witness of C21: the example run, whose input of six octets is read in one
piece; sign-inline and encrypt each hand these six octets to ops_write, once. -/
theorem copy_loop_writes_input_witness :
    ops_write_calls (sign_inline_main example_run).1
      = [([104, 101, 108, 108, 111, 10], 6)] ∧
    ((sign_inline_main example_run).1.map ops_write_bytes).flatten
      = [104, 101, 108, 108, 111, 10] ∧
    input_consumed example_run.reads = [104, 101, 108, 108, 111, 10] ∧
    ((encrypt_main { example_run with argv := ["encrypt", "sec.gpg", "bob"] }).1.map
        ops_write_bytes).flatten = [104, 101, 108, 108, 111, 10] :=
  have h1 := copy_loop_writes_input _ _ example_run (by decide)
  have h2 := copy_loop_writes_input _ _
    { example_run with argv := ["encrypt", "sec.gpg", "bob"] } (by decide)
  ⟨by simpa using h1.2.2.1.1, by simpa using h1.2.2.1.2, by decide,
    by simpa using h2.2.2.2.2⟩
/-- C22 (the code differs): encrypt never calls ops_writer_close: no run of it
makes the call, and the example run hands its input to ops_write and reaches
`return 0` with the writer still open.  sign-inline does what the claim says:
every run of it that returns 0 has called ops_writer_close after its last
ops_write and after ops_write_signature, and makes no ops_write afterwards. -/
theorem encrypt_never_closes_writer :
    (∀ (κ δ : Type) (w : example_world κ δ),
      sdk_call.ops_writer_close ∉ (encrypt_main w).1) ∧
    ((encrypt_main { example_run with argv := ["encrypt", "sec.gpg", "bob"] }).2 = .returned 0 ∧
      ops_write_calls (encrypt_main { example_run with argv := ["encrypt", "sec.gpg", "bob"] }).1
        = [([104, 101, 108, 108, 111, 10], 6)] ∧
      (encrypt_main { example_run with argv := ["encrypt", "sec.gpg", "bob"] }).1.getLast?
        = some (.sys_read 0)) ∧
    (∀ (κ δ : Type) (w : example_world κ δ), (sign_inline_main w).2 = .returned 0 →
      ∃ skey pre,
        (sign_inline_main w).1
          = pre ++ [.ops_write_signature skey, .ops_writer_close, .ops_secret_key_free skey] ∧
        ops_write_calls (sign_inline_main w).1 = ops_write_calls pre) := by
  refine ⟨?_, by decide, ?_⟩
  · intro κ δ w h
    unfold encrypt_main at h
    split at h
    · split at h
      · simp at h
      · split_ifs at h
        · simp only [List.mem_append, List.mem_cons, List.not_mem_nil, or_false] at h
          rcases h with h | h
          · simp at h
          · rcases copy_loop_calls δ 0 w.reads _ h with h2 | ⟨r, -, -, h2⟩ <;> simp at h2
        · simp only [List.mem_append, List.mem_cons, List.not_mem_nil, or_false] at h
          rcases h with h | h
          · simp at h
          · rcases copy_loop_calls δ 0 w.reads _ h with h2 | ⟨r, -, -, h2⟩ <;> simp at h2
    · simp at h
  · intro κ δ w
    have key : ∀ m, sign_inline_main w = m → m.2 = .returned 0 →
        ∃ skey pre,
          m.1 = pre ++ [.ops_write_signature skey, .ops_writer_close,
            .ops_secret_key_free skey] ∧
          ops_write_calls m.1 = ops_write_calls pre := by
      intro m hm hret
      unfold sign_inline_main at hm
      split at hm
      · rename_i a0 keyfile user_id hashstr plainfile sigfile hargv
        split at hm
        · subst hm; simp at hret
        · rename_i skey hkey
          split_ifs at hm <;> subst hm
          · simp at hret
          · simp at hret
          · simp at hret
          · refine ⟨skey, [.ops_init, .get_secret_key keyfile,
                .ops_hash_algorithm_from_text hashstr, .ops_create_signature_new,
                .ops_signature_start_plaintext_signature skey
                  (w.ops_hash_algorithm_from_text hashstr) .OPS_SIG_BINARY,
                .sys_open sigfile, .ops_create_info_new,
                .ops_writer_set_fd (w.sys_open sigfile .O_CREAT_O_TRUNC_O_WRONLY),
                .ops_writer_push_dash_escaped, .sys_open plainfile]
                ++ (copy_loop ops_secret_key_t (w.sys_open plainfile .O_RDONLY) w.reads).1
                ++ [.sys_close (w.sys_open plainfile .O_RDONLY), .ops_writer_switch_to_signature,
                  .ops_signature_add_creation_time w.time, .ops_keyid skey,
                  .ops_signature_add_issuer_key_id, .ops_signature_hashed_subpackets_end],
              ?_, ?_⟩
            · simp
            · simp [ops_write_calls, List.filterMap_append]
          · simp at hret
      · subst hm; simp at hret
    exact key _ rfl

end OpenPGP
